import Mathlib

/-! Verification of dbench2benchstat.

A shallow embedding of `cmd/dbench2benchstat/main.go`: the line pattern `msgLine`,
the output template `outLine`, `asNanoseconds`, `parseFloat`, `GetResult` and
`Process`, together with models of the Go standard-library functions they call
(`regexp`, `time.ParseDuration`, `strconv.ParseInt`, `strconv.ParseFloat`,
`text/template`, `bufio.Scanner`).

Conventions.
* Go strings are modelled as Lean strings, that is as sequences of Unicode code
  points: the input is taken to be valid UTF-8.
* `time.Duration`, `int` and `int64` are modelled as `Int`; the places where the
  64-bit range matters carry explicit bounds.
* `float64` is modelled exactly: a finite double is an integer multiple of
  `2^-1074`, and every operation rounds the exact result to the nearest double,
  ties to even.
-/

namespace Dbench

/-! ## regexp: the fragment of RE2 used by `msgLine` -/

namespace regexp

/-- Single-character matchers of the pattern language. -/
inductive Cls where
  /-- A literal character. -/
  | lit (c : Char)
  /-- The dot: any character except newline. -/
  | any
  /-- Perl class `\s`, which is `[\t\n\f\r ]`. -/
  | space
  /-- Perl class `\S`, the complement of `\s`. -/
  | notSpace
  /-- Perl class `\d`, which is `[0-9]`. -/
  | digit
  deriving DecidableEq, Repr

/-- Membership in `[\t\n\f\r ]`. -/
def isSpace (x : Char) : Bool :=
  x == '\t' || x == '\n' || x == Char.ofNat 12 || x == '\r' || x == ' '

/-- Membership in `[0-9]`. -/
def isDigit (x : Char) : Bool :=
  decide ('0' ≤ x) && decide (x ≤ '9')

/-- Does the character belong to the class? -/
def Cls.test : Cls → Char → Bool
  | .lit c, x => x == c
  | .any, x => x != '\n'
  | .space, x => isSpace x
  | .notSpace, x => !isSpace x
  | .digit, x => isDigit x

/-- One item of a pattern: a single character, a greedy repetition of a
character class, or a capturing group around a greedy `+` repetition. -/
inductive Item where
  /-- Exactly one character of the class. -/
  | one (c : Cls)
  /-- Greedy `c*`. -/
  | star (c : Cls)
  /-- Greedy `c+`. -/
  | plus (c : Cls)
  /-- Capturing group `(c+)`. -/
  | cap (c : Cls)
  deriving DecidableEq, Repr

/-- A pattern is a concatenation of items. -/
abbrev Regexp := List Item

/-- A literal string as a pattern. -/
def lits (s : String) : Regexp :=
  s.data.map fun c => Item.one (Cls.lit c)

/-- Greedy repetition with backtracking: `acc` is the text consumed so far by
the repetition; the longest run is tried first and the continuation `k` decides
whether the rest of the pattern matches. -/
def rep {α : Type} (p : Char → Bool) (k : List Char → List Char → Option α) :
    List Char → List Char → Option α
  | acc, [] => k acc []
  | acc, c :: cs =>
    if p c then
      match rep p k (acc ++ [c]) cs with
      | some r => some r
      | none => k acc (c :: cs)
    else k acc (c :: cs)

/-- Match a pattern at the start of `s` in backtracking priority order.
Returns the captured groups (in order) and the unconsumed rest of the text. -/
def matchHere : Regexp → List (List Char) → List Char →
    Option (List (List Char) × List Char)
  | [], caps, s => some (caps, s)
  | .one c :: r, caps, s =>
    match s with
    | [] => none
    | x :: xs => if c.test x then matchHere r caps xs else none
  | .star c :: r, caps, s => rep c.test (fun _ s' => matchHere r caps s') [] s
  | .plus c :: r, caps, s =>
    match s with
    | [] => none
    | x :: xs =>
      if c.test x then rep c.test (fun _ s' => matchHere r caps s') [x] xs else none
  | .cap c :: r, caps, s =>
    match s with
    | [] => none
    | x :: xs =>
      if c.test x then
        rep c.test (fun tok s' => matchHere r (caps ++ [tok]) s') [x] xs
      else none

/-- The submatch list of a match of `re` at the start of `s`: the whole matched
text followed by the groups. -/
def submatchHere (re : Regexp) (s : List Char) : Option (List String) :=
  match matchHere re [] s with
  | none => none
  | some (caps, rest) =>
    some (String.mk (s.take (s.length - rest.length)) :: caps.map String.mk)

/-- Leftmost match: the first start position at which the pattern matches. -/
def findFrom (re : Regexp) : List Char → Option (List String)
  | [] => submatchHere re []
  | c :: cs =>
    match submatchHere re (c :: cs) with
    | some m => some m
    | none => findFrom re cs

/-- Model of `(*Regexp).FindStringSubmatch`: the leftmost-first match of the
pattern anywhere in `t`; the empty list stands for the nil slice (no match). -/
def FindStringSubmatch (re : Regexp) (t : String) : List String :=
  match findFrom re t.data with
  | some m => m
  | none => []

end regexp

open regexp in
/-- The pattern
`\s*(\S+)\s+-> avg (\S+) out of (\d+) samples. \(std dev\s+(\S+), min (\S+), max (\S+)\)`. -/
def msgLine : regexp.Regexp :=
  [.star .space, .cap .notSpace, .plus .space] ++ lits "-> avg " ++
  [.cap .notSpace] ++ lits " out of " ++ [.cap .digit] ++ lits " samples" ++
  [.one .any] ++ lits " (std dev" ++ [.plus .space, .cap .notSpace] ++
  lits ", min " ++ [.cap .notSpace] ++ lits ", max " ++
  [.cap .notSpace, .one (.lit ')')]

/-! ## float64: exact model of IEEE-754 binary64 arithmetic -/

namespace float64

/-- Floor of the binary logarithm, by repeated halving (`fuel` bounds the
number of halvings). -/
def log2f : Nat → Nat → Nat
  | 0, _ => 0
  | fuel + 1, n => if 2 ≤ n then log2f fuel (n / 2) + 1 else 0

/-- Floor of the binary logarithm (`0` at `0`). -/
def log2 (n : Nat) : Nat := log2f n n

/-- Round the quotient `n / d` to the nearest integer, ties to even. -/
def rhe (n d : Nat) : Nat :=
  let q := n / d
  let r := n % d
  if 2 * r < d then q
  else if d < 2 * r then q + 1
  else if q % 2 = 0 then q else q + 1

/-- The number of units `2^-1074` that make up `1`. -/
@[irreducible] def U : Nat := 2 ^ 1074

/-- The first magnitude, in units, that is too large for a finite double:
`2^1024`. -/
@[irreducible] def maxU : Nat := 2 ^ 1024 * U

/-- The double nearest to the rational `n / d`, in units of `2^-1074`, with an
unbounded exponent range above: the significand keeps 53 bits, or fewer in the
subnormal range. -/
def nearest (n d : Nat) : Nat :=
  let e := log2 (n * U / d) - 52
  rhe (n * U) (d * 2 ^ e) * 2 ^ e

/-- A `float64` value. A finite value is `± k * 2^-1074`. -/
inductive F64 where
  /-- Finite value with sign `neg` and magnitude `k * 2^-1074`. -/
  | fin (neg : Bool) (k : Nat)
  /-- Infinity with sign `neg`. -/
  | inf (neg : Bool)
  /-- Not a number. -/
  | nan
  deriving DecidableEq, Repr

/-- Round `± n / d` to `float64`; magnitudes that round to `2^1024` or more
become infinite. -/
def round (neg : Bool) (n d : Nat) : F64 :=
  if nearest n d < maxU then .fin neg (nearest n d) else .inf neg

/-- Conversion `float64(n)` of an unsigned integer. -/
def ofNat (n : Nat) : F64 := round false n 1

/-- Product `a * b`. -/
def mul : F64 → F64 → F64
  | .nan, _ => .nan
  | _, .nan => .nan
  | .inf a, .inf b => .inf (xor a b)
  | .inf a, .fin b k => if k = 0 then .nan else .inf (xor a b)
  | .fin a j, .inf b => if j = 0 then .nan else .inf (xor a b)
  | .fin a j, .fin b k => round (xor a b) (j * k) (U * U)

/-- Quotient `a / b`. -/
def div : F64 → F64 → F64
  | .nan, _ => .nan
  | _, .nan => .nan
  | .inf _, .inf _ => .nan
  | .inf a, .fin b _ => .inf (xor a b)
  | .fin a _, .inf b => .fin (xor a b) 0
  | .fin a j, .fin b k =>
    if k = 0 then (if j = 0 then .nan else .inf (xor a b)) else round (xor a b) j k

/-- Conversion `int64(x)` (and `int(x)` on a 64-bit target): truncation toward
zero. The Go specification leaves the result implementation-dependent when the
value is out of range; as on amd64, it is then the minimum `int64`. -/
def toInt64 : F64 → Int
  | .fin false k => if k / U < 2 ^ 63 then (k / U : Nat) else -(2 ^ 63)
  | .fin true k => if k / U ≤ 2 ^ 63 then -((k / U : Nat) : Int) else -(2 ^ 63)
  | _ => -(2 ^ 63)

/-- Conversion `uint64(x)`: truncation toward zero, with `2^63` for values the
type cannot represent (as on amd64). -/
def toUint64 : F64 → Nat
  | .fin false k => if k / U < 2 ^ 64 then k / U else 2 ^ 63
  | .fin true k => if k / U = 0 then 0 else 2 ^ 63
  | _ => 2 ^ 63

end float64

/-! ## strconv -/

namespace strconv

/-- The two kinds of `*NumError`. -/
inductive NumError where
  /-- `ErrSyntax`. -/
  | invalid
  /-- `ErrRange`. -/
  | range
  deriving DecidableEq, Repr

/-- Value of a decimal digit character. -/
def digitVal (c : Char) : Nat := c.toNat - 48

/-- Value of a string of decimal digits. -/
def decVal (s : List Char) : Nat := s.foldl (fun n c => n * 10 + digitVal c) 0

/-- Digit loop of `ParseUint` in base 10: `n` is the value so far. -/
def uintLoop (bitSize : Nat) : Nat → List Char → Except NumError Nat
  | n, [] => .ok n
  | n, c :: cs =>
    if regexp.isDigit c then
      if n ≥ (2 ^ 64 - 1) / 10 + 1 then .error .range
      else if n * 10 + digitVal c > 2 ^ bitSize - 1 then .error .range
      else uintLoop bitSize (n * 10 + digitVal c) cs
    else .error .invalid

/-- Model of `strconv.ParseUint(s, 10, bitSize)`. -/
def ParseUint (s : List Char) (bitSize : Nat) : Except NumError Nat :=
  if s = [] then .error .invalid else uintLoop bitSize 0 s

/-- Sign handling and range check of `ParseInt`. -/
def parseIntChars (s : List Char) (bitSize : Nat) : Except NumError Int :=
  match s with
  | [] => .error .invalid
  | c :: cs =>
    let neg := c == '-'
    let body := if c == '+' || c == '-' then cs else c :: cs
    match ParseUint body bitSize with
    | .error .invalid => .error .invalid
    | .error .range => .error .range
    | .ok un =>
      if !neg && un ≥ 2 ^ (bitSize - 1) then .error .range
      else if neg && un > 2 ^ (bitSize - 1) then .error .range
      else .ok (if neg then -(un : Int) else (un : Int))

/-- Model of `strconv.ParseInt(s, 10, bitSize)`. -/
def ParseInt (s : String) (bitSize : Nat) : Except NumError Int :=
  parseIntChars s.data bitSize

/-- Model of `strconv.FormatInt(i, 10)`, also the `%v` and `%d` rendering of an
integer. -/
def FormatInt (i : Int) : String := toString i

/-- Length of the common prefix of `s` and the lower-case word `w`, ignoring the
case of `s` (`commonPrefixLenIgnoreCase`). -/
def commonPrefixLen : List Char → List Char → Nat
  | c :: cs, w :: ws => if c.toLower = w then commonPrefixLen cs ws + 1 else 0
  | _, _ => 0

/-- Infinity or NaN: `special` consumes an optional sign and `inf`, `infinity`
or (unsigned) `nan`, in any case. Returns the value and the unconsumed rest. -/
def special (s : List Char) : Option (float64.F64 × List Char) :=
  let infinity (neg : Bool) (t : List Char) : Option (float64.F64 × List Char) :=
    let n := commonPrefixLen t "infinity".data
    if n = 8 then some (.inf neg, t.drop 8)
    else if 3 ≤ n then some (.inf neg, t.drop 3)
    else none
  match s with
  | [] => none
  | c :: cs =>
    if c = '+' then infinity false cs
    else if c = '-' then infinity true cs
    else if c = 'i' ∨ c = 'I' then infinity false (c :: cs)
    else if c = 'n' ∨ c = 'N' then
      if commonPrefixLen (c :: cs) "nan".data = 3 then some (.nan, cs.drop 2) else none
    else none

/-- Is `c` one of the hexadecimal letters `a-f`, `A-F`? -/
def isHexLetter (c : Char) : Bool :=
  decide ('a' ≤ c.toLower) && decide (c.toLower ≤ 'f')

/-- Model of `underscoreOK`: underscores may appear only between digits, or
between a base prefix and a digit. `saw` is the kind of the previous character:
`0` a digit (or the base prefix), `1` an underscore, `2` anything else. -/
def underscoreLoop (hex : Bool) : Nat → List Char → Bool
  | saw, [] => saw != 1
  | saw, c :: cs =>
    if regexp.isDigit c || (hex && isHexLetter c) then underscoreLoop hex 0 cs
    else if c = '_' then (if saw != 0 then false else underscoreLoop hex 1 cs)
    else if saw = 1 then false
    else underscoreLoop hex 2 cs

/-- Model of `underscoreOK`. -/
def underscoreOK (s : List Char) : Bool :=
  let s := match s with
    | c :: cs => if c = '-' ∨ c = '+' then cs else c :: cs
    | [] => []
  match s with
  | c0 :: c1 :: cs =>
    if c0 = '0' ∧ (c1.toLower = 'b' ∨ c1.toLower = 'o' ∨ c1.toLower = 'x') then
      underscoreLoop (c1.toLower = 'x') 0 cs
    else underscoreLoop false 2 (c0 :: c1 :: cs)
  | s => underscoreLoop false 2 s

/-- State of the mantissa loop of `readFloat`. The mantissa is kept exactly:
the result of `ParseFloat` is the correctly rounded value of all digits. -/
structure Mantissa where
  /-- The digits read so far, as a number in the base of the literal. -/
  mant : Nat
  /-- A dot was seen. -/
  sawdot : Bool
  /-- A digit was seen. -/
  sawdigits : Bool
  /-- Number of digits read after the dot. -/
  frac : Nat
  /-- An underscore was seen. -/
  underscores : Bool
  deriving DecidableEq, Repr

/-- Mantissa loop of `readFloat`: digits, underscores and at most one dot.
Returns the final state and the unconsumed rest. -/
def readMantissa (hex : Bool) : Mantissa → List Char → Mantissa × List Char
  | st, [] => (st, [])
  | st, c :: cs =>
    if c = '_' then readMantissa hex { st with underscores := true } cs
    else if c = '.' then
      if st.sawdot then (st, c :: cs)
      else readMantissa hex { st with sawdot := true } cs
    else if regexp.isDigit c then
      readMantissa hex { st with
        sawdigits := true
        mant := st.mant * (if hex then 16 else 10) + digitVal c
        frac := if st.sawdot then st.frac + 1 else st.frac } cs
    else if hex && isHexLetter c then
      readMantissa hex { st with
        sawdigits := true
        mant := st.mant * 16 + (c.toLower.toNat - 87)
        frac := if st.sawdot then st.frac + 1 else st.frac } cs
    else (st, c :: cs)

/-- Digits of the exponent of `readFloat`; the accumulated value stops growing
at `10000`. Returns the value, whether an underscore was seen, and the rest. -/
def readExpDigits : Nat → Bool → List Char → Nat × Bool × List Char
  | e, u, [] => (e, u, [])
  | e, u, c :: cs =>
    if c = '_' then readExpDigits e true cs
    else if regexp.isDigit c then
      readExpDigits (if e < 10000 then e * 10 + digitVal c else e) u cs
    else (e, u, c :: cs)

/-- Optional exponent of `readFloat` with marker `expChar` (`e` or `p`).
`none` is a malformed literal; otherwise the signed exponent (`0` when there is
no exponent part), whether an underscore was seen, and the rest. -/
def readExponent (hex : Bool) (s : List Char) : Option (Int × Bool × List Char) :=
  match s with
  | c :: cs =>
    if c.toLower = (if hex then 'p' else 'e') then
      let (neg, ds) := match cs with
        | '+' :: ds => (false, ds)
        | '-' :: ds => (true, ds)
        | ds => (false, ds)
      match ds with
      | d :: _ =>
        if regexp.isDigit d then
          let (e, u, rest) := readExpDigits 0 false ds
          some (if neg then -(e : Int) else (e : Int), u, rest)
        else none
      | [] => none
    else if hex then none else some (0, false, c :: cs)
  | [] => if hex then none else some (0, false, [])

/-- The exact value `mant * base ^ exp` as a fraction. -/
def scaled (mant base : Nat) (exp : Int) : Nat × Nat :=
  if 0 ≤ exp then (mant * base ^ exp.toNat, 1) else (mant, base ^ (-exp).toNat)

/-- The end of `readFloat` and the conversion: after the mantissa `st` of a
literal `s` with sign `neg`, reads the optional exponent from `rest`, checks
that the literal ends there and that its underscores are well placed, and
rounds the value. A literal that rounds to an infinity is a range error. -/
def finishFloat (s : List Char) (neg hex : Bool) (st : Mantissa) (rest : List Char) :
    Except NumError float64.F64 :=
  if !st.sawdigits then .error .invalid
  else
    match readExponent hex rest with
    | none => .error .invalid
    | some (e, u, rest') =>
      if rest' ≠ [] then .error .invalid
      else if (st.underscores || u) && !underscoreOK s then .error .invalid
      else
        match float64.round neg
          (if hex then scaled st.mant 2 (e - 4 * (st.frac : Int))
            else scaled st.mant 10 (e - (st.frac : Int))).1
          (if hex then scaled st.mant 2 (e - 4 * (st.frac : Int))
            else scaled st.mant 10 (e - (st.frac : Int))).2 with
        | .inf _ => .error .range
        | v => .ok v

/-- The number after the optional sign: a hexadecimal mantissa when `body`
starts with `0x` and has a character after it, else a decimal one. -/
def parseNumber (s : List Char) (neg : Bool) (body : List Char) :
    Except NumError float64.F64 :=
  match body with
  | c0 :: c1 :: c2 :: cs =>
    if c0 = '0' ∧ c1.toLower = 'x' then
      match readMantissa true ⟨0, false, false, 0, false⟩ (c2 :: cs) with
      | (st, rest) => finishFloat s neg true st rest
    else
      match readMantissa false ⟨0, false, false, 0, false⟩ body with
      | (st, rest) => finishFloat s neg false st rest
  | _ =>
    match readMantissa false ⟨0, false, false, 0, false⟩ body with
    | (st, rest) => finishFloat s neg false st rest

/-- Model of `strconv.ParseFloat(s, 64)` on the characters of `s`. The whole
string must be a Go floating-point literal (decimal or hexadecimal, with an
optional sign, underscores only between digits) or one of the special values;
the result is the nearest `float64`, and a literal that rounds to an infinity
is a range error. -/
def parseFloatChars (s : List Char) : Except NumError float64.F64 :=
  match special s with
  | some (v, rest) => if rest = [] then .ok v else .error .invalid
  | none =>
    match s with
    | '+' :: cs => parseNumber s false cs
    | '-' :: cs => parseNumber s true cs
    | cs => parseNumber s false cs

/-- Model of `strconv.ParseFloat(s, 64)`. -/
def ParseFloat (s : String) : Except NumError float64.F64 :=
  parseFloatChars s.data

end strconv

/-! ## time -/

namespace time

/-- Nanoseconds per millisecond: `time.Millisecond / time.Nanosecond`. -/
def Millisecond : Nat := 1000000

/-- The errors of `ParseDuration`. -/
inductive DurationError where
  /-- `time: invalid duration`. -/
  | invalid
  /-- `time: missing unit in duration`. -/
  | missingUnit
  /-- `time: unknown unit`. -/
  | unknownUnit (u : String)
  deriving DecidableEq, Repr

/-- Model of `leadingInt`: consumes the leading digits; `none` on overflow past
`2^63`. `x` is the value so far. -/
def leadingInt : Nat → List Char → Option (Nat × List Char)
  | x, [] => some (x, [])
  | x, c :: cs =>
    if regexp.isDigit c then
      if x > 2 ^ 63 / 10 then none
      else if x * 10 + strconv.digitVal c > 2 ^ 63 then none
      else leadingInt (x * 10 + strconv.digitVal c) cs
    else some (x, c :: cs)

/-- Model of `leadingFraction`: consumes the leading digits, accumulating the
value `x` and the scale (a power of ten, as a `float64`) until the value would
overflow; later digits are consumed but ignored. -/
def leadingFraction : Nat → float64.F64 → Bool → List Char →
    Nat × float64.F64 × List Char
  | x, scale, _, [] => (x, scale, [])
  | x, scale, overflow, c :: cs =>
    if regexp.isDigit c then
      if overflow then leadingFraction x scale true cs
      else if x > (2 ^ 63 - 1) / 10 then leadingFraction x scale true cs
      else if x * 10 + strconv.digitVal c > 2 ^ 63 then leadingFraction x scale true cs
      else leadingFraction (x * 10 + strconv.digitVal c)
        (float64.mul scale (float64.ofNat 10)) false cs
    else (x, scale, c :: cs)

/-- The table `unitMap`, in nanoseconds. -/
def unitMap (u : List Char) : Option Nat :=
  if u = "ns".data then some 1
  else if u = "us".data then some 1000
  else if u = [Char.ofNat 0xB5, 's'] then some 1000
  else if u = [Char.ofNat 0x3BC, 's'] then some 1000
  else if u = "ms".data then some 1000000
  else if u = "s".data then some 1000000000
  else if u = "m".data then some 60000000000
  else if u = "h".data then some 3600000000000
  else none

/-- The second half of one `number unit` term: with the integer part `v`, the
fraction `f / scale` and the text `s` after the number, looks up the unit,
scales the number to nanoseconds and adds it to the sum `d` so far (all
arithmetic in `uint64`). Returns the new sum and the rest of the text. -/
def applyUnit (d v f : Nat) (scale : float64.F64) (s : List Char) :
    Except DurationError (Nat × List Char) :=
  let u := s.takeWhile fun c => !(c = '.' || regexp.isDigit c)
  let rest := s.dropWhile fun c => !(c = '.' || regexp.isDigit c)
  if u = [] then .error .missingUnit
  else
    match unitMap u with
    | none => .error (.unknownUnit (String.mk u))
    | some unit =>
      if v > 2 ^ 63 / unit then .error .invalid
      else
        let v1 := v * unit
        let v2 :=
          if f > 0 then
            (v1 + float64.toUint64 (float64.mul (float64.ofNat f)
              (float64.div (float64.ofNat unit) scale))) % 2 ^ 64
          else v1
        if f > 0 ∧ v2 > 2 ^ 63 then .error .invalid
        else if (d + v2) % 2 ^ 64 > 2 ^ 63 then .error .invalid
        else .ok ((d + v2) % 2 ^ 64, rest)

/-- One `number unit` term of a duration, added to the sum `d` so far: the
leading integer, an optional dot and fraction, and the unit. There must be a
digit before or after the dot. -/
def term (d : Nat) (s : List Char) : Except DurationError (Nat × List Char) :=
  match s with
  | [] => .error .invalid
  | c :: _ =>
    if !(c = '.' || regexp.isDigit c) then .error .invalid
    else
      match leadingInt 0 s with
      | none => .error .invalid
      | some (v, s1) =>
        match s1 with
        | '.' :: t =>
          match leadingFraction 0 (float64.ofNat 1) false t with
          | (f, scale, s2) =>
            if s.length = s1.length ∧ t.length = s2.length then .error .invalid
            else applyUnit d v f scale s2
        | _ =>
          if s.length = s1.length then .error .invalid
          else applyUnit d v 0 (float64.ofNat 1) s1

/-- The loop `for s != ""` of `ParseDuration`; every term consumes at least one
character, so `fuel = len(s)` iterations suffice. -/
def terms : Nat → Nat → List Char → Except DurationError Nat
  | _, d, [] => .ok d
  | 0, _, _ :: _ => .error .invalid
  | fuel + 1, d, c :: cs =>
    match term d (c :: cs) with
    | .error e => .error e
    | .ok (d1, rest) => terms fuel d1 rest

/-- The part of `ParseDuration` after the optional sign has been consumed. -/
def parseDurationBody (neg : Bool) (body : List Char) : Except DurationError Int :=
  if body = ['0'] then .ok 0
  else if body = [] then .error .invalid
  else
    match terms body.length 0 body with
    | .error e => .error e
    | .ok d =>
      if neg then .ok (-(d : Int))
      else if d > 2 ^ 63 - 1 then .error .invalid
      else .ok (d : Int)

/-- Model of `time.ParseDuration` on the characters of the string: the duration
in nanoseconds. -/
def parseDurationChars (s : List Char) : Except DurationError Int :=
  match s with
  | '-' :: cs => parseDurationBody true cs
  | '+' :: cs => parseDurationBody false cs
  | cs => parseDurationBody false cs

/-- Model of `time.ParseDuration`. -/
def ParseDuration (s : String) : Except DurationError Int :=
  parseDurationChars s.data

end time

/-! ## text/template and io.Writer -/

/-- An `io.Writer` that records what it accepts. `room` is the number of further
`Write` calls that succeed (`none`: every call succeeds). -/
structure Writer where
  /-- Everything written so far. -/
  out : String
  /-- Remaining successful writes. -/
  room : Option Nat
  deriving DecidableEq, Repr

/-- One `Write` call: the new writer state and whether the call succeeded. -/
def Writer.write (w : Writer) (s : String) : Writer × Bool :=
  match w.room with
  | none => ({ w with out := w.out ++ s }, true)
  | some 0 => (w, false)
  | some (n + 1) => ({ out := w.out ++ s, room := some n }, true)

/-- Result is the parsed result out of a message line. -/
structure Result where
  /-- Name of the benchmark. -/
  Name : String
  /-- Average, a `time.Duration` in nanoseconds. -/
  Average : Int
  /-- Number of samples, an `int`. -/
  NumSamples : Int
  /-- Standard deviation, a `time.Duration`. -/
  StdDev : Int
  /-- Minimum, a `time.Duration`. -/
  Min : Int
  /-- Maximum, a `time.Duration`. -/
  Max : Int
  deriving DecidableEq, Repr

/-- The zero value `var r Result`. -/
def Result.zero : Result := ⟨"", 0, 0, 0, 0, 0⟩

/-- Model of `asNanoseconds`: `d.Nanoseconds()` is the duration as an `int64`. -/
def asNanoseconds (d : Int) : Int := d

/-- The function map `funcs`: only `ns` is defined. -/
def funcs (name : String) : Option (Int → Int) :=
  if name = "ns" then some asNanoseconds else none

namespace template

/-- The duration fields of `Result`. -/
inductive DurationField where
  /-- Field `.Average`. -/
  | Average
  /-- Field `.StdDev`. -/
  | StdDev
  /-- Field `.Min`. -/
  | Min
  /-- Field `.Max`. -/
  | Max
  deriving DecidableEq, Repr

/-- Value of a duration field. -/
def DurationField.get : DurationField → Result → Int
  | .Average, r => r.Average
  | .StdDev, r => r.StdDev
  | .Min, r => r.Min
  | .Max, r => r.Max

/-- The template nodes that `outLine` is made of. -/
inductive Node where
  /-- Literal text between actions. -/
  | text (s : String)
  /-- The action `{{.Name}}`. -/
  | name
  /-- The action `{{.NumSamples}}`. -/
  | numSamples
  /-- The action `{{fn .F}}` for a function of the map and a duration field. -/
  | call (fn : String) (f : DurationField)
  deriving DecidableEq, Repr

/-- The text a node evaluates to; `none` when the function is not defined.
Values are printed as `fmt.Fprint` prints them: a string verbatim, an integer
in decimal. No escaping is applied (`text/template`). -/
def Node.eval (r : Result) : Node → Option String
  | .text s => some s
  | .name => some r.Name
  | .numSamples => some (strconv.FormatInt r.NumSamples)
  | .call fn f =>
    match funcs fn with
    | some g => some (strconv.FormatInt (g (f.get r)))
    | none => none

/-- Model of `(*Template).Execute`: every node is evaluated and written with a
`Write` call of its own; the first failure stops the execution. Returns the
writer and whether the execution succeeded. -/
def Execute : List Node → Writer → Result → Writer × Bool
  | [], w, _ => (w, true)
  | n :: ns, w, r =>
    match n.eval r with
    | none => (w, false)
    | some s =>
      match w.write s with
      | (w1, true) => Execute ns w1 r
      | (w1, false) => (w1, false)

end template

/-- The output template
`Benchmark{{.Name}}\t{{.NumSamples}}\t{{ns .Average}} ns/op`. -/
def outLine : List template.Node :=
  [.text "Benchmark", .name, .text "\t", .numSamples, .text "\t",
   .call "ns" .Average, .text " ns/op"]

/-- NameGroup is the group matching the test name. -/
def NameGroup : Nat := 1
/-- AvgGroup is the group matching the average test time. -/
def AvgGroup : Nat := 2
/-- NumSamplesGroup is the group matching the number of samples collected. -/
def NumSamplesGroup : Nat := 3
/-- StdDevGroup is the group matching the standard deviation of the samples. -/
def StdDevGroup : Nat := 4
/-- MinGroup is the group matching the minimum time. -/
def MinGroup : Nat := 5
/-- MaxGroup is the group matching the maximum time. -/
def MaxGroup : Nat := 6

/-- The two errors of `parseFloat`. -/
inductive ParseFloatError where
  /-- `could not parse as float64: %v: %v`. -/
  | float (s : String) (err : strconv.NumError)
  /-- `could not parse duration from: %d`. -/
  | duration (rawNs : Int)
  deriving DecidableEq, Repr

/-- Model of `parseFloat`: parses out a duration from a string that has no units,
like `0.12345`; the default units are milliseconds. Returns the duration and the
error, as the Go function does (the duration is zero when there is an error). -/
def parseFloat (s : String) : Int × Option ParseFloatError :=
  match strconv.ParseFloat s with
  | .error err => (0, some (.float s err))
  | .ok raw =>
    let rawNs := float64.toInt64 (float64.mul (float64.ofNat time.Millisecond) raw)
    match time.ParseDuration (strconv.FormatInt rawNs ++ "ns") with
    | .error _ => (0, some (.duration rawNs))
    | .ok d => (d, none)

/-- The errors of `GetResult`, one for each `fmt.Errorf` of the function; each
carries the line `t` that is formatted into the message with `%q`. -/
inductive GetResultError where
  /-- `could not parse: %q: %+v`. -/
  | noMatch (t : String) (m : List String)
  /-- `could not parse average duration from: %q: %v`. -/
  | average (t : String) (err : time.DurationError)
  /-- `could not parse number of samples from: %q: %v`. -/
  | samples (t : String) (err : strconv.NumError)
  /-- `could not parse std dev from: %q: %v`. -/
  | stdDev (t : String) (err : ParseFloatError)
  /-- `could not parse min duration from: %q: %v`. -/
  | min (t : String) (err : ParseFloatError)
  /-- `could not parse max duration from: %q: %v`. -/
  | max (t : String) (err : ParseFloatError)
  deriving DecidableEq, Repr

/-- The renderings of package `fmt` that the messages of `GetResult` use and
that are not modelled: `quote` is the verb `%q` on a string (`strconv.Quote`),
the other fields are the verb `%v` (`%+v` for the submatches) on the second
argument of each `fmt.Errorf`. -/
structure Verbs where
  /-- Verb `%q` on a string. -/
  quote : String → String
  /-- Verb `%+v` on the submatches. -/
  submatches : List String → String
  /-- Verb `%v` on an error of `time.ParseDuration`. -/
  durationError : time.DurationError → String
  /-- Verb `%v` on an error of `strconv.ParseInt`. -/
  numError : strconv.NumError → String
  /-- Verb `%v` on an error of `parseFloat`. -/
  floatError : ParseFloatError → String

/-- The message of an error of `GetResult`, as `fmt.Errorf` builds it from the
format, the line `t` and the second argument. -/
def GetResultError.Error (f : Verbs) : GetResultError → String
  | .noMatch t m => "could not parse: " ++ f.quote t ++ ": " ++ f.submatches m
  | .average t err =>
    "could not parse average duration from: " ++ f.quote t ++ ": " ++ f.durationError err
  | .samples t err =>
    "could not parse number of samples from: " ++ f.quote t ++ ": " ++ f.numError err
  | .stdDev t err => "could not parse std dev from: " ++ f.quote t ++ ": " ++ f.floatError err
  | .min t err => "could not parse min duration from: " ++ f.quote t ++ ": " ++ f.floatError err
  | .max t err => "could not parse max duration from: " ++ f.quote t ++ ": " ++ f.floatError err

/-- Model of `GetResult`: parses a Result out of a single line of text. Returns
the pair `(r, err)` of the Go function; `err = none` is the nil error. -/
def GetResult (t : String) : Result × Option GetResultError :=
  let r := Result.zero
  let m := regexp.FindStringSubmatch msgLine t
  if m.length ≠ MaxGroup + 1 then (r, some (.noMatch t m))
  else
    let r := { r with Name := m.getD NameGroup "" }
    match time.ParseDuration (m.getD AvgGroup "") with
    | .error err => (r, some (.average t err))
    | .ok avg =>
      let r := { r with Average := avg }
      match strconv.ParseInt (m.getD NumSamplesGroup "") 32 with
      | .error err => (r, some (.samples t err))
      | .ok rawSamples =>
        let r := { r with NumSamples := rawSamples }
        match parseFloat (m.getD StdDevGroup "") with
        | (d, some err) => ({ r with StdDev := d }, some (.stdDev t err))
        | (d, none) =>
          let r := { r with StdDev := d }
          match parseFloat (m.getD MinGroup "") with
          | (d, some err) => ({ r with Min := d }, some (.min t err))
          | (d, none) =>
            let r := { r with Min := d }
            match parseFloat (m.getD MaxGroup "") with
            | (d, some err) => ({ r with Max := d }, some (.max t err))
            | (d, none) => ({ r with Max := d }, none)

/-! ## bufio.Scanner -/

namespace bufio

/-- The default limit on the size of a token: `MaxScanTokenSize = 64 * 1024`. -/
def MaxScanTokenSize : Nat := 64 * 1024

/-- The lines of the data: the text between newlines, and a final unterminated
line if it is not empty (`ScanLines` without the carriage-return handling). -/
def splitLines : List Char → List (List Char)
  | [] => []
  | c :: cs =>
    if c = '\n' then [] :: splitLines cs
    else
      match splitLines cs with
      | [] => [[c]]
      | l :: ls => (c :: l) :: ls

/-- Model of `dropCR`: drops one trailing carriage return. -/
def dropCR (l : List Char) : List Char :=
  if l.getLast? = some '\r' then l.dropLast else l

/-- Length in bytes of the UTF-8 encoding. -/
def byteLen (l : List Char) : Nat := (l.map fun c => c.utf8Size).sum

/-- The tokens that `Scan` delivers with the split function `ScanLines` and the
default buffer: scanning stops (with `ErrTooLong`) at the first line that does
not fit the buffer of `MaxScanTokenSize` bytes together with its newline. A
read error of the underlying reader ends the scan after the data read before
it has been delivered. -/
def scan (data : List Char) : List String :=
  (((splitLines data).takeWhile fun l => decide (byteLen l < MaxScanTokenSize)).map
    fun l => String.mk (dropCR l))

end bufio

/-- An `io.Reader`: the bytes it delivers and how the stream ends, with
`io.EOF` (`none`) or with a read error. -/
structure Reader where
  /-- The data read before the end of the stream. -/
  data : String
  /-- The read error that ends the stream, if any. -/
  err : Option String
  deriving DecidableEq, Repr

/-- The error of `Process`: `could not output a line for: %q: %v`. -/
inductive ProcessError where
  /-- The template could not be written for line `t`. -/
  | output (t : String)
  deriving DecidableEq, Repr

/-- The loop `for s.Scan()` of `Process` over the scanned lines. A line that
does not parse is reported on standard error (not modelled) and skipped. The
result of the final `fmt.Fprintln(w, "")` is not looked at. -/
def processLines : List String → Writer → Writer × Option ProcessError
  | [], w => (w, none)
  | t :: ts, w =>
    match GetResult t with
    | (_, some _) => processLines ts w
    | (res, none) =>
      match template.Execute outLine w res with
      | (w1, false) => (w1, some (.output t))
      | (w1, true) => processLines ts (w1.write "\n").1

/-- Model of `Process`: returns the writer and the returned error. The loop ends
when `Scan` reports false, and `nil` is returned whatever the reason was: the
error of the scanner is never consulted. -/
def Process (r : Reader) (w : Writer) : Writer × Option ProcessError :=
  processLines (bufio.scan r.data.data) w

/-! ## Vocabulary of the statements -/

/-- The example line of the source comment and of the tests. -/
def exampleLine : String :=
  "basic/increment -> avg 0.00927782162588819ms out of 2534 samples. (std dev 0.00161196365508829, min 0.008, max 0.082)"

/-- Text of the shape the pattern matches: leading whitespace `pre`, the name
`N`, whitespace `w1`, `-> avg `, the average `A`, ` out of `, the count `S`,
` samples`, one character `dot`, ` (std dev`, whitespace `w2`, then `D`,
`, min `, `Mi`, `, max `, `Ma`, `)` and the trailing text `tail`. -/
def lineText (pre N w1 A S : List Char) (dot : Char) (w2 D Mi Ma tail : List Char) : List Char :=
  pre ++ (N ++ (w1 ++ ("-> avg ".data ++ (A ++ (" out of ".data ++ (S ++ (" samples".data ++
    (dot :: (" (std dev".data ++ (w2 ++ (D ++ (", min ".data ++ (Mi ++ (", max ".data ++
    (Ma ++ (')' :: tail))))))))))))))))

/-- The line `N -> avg A out of S samples. (std dev D, min Mi, max Ma)` with
single spaces, where `A` includes its unit. -/
def lineOf (N A S D Mi Ma : List Char) : String :=
  String.mk (lineText [] N [' '] A S '.' [' '] D Mi Ma [])

/-- The words with a single space between consecutive words. -/
def joinWords : List (List Char) → List Char
  | [] => []
  | [w] => w
  | w :: ws => w ++ ' ' :: joinWords ws

/-- The words with the gaps between consecutive words:
`w0 ++ g0 ++ w1 ++ g1 ++ ...`, ending with the last word. -/
def weave : List (List Char) → List (List Char) → List Char
  | [], _ => []
  | [w], _ => w
  | w :: ws, [] => w ++ weave ws []
  | w :: ws, g :: gs => w ++ (g ++ weave ws gs)

/-- Runs of characters that alternate between whitespace and other characters:
no run is empty, the first run holds whitespace exactly when `b` is true, and
`e` tells whether whitespace comes next after the last run. -/
def Runs : Bool → Bool → List (List Char) → Prop
  | b, e, [] => b = e
  | b, e, x :: xs => x ≠ [] ∧ (∀ c ∈ x, regexp.isSpace c = b) ∧ Runs (!b) e xs

/-- The characters of the lines with a newline between consecutive lines. -/
def joinChars : List String → List Char
  | [] => []
  | [l] => l.data
  | l :: ls => l.data ++ '\n' :: joinChars ls

/-- Model of `strings.Join(elems, "\n")`, which builds the input of `TestProcess`
from its lines. -/
def joinLines (elems : List String) : String :=
  String.mk (joinChars elems)

/-- The output line of a Result: what the template `outLine` writes to an
empty writer that accepts every write. -/
def render (r : Result) : String :=
  (template.Execute outLine ⟨"", none⟩ r).1.out

/-- What one input line contributes to the output of `Process`: the rendered
Result and a newline when `GetResult` succeeds, nothing otherwise. -/
def emit (t : String) : String :=
  match GetResult t with
  | (r, none) => render r ++ "\n"
  | (_, some _) => ""

/-- Concatenation of a list of strings. -/
def concat : List String → String
  | [] => ""
  | s :: ss => s ++ concat ss

/-- A line that the scanner delivers: it holds no newline and is shorter than
the scanner's buffer. -/
def Scannable (t : String) : Prop :=
  '\n' ∉ t.data ∧ bufio.byteLen t.data < bufio.MaxScanTokenSize

instance (t : String) : Decidable (Scannable t) := by
  unfold Scannable; exact inferInstance

/-- A valid line that is longer than the buffer of the scanner: its name is
`x` repeated `65536` times. -/
def longLine : String :=
  lineOf (List.replicate 65536 'x') "1ms".data "1".data "1".data "1".data "1".data

/-- A non-empty run of characters of one class. -/
def Token (p : Char → Bool) (s : List Char) : Prop := s ≠ [] ∧ ∀ c ∈ s, p c = true

instance (p : Char → Bool) (s : List Char) : Decidable (Token p s) := by
  unfold Token; exact inferInstance

/-- Every character is a decimal digit. -/
def Digits (s : List Char) : Prop := ∀ c ∈ s, regexp.isDigit c = true

instance (s : List Char) : Decidable (Digits s) := by
  unfold Digits; exact inferInstance

/-- The decimal literal with integer digits `ip` and fraction digits `fp`; there
is no dot when `fp` is empty. -/
def decimal (ip fp : List Char) : List Char :=
  if fp = [] then ip else ip ++ '.' :: fp

/-- The digits `ip` and `fp` make a decimal literal `ip` or `ip.fp` whose integer
part is below `bound`. -/
def IsDecimal (ip fp : List Char) (bound : Nat) : Prop :=
  ip ≠ [] ∧ Digits ip ∧ Digits fp ∧ strconv.decVal ip < bound

instance (ip fp : List Char) (bound : Nat) : Decidable (IsDecimal ip fp bound) := by
  unfold IsDecimal; exact inferInstance

/-- The `float64` that `strconv.ParseFloat` returns for the decimal literal with
integer digits `ip` and fraction digits `fp`: the double nearest to its value. -/
def decimalFloat (ip fp : List Char) : float64.F64 :=
  float64.round false (strconv.decVal (ip ++ fp)) (10 ^ fp.length)

/-- The nanoseconds `parseFloat` computes for the decimal literal `ip.fp`: the
product with `1e6` in `float64`, truncated. -/
def msValue (ip fp : List Char) : Int :=
  float64.toInt64 (float64.mul (float64.ofNat time.Millisecond) (decimalFloat ip fp))

namespace regexp

/-- The repetition of `p` cannot extend into `rest`: `rest` is empty or starts
with a character outside `p`. -/
def Stops (p : Char → Bool) (rest : List Char) : Prop :=
  ∀ c cs, rest = c :: cs → p c = false

/-- The character class of an item. -/
def Item.cls : Item → Cls
  | .one c => c
  | .star c => c
  | .plus c => c
  | .cap c => c

/-- Does the item consume at least one character? -/
def Item.consumes : Item → Bool
  | .star _ => false
  | _ => true

/-- The pattern cannot match the empty text: one of its items consumes a
character. -/
def needsChar (re : Regexp) : Bool := re.any Item.consumes

/-- A final character `x` of the text never takes part in a match: every item
whose class accepts `x` is followed by a pattern that needs a character. -/
def ignoresLast (x : Char) : Regexp → Bool
  | [] => true
  | it :: r => (!it.cls.test x || needsChar r) && ignoresLast x r

end regexp

namespace strconv

/-- Value of a string of decimal digits appended to the number `x`. -/
def decValFrom (x : Nat) (s : List Char) : Nat := s.foldl (fun n c => n * 10 + digitVal c) x

/-- A character of a decimal literal: a digit or the dot. -/
def isDecChar (c : Char) : Bool := regexp.isDigit c || c == '.'

end strconv

namespace time

/-- The nanoseconds that `ParseDuration` adds for the fraction digits `fp` of a
number of milliseconds: `uint64(float64(f) * (float64(unit) / scale))`. -/
def msFraction (fp : List Char) : Nat :=
  match leadingFraction 0 (float64.ofNat 1) false fp with
  | (f, scale, _) =>
    if f > 0 then
      float64.toUint64 (float64.mul (float64.ofNat f)
        (float64.div (float64.ofNat Millisecond) scale))
    else 0

/-- What `leadingFraction` maintains: the value fits 63 bits and is below the
scale, which is an exact power of ten up to `10^19` and at least `10^19` (or
infinite) afterwards. -/
def FracInv (x : Nat) (scale : float64.F64) : Prop :=
  x ≤ 2 ^ 63 ∧
    (scale = .inf false ∨
      (∃ j, j ≤ 19 ∧ scale = .fin false (10 ^ j * float64.U) ∧ x < 10 ^ j) ∨
      ∃ k, scale = .fin false k ∧ 10 ^ 19 * float64.U ≤ k)

end time

end Dbench

/-! ## Theorems -/

namespace Dbench

open regexp strconv float64

theorem isDigit_iff (c : Char) : isDigit c = true ↔ 48 ≤ c.toNat ∧ c.toNat ≤ 57 := by
  simp [isDigit, Char.le_def, Char.toNat, UInt32.le_def, BitVec.le_def, UInt32.toNat]

theorem isSpace_iff (c : Char) : isSpace c = true ↔
    c.toNat = 9 ∨ c.toNat = 10 ∨ c.toNat = 12 ∨ c.toNat = 13 ∨ c.toNat = 32 := by
  simp [isSpace, Char.ext_iff, Char.toNat, UInt32.ext_iff, UInt32.size]
  tauto

theorem char_eq_iff (c d : Char) : c = d ↔ c.toNat = d.toNat := by
  simp [Char.ext_iff, Char.toNat, UInt32.ext_iff]

namespace strconv

theorem decVal_eq (s : List Char) : decVal s = decValFrom 0 s := rfl

theorem decValFrom_nil (x : Nat) : decValFrom x [] = x := rfl

theorem decValFrom_cons (x : Nat) (c : Char) (s : List Char) :
    decValFrom x (c :: s) = decValFrom (x * 10 + digitVal c) s := rfl

theorem decValFrom_append (x : Nat) (s t : List Char) :
    decValFrom x (s ++ t) = decValFrom (decValFrom x s) t := by
  simp [decValFrom, List.foldl_append]

theorem decValFrom_eq (x : Nat) (s : List Char) :
    decValFrom x s = x * 10 ^ s.length + decValFrom 0 s := by
  induction s generalizing x with
  | nil => simp [decValFrom]
  | cons c s ih =>
    rw [decValFrom_cons, ih, decValFrom_cons, ih (0 * 10 + digitVal c)]
    simp [pow_succ]; ring

theorem le_decValFrom (x : Nat) (s : List Char) : x ≤ decValFrom x s := by
  rw [decValFrom_eq]
  have : 1 ≤ 10 ^ s.length := Nat.one_le_pow _ _ (by norm_num)
  nlinarith

theorem digitVal_lt (c : Char) (h : isDigit c = true) : digitVal c < 10 := by
  rw [isDigit_iff] at h; unfold digitVal; omega

theorem decValFrom_lt (s : List Char) (h : ∀ c ∈ s, isDigit c = true) :
    decValFrom 0 s < 10 ^ s.length := by
  induction s using List.reverseRecOn with
  | nil => simp [decValFrom]
  | append_singleton s c ih =>
    rw [decValFrom_append, decValFrom_cons, decValFrom_nil]
    have h1 := ih (fun a ha => h a (by simp [ha]))
    have h2 := digitVal_lt c (h c (by simp))
    simp [pow_succ]; omega

end strconv

namespace regexp

theorem stops_nil (p : Char → Bool) : Stops p [] := by
  intro c cs h; cases h

theorem stops_cons {p : Char → Bool} {c : Char} (h : p c = false) (cs : List Char) :
    Stops p (c :: cs) := by
  intro c' cs' h'; cases h'; exact h

theorem rep_stop {α : Type} (p : Char → Bool) (k : List Char → List Char → Option α)
    (acc rest : List Char) (h : Stops p rest) : rep p k acc rest = k acc rest := by
  cases rest with
  | nil => simp [rep]
  | cons c cs => simp [rep, h c cs rfl]

theorem rep_first {α : Type} (p : Char → Bool) (k : List Char → List Char → Option α)
    (run rest : List Char) (hrun : ∀ c ∈ run, p c = true) (hstop : Stops p rest) (acc : List Char)
    (r : α) (hk : k (acc ++ run) rest = some r) : rep p k acc (run ++ rest) = some r := by
  induction run generalizing acc with
  | nil => rw [List.nil_append, rep_stop p k acc rest hstop]; simpa using hk
  | cons c run ih =>
    have hc : p c = true := hrun c (List.mem_cons_self _ _)
    have := ih (fun a ha => hrun a (List.mem_cons_of_mem _ ha)) (acc ++ [c]) (by simpa using hk)
    simp [rep, hc, this]

theorem rep_second {α : Type} (p : Char → Bool) (k : List Char → List Char → Option α)
    (run rest : List Char) (d : Char) (hrun : ∀ c ∈ run, p c = true) (hd : p d = true)
    (hstop : Stops p rest) (acc : List Char) (r : α)
    (hfail : k (acc ++ run ++ [d]) rest = none) (hk : k (acc ++ run) (d :: rest) = some r) :
    rep p k acc (run ++ d :: rest) = some r := by
  induction run generalizing acc with
  | nil =>
    have h1 : rep p k (acc ++ [d]) rest = none := by
      rw [rep_stop p k _ rest hstop]; simpa using hfail
    simp only [List.nil_append, rep, hd, if_true, h1]
    simpa using hk
  | cons c run ih =>
    have hc : p c = true := hrun c (List.mem_cons_self _ _)
    have := ih (fun a ha => hrun a (List.mem_cons_of_mem _ ha)) (acc ++ [c])
      (by simpa using hfail) (by simpa using hk)
    simp [rep, hc, this]

theorem rep_none {α : Type} (p : Char → Bool) (k : List Char → List Char → Option α)
    (run rest : List Char) (hstop : Stops p rest) (acc : List Char)
    (h : ∀ i, i ≤ run.length → k (acc ++ run.take i) (run.drop i ++ rest) = none) :
    rep p k acc (run ++ rest) = none := by
  induction run generalizing acc with
  | nil => rw [List.nil_append, rep_stop p k acc rest hstop]; simpa using h 0 (Nat.le_refl _)
  | cons c run ih =>
    have h0 : k acc (c :: (run ++ rest)) = none := by simpa using h 0 (Nat.zero_le _)
    have h1 : rep p k (acc ++ [c]) (run ++ rest) = none := by
      apply ih
      intro i hi
      have := h (i + 1) (by simpa using hi)
      simpa using this
    by_cases hc : p c = true
    · simp [rep, hc, h1, h0]
    · simp [rep, hc, h0]

theorem matchHere_lits (l : List Char) (r : Regexp) (caps : List (List Char)) (s : List Char) :
    matchHere (l.map (fun c => Item.one (Cls.lit c)) ++ r) caps (l ++ s) = matchHere r caps s := by
  induction l with
  | nil => rfl
  | cons c l ih => simp [matchHere, Cls.test, ih]

theorem matchHere_lit_ne (a b : Char) (r : Regexp) (caps : List (List Char)) (s : List Char)
    (h : b ≠ a) : matchHere (Item.one (Cls.lit a) :: r) caps (b :: s) = none := by
  simp [matchHere, Cls.test, h]

theorem matchHere_cap_first (c : Cls) (r : Regexp) (caps : List (List Char))
    (tok rest : List Char) (x : List (List Char) × List Char) (htok : tok ≠ [])
    (hall : ∀ a ∈ tok, c.test a = true) (hstop : Stops c.test rest)
    (h : matchHere r (caps ++ [tok]) rest = some x) :
    matchHere (Item.cap c :: r) caps (tok ++ rest) = some x := by
  cases tok with
  | nil => exact absurd rfl htok
  | cons a tok =>
    have ha : c.test a = true := hall a (List.mem_cons_self _ _)
    simp only [List.cons_append, matchHere, ha, if_true]
    exact rep_first _ _ tok rest (fun b hb => hall b (List.mem_cons_of_mem _ hb)) hstop [a] x
      (by simpa using h)

theorem matchHere_cap_second (c : Cls) (r : Regexp) (caps : List (List Char))
    (tok rest : List Char) (d : Char) (x : List (List Char) × List Char) (htok : tok ≠ [])
    (hall : ∀ a ∈ tok, c.test a = true) (hd : c.test d = true) (hstop : Stops c.test rest)
    (hfail : matchHere r (caps ++ [tok ++ [d]]) rest = none)
    (h : matchHere r (caps ++ [tok]) (d :: rest) = some x) :
    matchHere (Item.cap c :: r) caps (tok ++ d :: rest) = some x := by
  cases tok with
  | nil => exact absurd rfl htok
  | cons a tok =>
    have ha : c.test a = true := hall a (List.mem_cons_self _ _)
    simp only [List.cons_append, matchHere, ha, if_true]
    exact rep_second _ _ tok rest d (fun b hb => hall b (List.mem_cons_of_mem _ hb)) hd hstop [a] x
      (by simpa using hfail) (by simpa using h)

theorem matchHere_plus_first (c : Cls) (r : Regexp) (caps : List (List Char))
    (run rest : List Char) (x : List (List Char) × List Char) (hrun : run ≠ [])
    (hall : ∀ a ∈ run, c.test a = true) (hstop : Stops c.test rest)
    (h : matchHere r caps rest = some x) :
    matchHere (Item.plus c :: r) caps (run ++ rest) = some x := by
  cases run with
  | nil => exact absurd rfl hrun
  | cons a run =>
    have ha : c.test a = true := hall a (List.mem_cons_self _ _)
    simp only [List.cons_append, matchHere, ha, if_true]
    exact rep_first _ _ run rest (fun b hb => hall b (List.mem_cons_of_mem _ hb)) hstop [a] x h

theorem matchHere_star_first (c : Cls) (r : Regexp) (caps : List (List Char))
    (run rest : List Char) (x : List (List Char) × List Char)
    (hall : ∀ a ∈ run, c.test a = true) (hstop : Stops c.test rest)
    (h : matchHere r caps rest = some x) :
    matchHere (Item.star c :: r) caps (run ++ rest) = some x := by
  simp only [matchHere]
  exact rep_first _ _ run rest hall hstop [] x h

end regexp

namespace time

theorem leadingInt_digits (ds rest : List Char) (x : Nat) (hds : ∀ c ∈ ds, isDigit c = true)
    (hstop : Stops isDigit rest) (hb : decValFrom x ds ≤ 2 ^ 63) :
    leadingInt x (ds ++ rest) = some (decValFrom x ds, rest) := by
  induction ds generalizing x with
  | nil =>
    cases rest with
    | nil => simp [leadingInt, decValFrom]
    | cons c cs => simp [leadingInt, decValFrom, hstop c cs rfl]
  | cons c ds ih =>
    have hc : isDigit c = true := hds c (List.mem_cons_self _ _)
    rw [decValFrom_cons] at hb
    have h1 := le_decValFrom (x * 10 + digitVal c) ds
    have h2 : ¬ x > 2 ^ 63 / 10 := by omega
    have h3 : ¬ x * 10 + digitVal c > 2 ^ 63 := by omega
    simp only [List.cons_append, leadingInt, hc, if_true, h2, h3, if_false]
    exact ih _ (fun a ha => hds a (List.mem_cons_of_mem _ ha)) hb

end time

namespace strconv

theorem digitChar_isDigit (k : Nat) (h : k < 10) : isDigit (Nat.digitChar k) = true := by
  interval_cases k <;> decide

theorem digitVal_digitChar (k : Nat) (h : k < 10) : digitVal (Nat.digitChar k) = k := by
  interval_cases k <;> decide

theorem toDigitsCore_spec (fuel n : Nat) (ds : List Char) (h : n < fuel) :
    ∃ l, Nat.toDigitsCore 10 fuel n ds = l ++ ds ∧ l ≠ [] ∧ (∀ c ∈ l, isDigit c = true) ∧
      decValFrom 0 l = n := by
  induction fuel generalizing n ds with
  | zero => omega
  | succ fuel ih =>
    have hm : n % 10 < 10 := Nat.mod_lt _ (by norm_num)
    simp only [Nat.toDigitsCore]
    by_cases h0 : n / 10 = 0
    · refine ⟨[Nat.digitChar (n % 10)], by simp [h0], by simp, ?_, ?_⟩
      · intro c hc; simp at hc; subst hc; exact digitChar_isDigit _ hm
      · simp [decValFrom, digitVal_digitChar _ hm]; omega
    · obtain ⟨l, hl, _, hdig, hval⟩ := ih (n / 10) (Nat.digitChar (n % 10) :: ds) (by omega)
      refine ⟨l ++ [Nat.digitChar (n % 10)], by simp [h0, hl], by simp, ?_, ?_⟩
      · intro c hc
        rcases List.mem_append.1 hc with hc | hc
        · exact hdig c hc
        · simp at hc; subst hc; exact digitChar_isDigit _ hm
      · rw [decValFrom_append, hval, decValFrom_cons, decValFrom_nil, digitVal_digitChar _ hm]
        omega

theorem repr_spec (n : Nat) :
    (Nat.repr n).data ≠ [] ∧ (∀ c ∈ (Nat.repr n).data, isDigit c = true) ∧
      decValFrom 0 (Nat.repr n).data = n := by
  obtain ⟨l, hl, hne, hdig, hval⟩ := toDigitsCore_spec (n + 1) n [] (Nat.lt_succ_self n)
  have : (Nat.repr n).data = l := by
    simp [Nat.repr, Nat.toDigits, hl, List.asString]
  rw [this]; exact ⟨hne, hdig, hval⟩

end strconv

namespace time

theorem applyUnit_ns (v : Nat) (sc : float64.F64) (h : v ≤ 2 ^ 63) :
    applyUnit 0 v 0 sc ['n', 's'] = .ok (v, []) := by
  have h64 : v % 18446744073709551616 = v := Nat.mod_eq_of_lt (by omega)
  have hb' : ¬ 9223372036854775808 < v := by omega
  simp [applyUnit, unitMap, isDigit, h64, hb']

theorem term_ns (ds : List Char) (hne : ds ≠ [])
    (hds : ∀ c ∈ ds, isDigit c = true) (hb : decValFrom 0 ds ≤ 2 ^ 63) :
    term 0 (ds ++ ['n', 's']) = .ok (decValFrom 0 ds, []) := by
  have hli := leadingInt_digits ds ['n', 's'] 0 hds (stops_cons (by decide) _) hb
  cases ds with
  | nil => exact absurd rfl hne
  | cons c ds =>
    have hc : isDigit c = true := hds c (List.mem_cons_self _ _)
    rw [List.cons_append] at hli ⊢
    simp only [term, hc, hli, applyUnit_ns _ _ hb]
    simp

theorem terms_of_term (s : List Char) (d d1 : Nat) (hs : s ≠ [])
    (h : term d s = .ok (d1, [])) : terms s.length d s = .ok d1 := by
  cases s with
  | nil => exact absurd rfl hs
  | cons c cs => simp [terms, h]

theorem parseDurationBody_of_term (neg : Bool) (s : List Char) (d1 : Nat) (hs : s ≠ [])
    (h0 : s ≠ ['0']) (h : term 0 s = .ok (d1, [])) :
    parseDurationBody neg s =
      if neg then .ok (-(d1 : Int)) else if d1 > 2 ^ 63 - 1 then .error .invalid
      else .ok (d1 : Int) := by
  simp only [parseDurationBody, hs, h0, if_false, terms_of_term s 0 d1 hs h]

theorem parseDurationChars_of_digit (c : Char) (l : List Char) (hc : isDigit c = true) :
    parseDurationChars (c :: l) = parseDurationBody false (c :: l) := by
  have hc1 : c ≠ '-' := by
    rw [isDigit_iff] at hc; rw [Ne, char_eq_iff]; have : ('-' : Char).toNat = 45 := by decide
    omega
  have hc2 : c ≠ '+' := by
    rw [isDigit_iff] at hc; rw [Ne, char_eq_iff]; have : ('+' : Char).toNat = 43 := by decide
    omega
  simp only [parseDurationChars]
  split
  · rename_i heq; simp at heq; exact absurd heq.1 hc1
  · rename_i heq; simp at heq; exact absurd heq.1 hc2
  · rfl

theorem parseDuration_nat (n : Nat) (h : n < 2 ^ 63) :
    parseDurationChars ((Nat.repr n).data ++ ['n', 's']) = .ok (n : Int) := by
  obtain ⟨hne, hdig, hval⟩ := repr_spec n
  have ht := term_ns _ hne hdig (by omega)
  generalize (Nat.repr n).data = l at *
  cases l with
  | nil => exact absurd rfl hne
  | cons c l =>
    have hc : isDigit c = true := hdig c (List.mem_cons_self _ _)
    rw [List.cons_append] at ht ⊢
    rw [parseDurationChars_of_digit c _ hc,
      parseDurationBody_of_term false _ _ (by simp) (by cases l <;> simp) ht]
    rw [hval]
    have hval' : ¬ n > 2 ^ 63 - 1 := by omega
    simp
    omega

theorem parseDuration_negNat (n : Nat) (h : n ≤ 2 ^ 63) :
    parseDurationChars ('-' :: ((Nat.repr n).data ++ ['n', 's'])) = .ok (-(n : Int)) := by
  obtain ⟨hne, hdig, hval⟩ := repr_spec n
  have ht := term_ns _ hne hdig (by omega)
  rw [show parseDurationChars ('-' :: ((Nat.repr n).data ++ ['n', 's'])) =
    parseDurationBody true ((Nat.repr n).data ++ ['n', 's']) from rfl,
    parseDurationBody_of_term true _ _ (by simp) ?_ ht]
  · simp [hval]
  · intro h0
    have := congrArg List.length h0
    simp at this

/-- `ParseDuration` reads back what `%vns` prints, for every `int64`. -/
theorem ParseDuration_format (i : Int) (h1 : -(2 ^ 63) ≤ i) (h2 : i < 2 ^ 63) :
    ParseDuration (strconv.FormatInt i ++ "ns") = .ok i := by
  unfold ParseDuration strconv.FormatInt
  cases i with
  | ofNat n =>
    have : (toString (Int.ofNat n) ++ "ns").data = (Nat.repr n).data ++ ['n', 's'] := by
      simp [toString, instToStringInt, Int.repr]
    rw [this, parseDuration_nat n (by simp only [Int.ofNat_eq_coe] at h2; omega)]
    rfl
  | negSucc n =>
    have : (toString (Int.negSucc n) ++ "ns").data =
        '-' :: ((Nat.repr (n + 1)).data ++ ['n', 's']) := by
      simp [toString, instToStringInt, Int.repr]
    rw [this, parseDuration_negNat (n + 1) (by rw [Int.negSucc_eq] at h1; omega)]
    rfl

end time

namespace float64

theorem U_pos : 0 < U := by unfold U; positivity

theorem rhe_mul_le (n d : Nat) : rhe n d * d ≤ 2 * n := by
  have hdm := Nat.div_add_mod n d
  have hqd : d * (n / d) ≤ n := Nat.mul_div_le n d
  unfold rhe
  simp only
  split_ifs with h1 h2 h3
  · nlinarith
  · have : (n / d + 1) * d = d * (n / d) + d := by ring
    omega
  · nlinarith
  · have : (n / d + 1) * d = d * (n / d) + d := by ring
    omega

theorem div_le_rhe (n d : Nat) : n / d ≤ rhe n d := by
  unfold rhe
  simp only
  split_ifs <;> omega

theorem rhe_exact (q d : Nat) (hd : 0 < d) : rhe (q * d) d = q := by
  unfold rhe
  simp [Nat.mul_div_cancel _ hd, hd]

theorem pow_log2f_le (fuel n : Nat) (h : 1 ≤ n) : 2 ^ log2f fuel n ≤ n := by
  induction fuel generalizing n with
  | zero => simpa [log2f] using h
  | succ fuel ih =>
    unfold log2f
    split_ifs with h2
    · have := ih (n / 2) (by omega)
      rw [pow_succ]; omega
    · simpa using h

theorem pow_log2_le (n : Nat) (h : 1 ≤ n) : 2 ^ log2 n ≤ n := pow_log2f_le n n h

theorem log2_lt_of_lt_pow (n k : Nat) (h : n < 2 ^ k) : log2 n < k ∨ n = 0 := by
  by_cases h0 : n = 0
  · exact Or.inr h0
  · left
    have h1 := pow_log2_le n (by omega)
    by_contra hk
    have : 2 ^ k ≤ 2 ^ log2 n := Nat.pow_le_pow_right (by norm_num) (by omega)
    omega

theorem nearest_mul_le (n d : Nat) : nearest n d * d ≤ 2 * (n * U) := by
  unfold nearest
  simp only
  have := rhe_mul_le (n * U) (d * 2 ^ (log2 (n * U / d) - 52))
  calc rhe (n * U) (d * 2 ^ (log2 (n * U / d) - 52)) *
        2 ^ (log2 (n * U / d) - 52) * d
      = rhe (n * U) (d * 2 ^ (log2 (n * U / d) - 52)) *
        (d * 2 ^ (log2 (n * U / d) - 52)) := by ring
    _ ≤ 2 * (n * U) := this

theorem nearest_exact (q d : Nat) (hd : 0 < d) (hq : q < 2 ^ 53) :
    nearest (q * d) d = q * U := by
  unfold nearest
  simp only
  have h1 : q * d * U / d = q * U := by
    rw [show q * d * U = q * U * d by ring, Nat.mul_div_cancel _ hd]
  rw [h1]
  have hlt : q * U < 2 ^ 1127 := by
    rw [show (2 : Nat) ^ 1127 = 2 ^ 53 * U by rw [U, ← pow_add]]
    exact Nat.mul_lt_mul_of_pos_right hq U_pos
  have he : log2 (q * U) - 52 ≤ 1074 := by
    rcases log2_lt_of_lt_pow _ _ hlt with h | h
    · omega
    · rw [h]; decide
  generalize log2 (q * U) - 52 = e at he
  have hp : U = 2 ^ e * 2 ^ (1074 - e) := by
    rw [U, ← pow_add]; congr 1; omega
  rw [hp, show q * d * (2 ^ e * 2 ^ (1074 - e)) = q * 2 ^ (1074 - e) * (d * 2 ^ e) by ring,
    rhe_exact _ _ (by positivity)]
  ring

theorem toInt64_range (x : F64) : -(2 ^ 63) ≤ toInt64 x ∧ toInt64 x < 2 ^ 63 := by
  cases x with
  | fin neg k =>
    cases neg
    · simp only [toInt64]
      split_ifs with h
      · constructor
        · have : (0 : Int) ≤ ((k / U : Nat) : Int) := Int.natCast_nonneg _
          omega
        · exact_mod_cast h
      · norm_num
    · simp only [toInt64]
      split_ifs with h
      · constructor
        · have : ((k / U : Nat) : Int) ≤ 2 ^ 63 := by exact_mod_cast h
          omega
        · have : (0 : Int) ≤ ((k / U : Nat) : Int) := Int.natCast_nonneg _
          omega
      · norm_num
  | inf neg => simp [toInt64]
  | nan => simp [toInt64]

end float64

namespace float64

theorem nearest_zero (d : Nat) : nearest 0 d = 0 := by
  have h := nearest_mul_le 0 d
  rcases Nat.eq_zero_or_pos d with h0 | h0
  · subst h0
    unfold nearest rhe
    simp only [Nat.zero_mul, Nat.div_zero, Nat.mod_zero, Nat.mul_zero, Nat.lt_irrefl, if_false]
    simp
  · simp only [Nat.zero_mul, Nat.mul_zero, Nat.le_zero_eq, Nat.mul_eq_zero] at h
    omega

theorem le_two_nearest (n d : Nat) (h : 1 ≤ n * U / d) :
    n * U / d ≤ 2 * nearest n d := by
  unfold nearest
  simp only
  have hd : 0 < d := by
    rcases Nat.eq_zero_or_pos d with h0 | h0
    · simp [h0] at h
    · exact h0
  set q := n * U / d with hq
  have hle : 2 ^ (log2 q - 52) ≤ q :=
    le_trans (Nat.pow_le_pow_right (by norm_num) (Nat.sub_le _ _)) (pow_log2_le q h)
  set p := 2 ^ (log2 q - 52) with hp
  have hp0 : 0 < p := by positivity
  have h1 : n * U / (d * p) = q / p := by rw [hq, Nat.div_div_eq_div_mul]
  have h2 := div_le_rhe (n * U) (d * p)
  rw [h1] at h2
  have h3 : 1 ≤ q / p := (Nat.one_le_div_iff hp0).2 hle
  have h4 := Nat.div_add_mod q p
  have h5 := Nat.mod_lt q hp0
  have h6 : p * (q / p) ≤ rhe (n * U) (d * p) * p := by
    rw [Nat.mul_comm]; exact Nat.mul_le_mul_right _ h2
  have h7 : p ≤ p * (q / p) := Nat.le_mul_of_pos_right _ h3
  omega

theorem ofNat_ten : ofNat 10 = .fin false (10 * U) := by decide!

theorem ofNat_one : ofNat 1 = .fin false (U) := by decide!

theorem ofNat_million : ofNat 1000000 = .fin false (1000000 * U) := by decide!

theorem mul_ten_exact : ∀ j, j < 20 →
    mul (.fin false (10 ^ j * U)) (ofNat 10) = .fin false (10 ^ (j + 1) * U) := by
  decide!

end float64

namespace time

theorem leadingFraction_append (ds rest : List Char) (hds : ∀ c ∈ ds, isDigit c = true)
    (hstop : Stops isDigit rest) (x : Nat) (sc : F64) (ov : Bool) :
    leadingFraction x sc ov (ds ++ rest) =
      ((leadingFraction x sc ov ds).1, (leadingFraction x sc ov ds).2.1, rest) := by
  induction ds generalizing x sc ov with
  | nil =>
    cases rest with
    | nil => simp [leadingFraction]
    | cons c cs => simp [leadingFraction, hstop c cs rfl]
  | cons c ds ih =>
    have hc : isDigit c = true := hds c (List.mem_cons_self _ _)
    have ih' := fun x sc ov => ih (fun a ha => hds a (List.mem_cons_of_mem _ ha)) x sc ov
    simp only [List.cons_append, leadingFraction, hc, if_true]
    split_ifs <;> exact ih' _ _ _

theorem fracInv_step (x : Nat) (sc : F64) (d : Nat) (hd : d < 10) (h : FracInv x sc)
    (hx : x * 10 + d ≤ 2 ^ 63) : FracInv (x * 10 + d) (mul sc (ofNat 10)) := by
  refine ⟨hx, ?_⟩
  rcases h.2 with h | ⟨j, hj, hsc, hlt⟩ | ⟨k, hsc, hk⟩
  · left; rw [h, ofNat_ten]
    have : (10 * U = 0) = False := by
      have := U_pos; simp; omega
    simp [mul, this]
  · have hm := mul_ten_exact j (by omega)
    rw [← hsc] at hm
    by_cases hj' : j < 19
    · right; left
      exact ⟨j + 1, by omega, hm, by rw [pow_succ]; omega⟩
    · right; right
      refine ⟨_, hm, ?_⟩
      have : j = 19 := by omega
      subst this
      exact Nat.mul_le_mul_right _ (by norm_num)
  · rw [hsc, ofNat_ten]
    simp only [mul, Bool.xor_false, float64.round]
    split_ifs with hfin
    · right; right
      refine ⟨_, rfl, ?_⟩
      have hU := U_pos
      have hq : k * (10 * U) * U / (U * U) = 10 * k := by
        rw [show k * (10 * U) * U = 10 * k * (U * U) by ring,
          Nat.mul_div_cancel _ (Nat.mul_pos hU hU)]
      have h2 := le_two_nearest (k * (10 * U)) (U * U) (by
        rw [hq]
        have : 0 < 10 ^ 19 * U := Nat.mul_pos (by norm_num) hU
        omega)
      rw [hq] at h2
      omega
    · left; rfl

theorem fracInv_leadingFraction (ds : List Char) (hds : ∀ c ∈ ds, isDigit c = true) (x : Nat)
    (sc : F64) (ov : Bool) (h : FracInv x sc) :
    FracInv (leadingFraction x sc ov ds).1 (leadingFraction x sc ov ds).2.1 := by
  induction ds generalizing x sc ov with
  | nil => simpa [leadingFraction] using h
  | cons c ds ih =>
    have hc : isDigit c = true := hds c (List.mem_cons_self _ _)
    have ih' := fun x sc ov h => ih (fun a ha => hds a (List.mem_cons_of_mem _ ha)) x sc ov h
    simp only [leadingFraction, hc, if_true]
    split_ifs with h1 h2 h3
    · exact ih' _ _ _ h
    · exact ih' _ _ _ h
    · exact ih' _ _ _ h
    · exact ih' _ _ _ (fracInv_step x sc _ (digitVal_lt c hc) h (by omega))

theorem fracInv_init : FracInv 0 (ofNat 1) := by
  refine ⟨by norm_num, Or.inr (Or.inl ⟨0, by norm_num, ?_, by norm_num⟩)⟩
  rw [ofNat_one]; simp

end time

namespace float64

theorem lt_maxU_of_le (k c : Nat) (h : k ≤ c * U) (hc : c < 2 ^ 100) : k < maxU := by
  unfold maxU
  exact lt_of_le_of_lt h (Nat.mul_lt_mul_of_pos_right
    (lt_of_lt_of_le hc (Nat.pow_le_pow_right (by decide) (by decide))) U_pos)

theorem maxU_pos : 0 < maxU := lt_maxU_of_le 0 0 (by simp) (by positivity)

theorem ofNat_fin (f : Nat) (hf : f ≤ 2 ^ 63) :
    ofNat f = .fin false (nearest f 1) ∧ nearest f 1 ≤ 2 * f * U := by
  have h1 := nearest_mul_le f 1
  have h2 : nearest f 1 ≤ 2 * f * U := by rw [Nat.mul_one] at h1; rw [Nat.mul_assoc]; exact h1
  have h3 : nearest f 1 < maxU := by
    apply lt_maxU_of_le _ (2 * 2 ^ 63) _ (by norm_num)
    calc nearest f 1 ≤ 2 * f * U := h2
      _ ≤ 2 * 2 ^ 63 * U := Nat.mul_le_mul_right _ (Nat.mul_le_mul_left _ hf)
  exact ⟨by simp [ofNat, float64.round, h3], h2⟩

end float64

namespace time

theorem FracInv.scale_cases {f : Nat} {sc : F64} (h : FracInv f sc) :
    sc = .inf false ∨ ∃ ks, sc = .fin false ks ∧ f * U ≤ ks := by
  rcases h.2 with h2 | ⟨j, _, hsc, hlt⟩ | ⟨k, hsc, hk⟩
  · exact Or.inl h2
  · exact Or.inr ⟨_, hsc, Nat.mul_le_mul_right _ (by omega)⟩
  · refine Or.inr ⟨_, hsc, le_trans (Nat.mul_le_mul_right _ ?_) hk⟩
    have := h.1
    have : (2 : Nat) ^ 63 ≤ 10 ^ 19 := by norm_num
    omega

theorem frac_bound (f : Nat) (sc : F64) (h : FracInv f sc) (hf : 0 < f) :
    toUint64 (mul (ofNat f) (div (ofNat 1000000) sc)) ≤ 8000000 := by
  obtain ⟨hkf, hkfle⟩ := ofNat_fin f h.1
  have hU := U_pos
  rw [hkf, ofNat_million]
  rcases h.scale_cases with hsc | ⟨ks, hsc, hks⟩
  · rw [hsc]
    simp only [div, mul, Bool.xor_false, Nat.mul_zero, float64.round, nearest_zero]
    have : 0 < maxU := maxU_pos
    simp [this, toUint64]
  · rw [hsc]
    have hks0 : ks ≠ 0 := by
      have : 0 < f * U := Nat.mul_pos hf hU
      omega
    have hUks : U ≤ ks := le_trans (Nat.le_mul_of_pos_left _ hf) hks
    set ku := nearest (1000000 * U) ks with hku
    have hku1 : ku * ks ≤ 2 * (1000000 * U * U) := nearest_mul_le _ _
    have hku2 : ku ≤ 2000000 * U := by
      have : ku * U ≤ 2000000 * U * U := by
        calc ku * U ≤ ku * ks := Nat.mul_le_mul_left _ hUks
          _ ≤ 2 * (1000000 * U * U) := hku1
          _ = 2000000 * U * U := by ring
      exact Nat.le_of_mul_le_mul_right this hU
    have hkufin : ku < maxU := lt_maxU_of_le _ _ hku2 (by norm_num)
    set kp := nearest (nearest f 1 * ku) (U * U) with hkp
    have hkp1 : kp * (U * U) ≤ 2 * (nearest f 1 * ku * U) := nearest_mul_le _ _
    have hprod : nearest f 1 * ku ≤ 4000000 * (U * U) := by
      calc nearest f 1 * ku ≤ 2 * f * U * ku := Nat.mul_le_mul_right _ hkfle
        _ = 2 * (f * U) * ku := by ring
        _ ≤ 2 * ks * ku := Nat.mul_le_mul_right _ (Nat.mul_le_mul_left _ hks)
        _ = 2 * (ku * ks) := by ring
        _ ≤ 2 * (2 * (1000000 * U * U)) := Nat.mul_le_mul_left _ hku1
        _ = 4000000 * (U * U) := by ring
    have hkp2 : kp ≤ 8000000 * U := by
      have : kp * (U * U) ≤ 8000000 * U * (U * U) := by
        calc kp * (U * U) ≤ 2 * (nearest f 1 * ku * U) := hkp1
          _ ≤ 2 * (4000000 * (U * U) * U) :=
            Nat.mul_le_mul_left _ (Nat.mul_le_mul_right _ hprod)
          _ = 8000000 * U * (U * U) := by ring
      exact Nat.le_of_mul_le_mul_right this (Nat.mul_pos hU hU)
    have hkpfin : kp < maxU := lt_maxU_of_le _ _ hkp2 (by norm_num)
    have hdiv : kp / U ≤ 8000000 := by
      rw [Nat.div_le_iff_le_mul_add_pred hU]
      omega
    simp only [div, hks0, if_false, Bool.xor_false, float64.round, ← hku, hkufin, if_true, mul,
      ← hkp, hkpfin, toUint64]
    split_ifs <;> omega

theorem msFraction_le (fp : List Char) (hfp : ∀ c ∈ fp, isDigit c = true) :
    msFraction fp ≤ 8000000 := by
  have h := fracInv_leadingFraction fp hfp 0 (ofNat 1) false fracInv_init
  unfold msFraction
  generalize leadingFraction 0 (ofNat 1) false fp = r at h
  obtain ⟨f, sc, rest⟩ := r
  simp only
  split_ifs with hf
  · exact frac_bound f sc h hf
  · omega

end time

namespace time

theorem msFraction_nil : msFraction [] = 0 := by
  simp [msFraction, leadingFraction]

theorem applyUnit_ms (v f : Nat) (sc : F64) (hv : v < 9 * 10 ^ 12)
    (hf : (if f > 0 then toUint64 (mul (ofNat f) (div (ofNat Millisecond) sc)) else 0)
      ≤ 8000000) :
    applyUnit 0 v f sc ['m', 's'] = .ok (v * 1000000 +
      (if f > 0 then toUint64 (mul (ofNat f) (div (ofNat Millisecond) sc)) else 0), []) := by
  have hv' : v < 9000000000000 := by norm_num at hv; exact hv
  have h1 : ¬ 9223372036854 < v := by omega
  by_cases hf0 : f > 0
  · simp only [hf0, if_true] at hf ⊢
    have hmod : (v * 1000000 + toUint64 (mul (ofNat f) (div (ofNat Millisecond) sc))) %
        18446744073709551616 =
        v * 1000000 + toUint64 (mul (ofNat f) (div (ofNat Millisecond) sc)) :=
      Nat.mod_eq_of_lt (by omega)
    have hsum : ¬ 9223372036854775808 <
        v * 1000000 + toUint64 (mul (ofNat f) (div (ofNat Millisecond) sc)) := by omega
    simp only [Millisecond] at hmod hsum ⊢
    simp [applyUnit, unitMap, isDigit, h1, hf0, hmod, hsum]
  · have hmod : (v * 1000000) % 18446744073709551616 = v * 1000000 :=
      Nat.mod_eq_of_lt (by omega)
    have hsum : ¬ 9223372036854775808 < v * 1000000 := by omega
    simp [applyUnit, unitMap, isDigit, h1, hf0, hmod, hsum]

theorem term_ms (ip fp : List Char) (hne : ip ≠ []) (hip : ∀ c ∈ ip, isDigit c = true)
    (hfp : ∀ c ∈ fp, isDigit c = true) (hb : decValFrom 0 ip < 9 * 10 ^ 12) :
    term 0 (decimal ip fp ++ ['m', 's']) =
      .ok (decValFrom 0 ip * 1000000 + msFraction fp, []) := by
  have hfr := msFraction_le fp hfp
  have hb' : decValFrom 0 ip ≤ 2 ^ 63 := by norm_num at hb ⊢; omega
  by_cases hfp0 : fp = []
  · subst hfp0
    have hli := leadingInt_digits ip ['m', 's'] 0 hip (stops_cons (by decide) _) hb'
    rw [msFraction_nil]
    simp only [decimal, if_true]
    cases ip with
    | nil => exact absurd rfl hne
    | cons c ip =>
      have hc : isDigit c = true := hip c (List.mem_cons_self _ _)
      rw [List.cons_append] at hli ⊢
      simp only [term, hc, hli, applyUnit_ms _ 0 _ hb (by simp)]
      simp
  · have hli := leadingInt_digits ip ('.' :: (fp ++ ['m', 's'])) 0 hip
      (stops_cons (by decide) _) hb'
    have hlf := leadingFraction_append fp ['m', 's'] hfp (stops_cons (by decide) _) 0
      (ofNat 1) false
    simp only [decimal, hfp0, if_false, List.append_assoc, List.cons_append]
    cases ip with
    | nil => exact absurd rfl hne
    | cons c ip =>
      have hc : isDigit c = true := hip c (List.mem_cons_self _ _)
      rw [List.cons_append] at hli ⊢
      unfold msFraction at hfr ⊢
      generalize leadingFraction 0 (ofNat 1) false fp = r at hlf hfr ⊢
      obtain ⟨f, sc, rest⟩ := r
      simp only at hlf hfr ⊢
      simp only [term, hc, hli, hlf, applyUnit_ms _ f sc hb hfr]
      simp
      intro; exact hfp0

end time

theorem decimal_cons (ip fp : List Char) (hne : ip ≠ []) :
    ∃ c l, decimal ip fp = c :: l ∧ ip.head? = some c := by
  cases ip with
  | nil => exact absurd rfl hne
  | cons c ip =>
    by_cases h : fp = []
    · exact ⟨c, ip, by simp [decimal, h], rfl⟩
    · exact ⟨c, ip ++ '.' :: fp, by simp [decimal, h], rfl⟩

namespace time

theorem parseDurationChars_ms (ip fp : List Char) (hne : ip ≠ [])
    (hip : ∀ c ∈ ip, isDigit c = true) (hfp : ∀ c ∈ fp, isDigit c = true)
    (hb : decValFrom 0 ip < 9 * 10 ^ 12) :
    parseDurationChars (decimal ip fp ++ ['m', 's']) =
      .ok ((decValFrom 0 ip * 1000000 + msFraction fp : Nat) : Int) := by
  have ht := term_ms ip fp hne hip hfp hb
  have hfr := msFraction_le fp hfp
  obtain ⟨c, l, hcl, hhead⟩ := decimal_cons ip fp hne
  have hc : isDigit c = true := by
    cases ip with
    | nil => exact absurd rfl hne
    | cons a ip => simp at hhead; subst hhead; exact hip _ (List.mem_cons_self _ _)
  rw [hcl] at ht ⊢
  rw [List.cons_append] at ht ⊢
  rw [parseDurationChars_of_digit c _ hc,
    parseDurationBody_of_term false _ _ (by simp) (by cases l <;> simp) ht]
  have : ¬ decValFrom 0 ip * 1000000 + msFraction fp > 2 ^ 63 - 1 := by
    norm_num at hb ⊢; omega
  simp only [this, if_false]
  rfl

end time

namespace strconv

theorem uintLoop_digits (ds : List Char) (x : Nat) (hds : ∀ c ∈ ds, isDigit c = true)
    (hb : decValFrom x ds < 2 ^ 32) : uintLoop 32 x ds = .ok (decValFrom x ds) := by
  induction ds generalizing x with
  | nil => simp [uintLoop, decValFrom]
  | cons c ds ih =>
    have hc : isDigit c = true := hds c (List.mem_cons_self _ _)
    rw [decValFrom_cons] at hb ⊢
    have h1 := le_decValFrom (x * 10 + digitVal c) ds
    have h2 : ¬ x ≥ (2 ^ 64 - 1) / 10 + 1 := by norm_num at hb ⊢; omega
    have h3 : ¬ x * 10 + digitVal c > 2 ^ 32 - 1 := by norm_num at hb ⊢; omega
    simp only [uintLoop, hc, if_true, h2, h3, if_false]
    exact ih _ (fun a ha => hds a (List.mem_cons_of_mem _ ha)) hb

theorem parseIntChars_digits (ds : List Char) (hne : ds ≠ []) (hds : ∀ c ∈ ds, isDigit c = true)
    (hb : decValFrom 0 ds < 2 ^ 31) : parseIntChars ds 32 = .ok (decValFrom 0 ds : Int) := by
  cases ds with
  | nil => exact absurd rfl hne
  | cons c ds =>
    have hc : isDigit c = true := hds c (List.mem_cons_self _ _)
    have hc1 : c ≠ '-' := by
      rw [isDigit_iff] at hc; rw [Ne, char_eq_iff]; have : ('-' : Char).toNat = 45 := by decide
      omega
    have hc2 : c ≠ '+' := by
      rw [isDigit_iff] at hc; rw [Ne, char_eq_iff]; have : ('+' : Char).toNat = 43 := by decide
      omega
    have hu := uintLoop_digits (c :: ds) 0 hds (by norm_num at hb ⊢; omega)
    have h3 : ¬ 2147483648 ≤ decValFrom 0 (c :: ds) := by norm_num at hb ⊢; omega
    simp [parseIntChars, hc1, hc2, ParseUint, hu, h3]

end strconv

namespace strconv

theorem isDecChar_toNat (c : Char) (h : isDecChar c = true) : c.toNat = 46 ∨
    (48 ≤ c.toNat ∧ c.toNat ≤ 57) := by
  unfold isDecChar at h
  rcases Bool.or_eq_true _ _ ▸ h with h | h
  · right; exact (isDigit_iff c).1 h
  · left; simp at h; subst h; decide

theorem toLower_of_lt (c : Char) (h : c.toNat < 65) : c.toLower = c := by
  unfold Char.toLower
  have : ¬ (c.val ≥ 65 ∧ c.val ≤ 90) := by
    intro ⟨h1, _⟩
    have : 65 ≤ c.val.toNat := by
      simpa [UInt32.le_def, BitVec.le_def, UInt32.toNat] using h1
    simp only [Char.toNat] at h
    omega
  simp [this]
  intro h1; omega

theorem special_decChar (c : Char) (l : List Char) (h : isDecChar c = true) :
    special (c :: l) = none := by
  have hn := isDecChar_toNat c h
  have h1 : c ≠ '+' := by rw [Ne, char_eq_iff]; have : ('+' : Char).toNat = 43 := by decide
                          omega
  have h2 : c ≠ '-' := by rw [Ne, char_eq_iff]; have : ('-' : Char).toNat = 45 := by decide
                          omega
  have h3 : c ≠ 'i' := by rw [Ne, char_eq_iff]; have : ('i' : Char).toNat = 105 := by decide
                          omega
  have h4 : c ≠ 'I' := by rw [Ne, char_eq_iff]; have : ('I' : Char).toNat = 73 := by decide
                          omega
  have h5 : c ≠ 'n' := by rw [Ne, char_eq_iff]; have : ('n' : Char).toNat = 110 := by decide
                          omega
  have h6 : c ≠ 'N' := by rw [Ne, char_eq_iff]; have : ('N' : Char).toNat = 78 := by decide
                          omega
  simp [special, h1, h2, h3, h4, h5, h6]

theorem parseNumber_dec (s : List Char) (neg : Bool) (body : List Char)
    (h : ∀ c ∈ body, isDecChar c = true) :
    parseNumber s neg body =
      finishFloat s neg false (readMantissa false ⟨0, false, false, 0, false⟩ body).1
        (readMantissa false ⟨0, false, false, 0, false⟩ body).2 := by
  unfold parseNumber
  split
  · rename_i c0 c1 c2 cs
    have hc1 : c1.toLower ≠ 'x' := by
      have hn := isDecChar_toNat c1 (h c1 (by simp))
      rw [toLower_of_lt c1 (by omega), Ne, char_eq_iff]
      have : ('x' : Char).toNat = 120 := by decide
      omega
    simp [hc1]
  · rfl

theorem parseFloatChars_dec (s : List Char) (hne : s ≠ []) (h : ∀ c ∈ s, isDecChar c = true) :
    parseFloatChars s =
      finishFloat s false false (readMantissa false ⟨0, false, false, 0, false⟩ s).1
        (readMantissa false ⟨0, false, false, 0, false⟩ s).2 := by
  cases s with
  | nil => exact absurd rfl hne
  | cons c l =>
    have hc := h c (List.mem_cons_self _ _)
    have hn := isDecChar_toNat c hc
    have h1 : c ≠ '+' := by rw [Ne, char_eq_iff]; have : ('+' : Char).toNat = 43 := by decide
                            omega
    have h2 : c ≠ '-' := by rw [Ne, char_eq_iff]; have : ('-' : Char).toNat = 45 := by decide
                            omega
    unfold parseFloatChars
    rw [special_decChar c l hc]
    simp only
    split
    · rename_i heq; simp at heq; exact absurd heq.1 h1
    · rename_i heq; simp at heq; exact absurd heq.1 h2
    · exact parseNumber_dec _ _ _ h

theorem readMantissa_digits (ds rest : List Char) (hds : ∀ c ∈ ds, isDigit c = true)
    (st : Mantissa) :
    readMantissa false st (ds ++ rest) =
      readMantissa false
        { st with
          sawdigits := st.sawdigits || !ds.isEmpty
          mant := decValFrom st.mant ds
          frac := if st.sawdot then st.frac + ds.length else st.frac } rest := by
  induction ds generalizing st with
  | nil => cases st; simp [decValFrom]
  | cons c ds ih =>
    have hc : isDigit c = true := hds c (List.mem_cons_self _ _)
    have hn := (isDigit_iff c).1 hc
    have h1 : c ≠ '_' := by rw [Ne, char_eq_iff]; have : ('_' : Char).toNat = 95 := by decide
                            omega
    have h2 : c ≠ '.' := by rw [Ne, char_eq_iff]; have : ('.' : Char).toNat = 46 := by decide
                            omega
    rw [List.cons_append]
    simp only [readMantissa, h1, h2, if_false, hc, if_true]
    rw [ih (fun a ha => hds a (List.mem_cons_of_mem _ ha))]
    cases st with
    | mk mant sawdot sawdigits frac underscores =>
      cases sawdot <;> simp [decValFrom_cons, Nat.add_assoc, Nat.add_comm 1]

end strconv

namespace float64

theorem lt_maxU_of_le' (k c : Nat) (h : k ≤ c * U) (hc : c < 2 ^ 1024) : k < maxU := by
  unfold maxU
  exact lt_of_le_of_lt h (Nat.mul_lt_mul_of_pos_right hc U_pos)

theorem two_mul_pow_lt : 2 * 10 ^ 300 < 2 ^ 1024 := by
  have h1 : (10 : Nat) ^ 300 = (10 ^ 3) ^ 100 := by rw [← pow_mul]
  have h2 : (10 : Nat) ^ 3 < 2 ^ 10 := by norm_num
  have h3 : ((10 : Nat) ^ 3) ^ 100 < (2 ^ 10) ^ 100 := Nat.pow_lt_pow_left h2 (by norm_num)
  have h4 : ((2 : Nat) ^ 10) ^ 100 = 2 ^ 1000 := by rw [← pow_mul]
  have h5 : 2 * 2 ^ 1000 = 2 ^ 1001 := by rw [pow_succ]; ring
  have h6 : (2 : Nat) ^ 1001 ≤ 2 ^ 1024 := Nat.pow_le_pow_right (by decide) (by decide)
  omega

end float64

namespace strconv

theorem decVal_append_lt (ip fp : List Char) (hfp : ∀ c ∈ fp, isDigit c = true) :
    decVal (ip ++ fp) < (decVal ip + 1) * 10 ^ fp.length := by
  rw [decVal_eq, decValFrom_append, decValFrom_eq, ← decVal_eq]
  have := decValFrom_lt fp hfp
  nlinarith

theorem decimalFloat_fin (ip fp : List Char) (hfp : ∀ c ∈ fp, isDigit c = true)
    (hb : decVal ip < 10 ^ 300) :
    decimalFloat ip fp = .fin false (nearest (decVal (ip ++ fp)) (10 ^ fp.length)) := by
  have h1 := nearest_mul_le (decVal (ip ++ fp)) (10 ^ fp.length)
  have h2 := decVal_append_lt ip fp hfp
  have hd : 0 < 10 ^ fp.length := by positivity
  have h3 : nearest (decVal (ip ++ fp)) (10 ^ fp.length) ≤ 2 * 10 ^ 300 * U := by
    apply Nat.le_of_mul_le_mul_right _ hd
    calc nearest (decVal (ip ++ fp)) (10 ^ fp.length) * 10 ^ fp.length
        ≤ 2 * (decVal (ip ++ fp) * U) := h1
      _ ≤ 2 * ((decVal ip + 1) * 10 ^ fp.length * U) :=
          Nat.mul_le_mul_left _ (Nat.mul_le_mul_right _ (le_of_lt h2))
      _ ≤ 2 * (10 ^ 300 * 10 ^ fp.length * U) :=
          Nat.mul_le_mul_left _ (Nat.mul_le_mul_right _ (Nat.mul_le_mul_right _ hb))
      _ = 2 * 10 ^ 300 * U * 10 ^ fp.length := by ring
  have h4 := lt_maxU_of_le' _ _ h3 two_mul_pow_lt
  simp [decimalFloat, float64.round, h4]

theorem readMantissa_decimal (ip fp : List Char) (hne : ip ≠ [])
    (hip : ∀ c ∈ ip, isDigit c = true) (hfp : ∀ c ∈ fp, isDigit c = true) :
    readMantissa false ⟨0, false, false, 0, false⟩ (decimal ip fp) =
      (⟨decVal (ip ++ fp), !fp.isEmpty, true, fp.length, false⟩, []) := by
  have hipe : ip.isEmpty = false := by cases ip <;> simp_all
  by_cases h : fp = []
  · subst h
    have := readMantissa_digits ip [] hip ⟨0, false, false, 0, false⟩
    rw [List.append_nil] at this
    simp [decimal, this, readMantissa, hipe, decVal_eq]
  · have h1 := readMantissa_digits ip ('.' :: fp) hip ⟨0, false, false, 0, false⟩
    have h2 := readMantissa_digits fp [] hfp ⟨decValFrom 0 ip, true, true, 0, false⟩
    rw [List.append_nil] at h2
    have hfpe : fp.isEmpty = false := by cases fp <;> simp_all
    simp only [decimal, h, if_false, h1, hipe]
    simp [readMantissa, h2, hfpe, decVal_eq, decValFrom_append]

theorem parseFloatChars_decimal (ip fp : List Char) (hne : ip ≠ [])
    (hip : ∀ c ∈ ip, isDigit c = true) (hfp : ∀ c ∈ fp, isDigit c = true)
    (hb : decVal ip < 10 ^ 300) :
    parseFloatChars (decimal ip fp) = .ok (decimalFloat ip fp) := by
  have hdec : ∀ c ∈ decimal ip fp, isDecChar c = true := by
    intro c hc
    unfold decimal at hc
    unfold isDecChar
    split_ifs at hc
    · simp [hip c hc]
    · rcases List.mem_append.1 hc with hc | hc
      · simp [hip c hc]
      · rcases List.mem_cons.1 hc with hc | hc
        · simp [hc]
        · simp [hfp c hc]
  have hne' : decimal ip fp ≠ [] := by
    obtain ⟨c, l, h, _⟩ := decimal_cons ip fp hne
    simp [h]
  rw [parseFloatChars_dec _ hne' hdec, readMantissa_decimal ip fp hne hip hfp]
  have hfin := decimalFloat_fin ip fp hfp hb
  by_cases h : fp = []
  · subst h
    simp only [decimalFloat, List.length_nil, pow_zero, List.append_nil] at hfin ⊢
    simp [finishFloat, readExponent, scaled, hfin]
  · have hlen : 0 < fp.length := List.length_pos.2 h
    have hneg : ¬ (0 : Int) ≤ -(fp.length : Int) := by omega
    simp only [decimalFloat] at hfin ⊢
    simp [finishFloat, readExponent, scaled, hneg, hfin]

end strconv

theorem parseFloat_of_ok (s : String) (raw : F64) (h : strconv.ParseFloat s = .ok raw) :
    parseFloat s = (toInt64 (mul (ofNat time.Millisecond) raw), none) := by
  have hr := toInt64_range (mul (ofNat time.Millisecond) raw)
  simp only [parseFloat, h, time.ParseDuration_format _ hr.1 hr.2]

theorem parseFloat_decimal (ip fp : List Char) (hne : ip ≠ [])
    (hip : ∀ c ∈ ip, isDigit c = true) (hfp : ∀ c ∈ fp, isDigit c = true)
    (hb : strconv.decVal ip < 10 ^ 300) :
    parseFloat (String.mk (decimal ip fp)) = (msValue ip fp, none) :=
  parseFloat_of_ok _ _ (strconv.parseFloatChars_decimal ip fp hne hip hfp hb)

namespace regexp

theorem msgLine_eq : msgLine =
    Item.star .space :: Item.cap .notSpace :: Item.plus .space ::
    ("-> avg ".data.map (fun c => Item.one (Cls.lit c)) ++ (Item.cap .notSpace ::
    (" out of ".data.map (fun c => Item.one (Cls.lit c)) ++ (Item.cap .digit ::
    (" samples".data.map (fun c => Item.one (Cls.lit c)) ++ (Item.one .any ::
    (" (std dev".data.map (fun c => Item.one (Cls.lit c)) ++ (Item.plus .space ::
    Item.cap .notSpace ::
    (", min ".data.map (fun c => Item.one (Cls.lit c)) ++ (Item.cap .notSpace ::
    (", max ".data.map (fun c => Item.one (Cls.lit c)) ++
    [Item.cap .notSpace, Item.one (.lit ')')]))))))))))) := by
  decide

theorem stops_of_token {p q : Char → Bool} {s : List Char} (h : Token p s)
    (hpq : ∀ c, p c = true → q c = false) (t : List Char) : Stops q (s ++ t) := by
  obtain ⟨hne, hall⟩ := h
  cases s with
  | nil => exact absurd rfl hne
  | cons a s => exact stops_cons (hpq a (hall a (List.mem_cons_self _ _))) _

theorem matchHere_one (c : Cls) (r : Regexp) (caps : List (List Char)) (x : Char)
    (xs : List Char) (h : c.test x = true) :
    matchHere (Item.one c :: r) caps (x :: xs) = matchHere r caps xs := by
  simp [matchHere, h]

theorem matchHere_msgLine (pre N w1 A S : List Char) (dot : Char) (w2 D Mi Ma tail : List Char)
    (hpre : ∀ c ∈ pre, isSpace c = true)
    (hN : Token (fun c => !isSpace c) N) (hw1 : Token isSpace w1)
    (hA : Token (fun c => !isSpace c) A) (hS : Token isDigit S) (hdot : dot ≠ '\n')
    (hw2 : Token isSpace w2) (hD : Token (fun c => !isSpace c) D)
    (hMi : Token (fun c => !isSpace c) Mi) (hMa : Token (fun c => !isSpace c) Ma)
    (htail : Stops (fun c => !isSpace c) tail) :
    matchHere msgLine [] (lineText pre N w1 A S dot w2 D Mi Ma tail) =
      some ([N, A, S, D, Mi, Ma], tail) := by
  rw [msgLine_eq, lineText]
  refine matchHere_star_first .space _ _ pre _ _ hpre
    (stops_of_token hN (fun c hc => by simpa using hc) _) ?_
  refine matchHere_cap_first .notSpace _ _ N _ _ hN.1 hN.2
    (stops_of_token hw1 (fun c hc => by simp [Cls.test, hc]) _) ?_
  refine matchHere_plus_first .space _ _ w1 _ _ hw1.1 hw1.2 (stops_cons (by decide) _) ?_
  rw [matchHere_lits]
  refine matchHere_cap_first .notSpace _ _ A _ _ hA.1 hA.2 (stops_cons (by decide) _) ?_
  rw [matchHere_lits]
  refine matchHere_cap_first .digit _ _ S _ _ hS.1 hS.2 (stops_cons (by decide) _) ?_
  rw [matchHere_lits, matchHere_one _ _ _ _ _ (show Cls.test .any dot = true by
    simp [Cls.test, hdot]), matchHere_lits]
  refine matchHere_plus_first .space _ _ w2 _ _ hw2.1 hw2.2
    (stops_of_token hD (fun c hc => by simpa [Cls.test] using hc) _) ?_
  refine matchHere_cap_second .notSpace _ _ D _ ',' _ hD.1 hD.2 (by decide)
    (stops_cons (by decide) _) (matchHere_lit_ne _ _ _ _ _ (by decide)) ?_
  change matchHere _ _ (", min ".data ++ (Mi ++ (", max ".data ++ (Ma ++ (')' :: tail))))) = _
  rw [matchHere_lits]
  refine matchHere_cap_second .notSpace _ _ Mi _ ',' _ hMi.1 hMi.2 (by decide)
    (stops_cons (by decide) _) (matchHere_lit_ne _ _ _ _ _ (by decide)) ?_
  change matchHere _ _ (", max ".data ++ (Ma ++ (')' :: tail))) = _
  rw [matchHere_lits]
  refine matchHere_cap_second .notSpace _ _ Ma _ ')' _ hMa.1 hMa.2 (by decide) htail ?_ ?_
  · cases tail with
    | nil => simp [matchHere]
    | cons t ts =>
      have := htail t ts rfl
      apply matchHere_lit_ne
      intro h; subst h; simp [isSpace] at this
  · simp [matchHere, Cls.test]

end regexp

namespace regexp

theorem findFrom_of_here (re : Regexp) (s : List Char) (m : List String)
    (h : submatchHere re s = some m) : findFrom re s = some m := by
  cases s with
  | nil => simpa [findFrom] using h
  | cons c cs => simp [findFrom, h]

theorem FindStringSubmatch_lineText (pre N w1 A S : List Char) (dot : Char)
    (w2 D Mi Ma tail : List Char)
    (hpre : ∀ c ∈ pre, isSpace c = true)
    (hN : Token (fun c => !isSpace c) N) (hw1 : Token isSpace w1)
    (hA : Token (fun c => !isSpace c) A) (hS : Token isDigit S) (hdot : dot ≠ '\n')
    (hw2 : Token isSpace w2) (hD : Token (fun c => !isSpace c) D)
    (hMi : Token (fun c => !isSpace c) Mi) (hMa : Token (fun c => !isSpace c) Ma)
    (htail : Stops (fun c => !isSpace c) tail) :
    ∃ whole, FindStringSubmatch msgLine (String.mk (lineText pre N w1 A S dot w2 D Mi Ma tail)) =
      [whole, String.mk N, String.mk A, String.mk S, String.mk D, String.mk Mi,
        String.mk Ma] := by
  have h := matchHere_msgLine pre N w1 A S dot w2 D Mi Ma tail hpre hN hw1 hA hS hdot hw2 hD
    hMi hMa htail
  have hs : submatchHere msgLine (lineText pre N w1 A S dot w2 D Mi Ma tail) =
      some (String.mk ((lineText pre N w1 A S dot w2 D Mi Ma tail).take
        ((lineText pre N w1 A S dot w2 D Mi Ma tail).length - tail.length)) ::
        [N, A, S, D, Mi, Ma].map String.mk) := by
    simp only [submatchHere, h]
  refine ⟨String.mk ((lineText pre N w1 A S dot w2 D Mi Ma tail).take
    ((lineText pre N w1 A S dot w2 D Mi Ma tail).length - tail.length)), ?_⟩
  unfold FindStringSubmatch
  rw [findFrom_of_here msgLine _ _ hs]
  rfl

end regexp

theorem GetResult_of_submatch (t w n a s d mi ma : String) (av sv dv miv mav : Int)
    (h : regexp.FindStringSubmatch msgLine t = [w, n, a, s, d, mi, ma])
    (ha : time.ParseDuration a = .ok av) (hs : strconv.ParseInt s 32 = .ok sv)
    (hd : parseFloat d = (dv, none)) (hmi : parseFloat mi = (miv, none))
    (hma : parseFloat ma = (mav, none)) :
    GetResult t = (⟨n, av, sv, dv, miv, mav⟩, none) := by
  simp [GetResult, h, NameGroup, AvgGroup, NumSamplesGroup, StdDevGroup, MinGroup, MaxGroup,
    ha, hs, hd, hmi, hma, Result.zero]

theorem isDigit_not_space (c : Char) (h : isDigit c = true) : (!isSpace c) = true := by
  rw [isDigit_iff] at h
  rw [Bool.not_eq_true', Bool.eq_false_iff, Ne, isSpace_iff]
  omega

theorem token_decimal (ip fp : List Char) (b : Nat) (h : IsDecimal ip fp b) (suffix : List Char)
    (hs : ∀ c ∈ suffix, (!isSpace c) = true) :
    Token (fun c => !isSpace c) (decimal ip fp ++ suffix) := by
  obtain ⟨hne, hip, hfp, _⟩ := h
  obtain ⟨c, l, hcl, _⟩ := decimal_cons ip fp hne
  refine ⟨by simp [hcl], ?_⟩
  intro a ha
  rcases List.mem_append.1 ha with ha | ha
  · unfold decimal at ha
    split_ifs at ha
    · exact isDigit_not_space a (hip a ha)
    · rcases List.mem_append.1 ha with ha | ha
      · exact isDigit_not_space a (hip a ha)
      · rcases List.mem_cons.1 ha with ha | ha
        · subst ha; decide
        · exact isDigit_not_space a (hfp a ha)
  · exact hs a ha

/-- The Result for a submatch list whose numbers are decimal literals in range:
the name, the average as `ParseDuration` computes it, the sample count, and the
three `parseFloat` values. -/
theorem GetResult_of_fields (t whole : String) (N ipA fpA S ipD fpD ipMi fpMi ipMa fpMa : List Char)
    (hm : regexp.FindStringSubmatch msgLine t =
      [whole, String.mk N, String.mk (decimal ipA fpA ++ ['m', 's']), String.mk S,
        String.mk (decimal ipD fpD), String.mk (decimal ipMi fpMi),
        String.mk (decimal ipMa fpMa)])
    (hA : IsDecimal ipA fpA (9 * 10 ^ 12))
    (hS : S ≠ [] ∧ Digits S ∧ strconv.decVal S < 2 ^ 31)
    (hD : IsDecimal ipD fpD (10 ^ 300))
    (hMi : IsDecimal ipMi fpMi (10 ^ 300)) (hMa : IsDecimal ipMa fpMa (10 ^ 300)) :
    GetResult t =
      (⟨String.mk N, ((strconv.decVal ipA * 1000000 + time.msFraction fpA : Nat) : Int),
        (strconv.decVal S : Int), msValue ipD fpD, msValue ipMi fpMi, msValue ipMa fpMa⟩,
        none) :=
  GetResult_of_submatch _ _ _ _ _ _ _ _ _ _ _ _ _ hm
    (time.parseDurationChars_ms ipA fpA hA.1 hA.2.1 hA.2.2.1 hA.2.2.2)
    (strconv.parseIntChars_digits S hS.1 hS.2.1 hS.2.2)
    (parseFloat_decimal ipD fpD hD.1 hD.2.1 hD.2.2.1 hD.2.2.2)
    (parseFloat_decimal ipMi fpMi hMi.1 hMi.2.1 hMi.2.2.1 hMi.2.2.2)
    (parseFloat_decimal ipMa fpMa hMa.1 hMa.2.1 hMa.2.2.1 hMa.2.2.2)

/-- The Result of a line of the shape of `msgLine` whose numbers are decimal
literals in range. -/
theorem GetResult_lineText (pre N w1 ipA fpA S : List Char) (dot : Char)
    (w2 ipD fpD ipMi fpMi ipMa fpMa tail : List Char)
    (hpre : ∀ c ∈ pre, isSpace c = true)
    (hN : Token (fun c => !isSpace c) N) (hw1 : Token isSpace w1)
    (hA : IsDecimal ipA fpA (9 * 10 ^ 12))
    (hS : S ≠ [] ∧ Digits S ∧ strconv.decVal S < 2 ^ 31) (hdot : dot ≠ '\n')
    (hw2 : Token isSpace w2) (hD : IsDecimal ipD fpD (10 ^ 300))
    (hMi : IsDecimal ipMi fpMi (10 ^ 300)) (hMa : IsDecimal ipMa fpMa (10 ^ 300))
    (htail : Stops (fun c => !isSpace c) tail) :
    GetResult (String.mk (lineText pre N w1 (decimal ipA fpA ++ ['m', 's']) S dot w2
        (decimal ipD fpD) (decimal ipMi fpMi) (decimal ipMa fpMa) tail)) =
      (⟨String.mk N, ((strconv.decVal ipA * 1000000 + time.msFraction fpA : Nat) : Int),
        (strconv.decVal S : Int), msValue ipD fpD, msValue ipMi fpMi, msValue ipMa fpMa⟩,
        none) := by
  have tA := token_decimal ipA fpA _ hA ['m', 's'] (by decide)
  have tD := token_decimal ipD fpD _ hD [] (by simp)
  have tMi := token_decimal ipMi fpMi _ hMi [] (by simp)
  have tMa := token_decimal ipMa fpMa _ hMa [] (by simp)
  rw [List.append_nil] at tD tMi tMa
  obtain ⟨whole, hm⟩ := FindStringSubmatch_lineText pre N w1 _ S dot w2 _ _ _ tail hpre hN hw1
    tA ⟨hS.1, hS.2.1⟩ hdot hw2 tD tMi tMa htail
  exact GetResult_of_fields _ whole N ipA fpA S ipD fpD ipMi fpMi ipMa fpMa hm hA hS hD hMi hMa

namespace float64

theorem round_exact (neg : Bool) (q d : Nat) (hd : 0 < d) (hq : q < 2 ^ 53) :
    float64.round neg (q * d) d = .fin neg (q * U) := by
  have h := nearest_exact q d hd hq
  have hfin : q * U < maxU := lt_maxU_of_le _ q (Nat.le_refl _)
    (lt_of_lt_of_le hq (Nat.pow_le_pow_right (by decide) (by decide)))
  simp [float64.round, h, hfin]

theorem ofNat_exact (n : Nat) (h : n < 2 ^ 53) : ofNat n = .fin false (n * U) := by
  have := round_exact false n 1 (by decide) h
  rwa [Nat.mul_one] at this

theorem mul_exact (a b : Nat) (h : a * b < 2 ^ 53) :
    mul (.fin false (a * U)) (.fin false (b * U)) = .fin false (a * b * U) := by
  have := round_exact false (a * b) (U * U) (Nat.mul_pos U_pos U_pos) h
  simp only [mul, Bool.xor_false]
  rw [show a * U * (b * U) = a * b * (U * U) by ring]
  exact this

theorem div_exact (q b : Nat) (hb : 0 < b) (h : q < 2 ^ 53) :
    div (.fin false (q * b * U)) (.fin false (b * U)) = .fin false (q * U) := by
  have hbU : 0 < b * U := Nat.mul_pos hb U_pos
  have := round_exact false q (b * U) hbU h
  have hne : b * U ≠ 0 := by omega
  simp only [div, hne, if_false, Bool.xor_false]
  rw [show q * b * U = q * (b * U) by ring]
  exact this

theorem toUint64_exact (q : Nat) (h : q < 2 ^ 64) : toUint64 (.fin false (q * U)) = q := by
  have : q * U / U = q := Nat.mul_div_cancel _ U_pos
  simp only [toUint64, this, h, if_true]

theorem toInt64_exact (q : Nat) (h : q < 2 ^ 63) : toInt64 (.fin false (q * U)) = (q : Int) := by
  have : q * U / U = q := Nat.mul_div_cancel _ U_pos
  simp only [toInt64, this, h, if_true]

end float64

namespace time

theorem leadingFraction_exact (ds : List Char) (hds : ∀ c ∈ ds, isDigit c = true) (x j : Nat)
    (hx : x < 10 ^ j) (hj : j + ds.length ≤ 18) :
    leadingFraction x (.fin false (10 ^ j * U)) false ds =
      (decValFrom x ds, .fin false (10 ^ (j + ds.length) * U), []) := by
  induction ds generalizing x j with
  | nil => simp [leadingFraction, decValFrom]
  | cons c ds ih =>
    have hc : isDigit c = true := hds c (List.mem_cons_self _ _)
    have hd := digitVal_lt c hc
    simp only [List.length_cons] at hj
    have hp : (10 : Nat) ^ j ≤ 10 ^ 17 := Nat.pow_le_pow_right (by decide) (by omega)
    have h1 : ¬ x > (2 ^ 63 - 1) / 10 := by norm_num at hp ⊢; omega
    have h2 : ¬ x * 10 + digitVal c > 2 ^ 63 := by norm_num at hp ⊢; omega
    have hx' : x * 10 + digitVal c < 10 ^ (j + 1) := by rw [pow_succ]; omega
    simp only [leadingFraction, hc, if_true, Bool.false_eq_true, if_false, h1, h2]
    rw [mul_ten_exact j (by omega), ih (fun a ha => hds a (List.mem_cons_of_mem _ ha)) _ (j + 1) hx' (by omega),
      decValFrom_cons, List.length_cons,
      show j + 1 + ds.length = j + (ds.length + 1) by omega]

/-- With at most six fraction digits the conversion is exact. -/
theorem msFraction_exact (fp : List Char) (hfp : ∀ c ∈ fp, isDigit c = true)
    (h6 : fp.length ≤ 6) : msFraction fp = decVal fp * 10 ^ (6 - fp.length) := by
  have hlf := leadingFraction_exact fp hfp 0 0 (by norm_num) (by omega)
  have hlt := decValFrom_lt fp hfp
  have e1 : ofNat 1 = F64.fin false (10 ^ 0 * U) := by
    rw [ofNat_one, Nat.pow_zero, Nat.one_mul]
  unfold msFraction
  rw [e1, hlf, Nat.zero_add]
  simp only [← decVal_eq] at hlt ⊢
  have hk : (10 : Nat) ^ fp.length * 10 ^ (6 - fp.length) = 1000000 := by
    rw [← pow_add, Nat.add_sub_cancel' h6]; norm_num
  have hq1 : (10 : Nat) ^ (6 - fp.length) ≤ 1000000 := by
    rw [← hk]; exact Nat.le_mul_of_pos_left _ (by positivity)
  have hprod : decVal fp * 10 ^ (6 - fp.length) < 1000000 := by
    rw [← hk]; exact Nat.mul_lt_mul_of_pos_right hlt (by positivity)
  have hf : decVal fp < 1000000 := by
    have : (10 : Nat) ^ fp.length ≤ 1000000 := by
      rw [← hk]; exact Nat.le_mul_of_pos_right _ (by positivity)
    omega
  split_ifs with h0
  · rw [ofNat_exact (decVal fp) (by norm_num; omega), Millisecond, ofNat_million,
      show 1000000 * U = 10 ^ (6 - fp.length) * 10 ^ fp.length * U by rw [Nat.mul_comm (10 ^ _), hk],
      div_exact _ _ (by positivity) (by norm_num; omega),
      mul_exact _ _ (by norm_num; omega), toUint64_exact _ (by norm_num; omega)]
  · have : decVal fp = 0 := by omega
    rw [this, Nat.zero_mul]

end time

/-- An integer literal is taken as milliseconds exactly. -/
theorem msValue_int (ip : List Char) (h : decVal ip < 9 * 10 ^ 9) :
    msValue ip [] = (decVal ip * 1000000 : Nat) := by
  have h' : decVal ip < 9000000000 := by norm_num at h; exact h
  unfold msValue decimalFloat
  simp only [List.append_nil, List.length_nil, pow_zero]
  rw [show float64.round false (decVal ip) 1 = ofNat (decVal ip) from rfl,
    ofNat_exact (decVal ip) (by norm_num; omega), time.Millisecond, ofNat_million,
    mul_exact _ _ (by norm_num; omega), toInt64_exact _ (by norm_num; omega),
    Nat.mul_comm]

theorem execute_outLine (r : Result) (out : String) :
    template.Execute outLine ⟨out, none⟩ r =
      (⟨out ++ "Benchmark" ++ r.Name ++ "\t" ++ strconv.FormatInt r.NumSamples ++ "\t" ++
          strconv.FormatInt r.Average ++ " ns/op", none⟩, true) := by
  simp [outLine, template.Execute, template.Node.eval, Writer.write, funcs, asNanoseconds,
    template.DurationField.get]

theorem render_eq (r : Result) :
    render r = "Benchmark" ++ r.Name ++ "\t" ++ strconv.FormatInt r.NumSamples ++ "\t" ++
      strconv.FormatInt r.Average ++ " ns/op" := by
  simp [render, execute_outLine]

theorem execute_render (r : Result) (out : String) :
    template.Execute outLine ⟨out, none⟩ r = (⟨out ++ render r, none⟩, true) := by
  rw [execute_outLine, render_eq]
  simp [String.append_assoc]

theorem processLines_unlimited (ts : List String) (out : String) :
    processLines ts ⟨out, none⟩ = (⟨out ++ concat (ts.map emit), none⟩, none) := by
  induction ts generalizing out with
  | nil => simp [processLines, concat]
  | cons t ts ih =>
    unfold processLines
    rcases h : GetResult t with ⟨r, _ | e⟩
    · simp only [execute_render, Writer.write, ih]
      simp [concat, String.append_assoc, emit, h]
    · simp only [ih]
      simp [concat, emit, h]

namespace regexp

theorem rep_append_last {α : Type} (p : Char → Bool) (x : Char)
    (k : List Char → List Char → Option α) (f : α → α)
    (h1 : ∀ acc s, k acc (s ++ [x]) = (k acc s).map f)
    (h2 : p x = true → ∀ acc, k acc [] = none) (acc s : List Char) :
    rep p k acc (s ++ [x]) = (rep p k acc s).map f := by
  induction s generalizing acc with
  | nil =>
    have e := h1 acc []
    rw [List.nil_append] at e ⊢
    by_cases hp : p x = true
    · simp only [rep, hp, if_true, h2 hp, e]
    · simp only [rep, hp, if_false, e]
      rfl
  | cons c cs ih =>
    have e := h1 acc (c :: cs)
    rw [List.cons_append] at e ⊢
    by_cases hp : p c = true
    · simp only [rep, hp, if_true, ih (acc ++ [c])]
      cases rep p k (acc ++ [c]) cs with
      | none => simpa using e
      | some r => rfl
    · simp only [rep, hp, if_false, e]
      rfl

theorem matchHere_nil_of_needsChar (re : Regexp) (h : needsChar re = true)
    (caps : List (List Char)) : matchHere re caps [] = none := by
  induction re generalizing caps with
  | nil => simp [needsChar] at h
  | cons it r ih =>
    cases it with
    | one c => simp [matchHere]
    | plus c => simp [matchHere]
    | cap c => simp [matchHere]
    | star c =>
      have hr : needsChar r = true := by simpa [needsChar, Item.consumes] using h
      simp [matchHere, rep, ih hr]

/-- A final character that the pattern ignores stays in the unconsumed rest. -/
theorem matchHere_append_last (x : Char) (re : Regexp) (h : ignoresLast x re = true)
    (caps : List (List Char)) (s : List Char) :
    matchHere re caps (s ++ [x]) =
      (matchHere re caps s).map fun p => (p.1, p.2 ++ [x]) := by
  induction re generalizing caps s with
  | nil => simp [matchHere]
  | cons it r ih =>
    simp only [ignoresLast, Bool.and_eq_true, Bool.or_eq_true, Bool.not_eq_true'] at h
    obtain ⟨hx, hr⟩ := h
    have hnil : it.cls.test x = true → ∀ caps, matchHere r caps [] = none := by
      intro ht caps
      rcases hx with hx | hx
      · rw [hx] at ht; cases ht
      · exact matchHere_nil_of_needsChar r hx caps
    cases it with
    | one c =>
      cases s with
      | nil =>
        by_cases ht : c.test x = true
        · have := ih hr caps []
          simp only [List.nil_append] at this
          simp [matchHere, ht, hnil ht caps]
        · simp [matchHere, ht]
      | cons y ys =>
        by_cases hy : c.test y = true
        · simp only [List.cons_append, matchHere, hy, if_true]
          exact ih hr caps ys
        · simp [matchHere, hy]
    | star c =>
      simp only [matchHere]
      exact rep_append_last c.test x _ _ (fun _ s => ih hr caps s)
        (fun ht _ => hnil ht caps) [] s
    | plus c =>
      cases s with
      | nil =>
        by_cases ht : c.test x = true
        · simp [matchHere, ht, rep, hnil ht caps]
        · simp [matchHere, ht]
      | cons y ys =>
        by_cases hy : c.test y = true
        · simp only [List.cons_append, matchHere, hy, if_true]
          exact rep_append_last c.test x _ _ (fun _ s => ih hr caps s)
            (fun ht _ => hnil ht caps) [y] ys
        · simp [matchHere, hy]
    | cap c =>
      cases s with
      | nil =>
        by_cases ht : c.test x = true
        · simp [matchHere, ht, rep, hnil ht]
        · simp [matchHere, ht]
      | cons y ys =>
        by_cases hy : c.test y = true
        · simp only [List.cons_append, matchHere, hy, if_true]
          exact rep_append_last c.test x _ _ (fun tok s => ih hr (caps ++ [tok]) s)
            (fun ht tok => hnil ht (caps ++ [tok])) [y] ys
        · simp [matchHere, hy]

theorem submatchHere_append_last (x : Char) (re : Regexp) (h : ignoresLast x re = true)
    (s : List Char) : submatchHere re (s ++ [x]) = submatchHere re s := by
  unfold submatchHere
  rw [matchHere_append_last x re h]
  cases matchHere re [] s with
  | none => rfl
  | some p =>
    obtain ⟨caps, rest⟩ := p
    simp only [Option.map_some', List.length_append, List.length_cons, List.length_nil]
    rw [show s.length + (0 + 1) - (rest.length + (0 + 1)) = s.length - rest.length by omega,
      List.take_append_of_le_length (Nat.sub_le _ _)]

theorem findFrom_append_last (x : Char) (re : Regexp) (h : ignoresLast x re = true)
    (s : List Char) : findFrom re (s ++ [x]) = findFrom re s := by
  induction s with
  | nil =>
    have e := submatchHere_append_last x re h []
    rw [List.nil_append] at e ⊢
    simp only [findFrom, e]
    cases submatchHere re [] <;> rfl
  | cons c cs ih =>
    have e := submatchHere_append_last x re h (c :: cs)
    rw [List.cons_append] at e ⊢
    simp only [findFrom, e, ih]

theorem FindStringSubmatch_append_last (x : Char) (re : Regexp) (h : ignoresLast x re = true)
    (s : List Char) :
    FindStringSubmatch re (String.mk (s ++ [x])) = FindStringSubmatch re (String.mk s) := by
  simp only [FindStringSubmatch, findFrom_append_last x re h]

end regexp

/-- The Result of `GetResult`, and whether it is an error, depend on the line
only through the submatches. -/
theorem getResult_congr (t u : String)
    (h : FindStringSubmatch msgLine t = FindStringSubmatch msgLine u) :
    (GetResult t).1 = (GetResult u).1 ∧ ((GetResult t).2 = none ↔ (GetResult u).2 = none) := by
  unfold GetResult
  rw [h]
  by_cases hlen : (regexp.FindStringSubmatch msgLine u).length ≠ MaxGroup + 1
  · simp [hlen]
  · rw [if_neg hlen, if_neg hlen]
    rcases time.ParseDuration ((FindStringSubmatch msgLine u).getD AvgGroup "") with e | avg
    · simp
    · rcases strconv.ParseInt ((FindStringSubmatch msgLine u).getD NumSamplesGroup "") 32
        with e | n
      · simp
      · rcases parseFloat ((FindStringSubmatch msgLine u).getD StdDevGroup "")
          with ⟨d, _ | e⟩
        · rcases parseFloat ((FindStringSubmatch msgLine u).getD MinGroup "")
            with ⟨mi, _ | e⟩
          · rcases parseFloat ((FindStringSubmatch msgLine u).getD MaxGroup "")
              with ⟨ma, _ | e⟩
            · simp
            · simp
          · simp
        · simp

theorem emit_congr (t u : String)
    (h : FindStringSubmatch msgLine t = FindStringSubmatch msgLine u) : emit t = emit u := by
  obtain ⟨h1, h2⟩ := getResult_congr t u h
  unfold emit
  rcases ht : GetResult t with ⟨r, _ | e⟩ <;> rcases hu : GetResult u with ⟨r', _ | e'⟩
  · rw [ht, hu] at h1; simp only at h1; rw [h1]
  · rw [ht, hu] at h2; simp at h2
  · rw [ht, hu] at h2; simp at h2
  · rfl

theorem ignoresLast_msgLine : ignoresLast '\r' msgLine = true := by decide

/-- The carriage return that the scanner drops does not change what the line
emits. -/
theorem emit_dropCR (l : List Char) : emit (String.mk (bufio.dropCR l)) = emit (String.mk l) := by
  unfold bufio.dropCR
  split_ifs with h
  · have hl : l = l.dropLast ++ ['\r'] := by
      rcases List.eq_nil_or_concat l with h0 | ⟨l', a, rfl⟩
      · rw [h0] at h; simp at h
      · have ha : a = '\r' := by
          simp only [List.concat_eq_append, List.getLast?_append, List.getLast?_singleton] at h
          simpa [Option.or] using h
        simp [ha]
    conv_rhs => rw [hl]
    exact (emit_congr _ _ (FindStringSubmatch_append_last '\r' msgLine ignoresLast_msgLine _)).symm
  · rfl

namespace bufio

theorem splitLines_line (l : List Char) (h : '\n' ∉ l) :
    splitLines l = if l = [] then [] else [l] := by
  induction l with
  | nil => simp [splitLines]
  | cons c l ih =>
    have hc : c ≠ '\n' := fun hc => h (by simp [hc])
    have hl : '\n' ∉ l := fun hl => h (List.mem_cons_of_mem _ hl)
    rw [splitLines, if_neg hc, ih hl]
    by_cases h0 : l = [] <;> simp [h0]

theorem splitLines_append (l rest : List Char) (h : '\n' ∉ l) :
    splitLines (l ++ '\n' :: rest) = l :: splitLines rest := by
  induction l with
  | nil => simp [splitLines]
  | cons c l ih =>
    have hc : c ≠ '\n' := fun hc => h (by simp [hc])
    have hl : '\n' ∉ l := fun hl => h (List.mem_cons_of_mem _ hl)
    rw [List.cons_append, splitLines, if_neg hc, ih hl]

end bufio

theorem getResult_empty : GetResult "" = (Result.zero, some (.noMatch "" [])) := by decide!

theorem emit_empty : emit "" = "" := by
  simp [emit, getResult_empty]

theorem concat_emit_scan (ls : List String) (h : ∀ t ∈ ls, Scannable t) :
    concat ((bufio.scan (joinChars ls)).map emit) = concat (ls.map emit) := by
  induction ls with
  | nil => simp [joinChars, bufio.scan, bufio.splitLines]
  | cons l ls ih =>
    obtain ⟨h1, h3⟩ := h l (List.mem_cons_self _ _)
    cases ls with
    | nil =>
      simp only [joinChars, bufio.scan, bufio.splitLines_line _ h1]
      by_cases h0 : l.data = []
      · have : l = "" := by cases l; simp_all
        subst this
        simp [concat, emit_empty]
      · simp [h0, h3, emit_dropCR, concat]
    | cons l2 rest =>
      have ih' := ih (fun t ht => h t (List.mem_cons_of_mem _ ht))
      simp only [joinChars, bufio.scan, bufio.splitLines_append _ _ h1] at ih' ⊢
      simp only [List.takeWhile_cons, h3, decide_True, if_true, List.map_cons,
        emit_dropCR, concat]
      rw [ih']
      simp [concat]

/-- On lines that the scanner delivers and a writer that accepts every
write, the output of `Process` is what the lines emit, in order. -/
theorem process_joinLines (ls : List String) (h : ∀ t ∈ ls, Scannable t) (e : Option String)
    (out : String) :
    Process ⟨joinLines ls, e⟩ ⟨out, none⟩ = (⟨out ++ concat (ls.map emit), none⟩, none) := by
  unfold Process
  rw [processLines_unlimited]
  simp only [joinLines]
  rw [concat_emit_scan ls h]

namespace regexp

theorem matchHere_one_fail (c : Cls) (r : Regexp) (caps : List (List Char)) (x : Char)
    (xs : List Char) (h : c.test x = false) :
    matchHere (Item.one c :: r) caps (x :: xs) = none := by
  simp [matchHere, h]

theorem matchHere_plus_fail (c : Cls) (r : Regexp) (caps : List (List Char)) (x : Char)
    (xs : List Char) (h : c.test x = false) :
    matchHere (Item.plus c :: r) caps (x :: xs) = none := by
  simp [matchHere, h]

theorem matchHere_plus_cons (c : Cls) (r : Regexp) (caps : List (List Char)) (x : Char)
    (xs : List Char) (h : c.test x = true) :
    matchHere (Item.plus c :: r) caps (x :: xs) =
      rep c.test (fun _ s' => matchHere r caps s') [x] xs := by
  simp [matchHere, h]

/-- The literal `-> avg ` does not match at the start of a name followed by
whitespace and `-> avg `. -/
theorem arrow_fails (N w1 rest : List Char) (r : Regexp) (caps : List (List Char))
    (hN : Token (fun c => !isSpace c) N) (hw1 : Token isSpace w1) :
    matchHere ("-> avg ".data.map (fun c => Item.one (Cls.lit c)) ++ r) caps
      (N ++ (w1 ++ ("-> avg ".data ++ rest))) = none := by
  obtain ⟨hNne, hNall⟩ := hN
  obtain ⟨hwne, hwall⟩ := hw1
  have sp : ∀ c, isSpace c = true → c ≠ '>' ∧ c ≠ 'a' ∧ c ≠ '-' := by
    intro c hc
    rw [isSpace_iff] at hc
    refine ⟨?_, ?_, ?_⟩ <;> (rw [Ne, char_eq_iff]; intro h; revert hc; rw [h]; decide)
  cases w1 with
  | nil => exact absurd rfl hwne
  | cons b w1' =>
  have hb := hwall b (List.mem_cons_self _ _)
  cases N with
  | nil => exact absurd rfl hNne
  | cons n1 N1 =>
    by_cases e1 : n1 = '-'
    · cases N1 with
      | nil => simp [matchHere, Cls.test, e1, (sp b hb).1]
      | cons n2 N2 =>
        by_cases e2 : n2 = '>'
        · cases N2 with
          | nil =>
            cases w1' with
            | nil => simp [matchHere, Cls.test, e1, e2]
            | cons b2 w1'' =>
              have hb2 := hwall b2 (by simp)
              simp [matchHere, Cls.test, e1, e2, (sp b2 hb2).2.1]
          | cons n3 N3 =>
            have h3 : n3 ≠ ' ' := by
              have := hNall n3 (by simp)
              intro h; subst h; simp [isSpace] at this
            simp [matchHere, Cls.test, e1, e2, h3]
        · simp [matchHere, Cls.test, e1, e2]
    · simp [matchHere, Cls.test, e1]

/-- The pattern does not match at a position inside a token that precedes a
well-formed line. -/
theorem matchHere_msgLine_inside (s ws N w1 rest : List Char)
    (hs : Token (fun c => !isSpace c) s) (hws : Token isSpace ws)
    (hN : Token (fun c => !isSpace c) N) (hw1 : Token isSpace w1) :
    matchHere msgLine [] (s ++ (ws ++ (N ++ (w1 ++ ("-> avg ".data ++ rest))))) = none := by
  rw [msgLine_eq]
  obtain ⟨hsne, hsall⟩ := hs
  cases s with
  | nil => exact absurd rfl hsne
  | cons c s' =>
    have hc : isSpace c = false := by simpa using hsall c (List.mem_cons_self _ _)
    have hXstop : Stops (Cls.test .notSpace) (ws ++ (N ++ (w1 ++ ("-> avg ".data ++ rest)))) :=
      stops_of_token hws (fun a ha => by simp [Cls.test, ha]) _
    have hLstop : Stops (Cls.test .space) (N ++ (w1 ++ ("-> avg ".data ++ rest))) :=
      stops_of_token hN (fun a ha => by simpa [Cls.test] using ha) _
    rw [List.cons_append]
    -- the leading `\s*` takes nothing
    rw [matchHere, rep_stop _ _ _ _ (stops_cons (by simpa [Cls.test] using hc) _)]
    -- the name group
    have hct : Cls.test .notSpace c = true := by simp [Cls.test, hc]
    rw [matchHere]
    simp only [hct, if_true]
    apply rep_none _ _ s' _ hXstop
    intro i hi
    beta_reduce
    by_cases hlt : i < s'.length
    · -- a character of the token follows: `\s+` fails
      obtain ⟨a, t, hat⟩ : ∃ a t, s'.drop i = a :: t := by
        cases hd : s'.drop i with
        | nil => simp at hd; omega
        | cons a t => exact ⟨a, t, rfl⟩
      have ha : isSpace a = false := by
        have : a ∈ s' := List.mem_of_mem_drop (by rw [hat]; exact List.mem_cons_self _ _)
        simpa using hsall a (List.mem_cons_of_mem _ this)
      rw [hat, List.cons_append]
      exact matchHere_plus_fail _ _ _ _ _ (by simpa [Cls.test] using ha)
    · have hi' : i = s'.length := by omega
      subst hi'
      rw [List.drop_length]
      simp only [List.nil_append]
      obtain ⟨hwne, hwall⟩ := hws
      cases ws with
      | nil => exact absurd rfl hwne
      | cons b ws' =>
        have hb : Cls.test .space b = true := hwall b (List.mem_cons_self _ _)
        rw [List.cons_append b ws', matchHere_plus_cons _ _ _ _ _ hb]
        apply rep_none _ _ ws' _ hLstop
        intro j hj
        beta_reduce
        by_cases hlt : j < ws'.length
        · obtain ⟨a, t, hat⟩ : ∃ a t, ws'.drop j = a :: t := by
            cases hd : ws'.drop j with
            | nil => simp at hd; omega
            | cons a t => exact ⟨a, t, rfl⟩
          have ha : isSpace a = true :=
            hwall a (List.mem_cons_of_mem _
              (List.mem_of_mem_drop (by rw [hat]; exact List.mem_cons_self _ _)))
          rw [hat, List.cons_append]
          apply matchHere_lit_ne
          intro h; subst h; simp [isSpace] at ha
        · have hj' : j = ws'.length := by omega
          subst hj'
          rw [List.drop_length]
          simp only [List.nil_append]
          exact arrow_fails N w1 rest _ _ hN hw1

end regexp

theorem findFrom_skip (tok ws N w1 rest : List Char) (htok : ∀ c ∈ tok, (!isSpace c) = true)
    (hws : Token isSpace ws) (hN : Token (fun c => !isSpace c) N) (hw1 : Token isSpace w1) :
    findFrom msgLine (tok ++ (ws ++ (N ++ (w1 ++ ("-> avg ".data ++ rest))))) =
      findFrom msgLine (ws ++ (N ++ (w1 ++ ("-> avg ".data ++ rest)))) := by
  induction tok with
  | nil => rfl
  | cons c tok ih =>
    have h := matchHere_msgLine_inside (c :: tok) ws N w1 rest ⟨by simp, htok⟩ hws hN hw1
    rw [List.cons_append] at h ⊢
    rw [findFrom]
    simp only [submatchHere, h]
    exact ih (fun a ha => htok a (List.mem_cons_of_mem _ ha))

/-- A token and whitespace before a line of the shape of `msgLine` do not change
the Result: the leftmost match starts after the token. -/
theorem GetResult_prefixed (tok ws N w1 ipA fpA S : List Char) (dot : Char)
    (w2 ipD fpD ipMi fpMi ipMa fpMa tail : List Char)
    (htok : ∀ c ∈ tok, (!isSpace c) = true) (hws : Token isSpace ws)
    (hN : Token (fun c => !isSpace c) N) (hw1 : Token isSpace w1)
    (hA : IsDecimal ipA fpA (9 * 10 ^ 12))
    (hS : S ≠ [] ∧ Digits S ∧ strconv.decVal S < 2 ^ 31) (hdot : dot ≠ '\n')
    (hw2 : Token isSpace w2) (hD : IsDecimal ipD fpD (10 ^ 300))
    (hMi : IsDecimal ipMi fpMi (10 ^ 300)) (hMa : IsDecimal ipMa fpMa (10 ^ 300))
    (htail : Stops (fun c => !isSpace c) tail) :
    GetResult (String.mk (tok ++ lineText ws N w1 (decimal ipA fpA ++ ['m', 's']) S dot w2
        (decimal ipD fpD) (decimal ipMi fpMi) (decimal ipMa fpMa) tail)) =
      (⟨String.mk N, ((strconv.decVal ipA * 1000000 + time.msFraction fpA : Nat) : Int),
        (strconv.decVal S : Int), msValue ipD fpD, msValue ipMi fpMi, msValue ipMa fpMa⟩,
        none) := by
  have tA := token_decimal ipA fpA _ hA ['m', 's'] (by decide)
  have tD := token_decimal ipD fpD _ hD [] (by simp)
  have tMi := token_decimal ipMi fpMi _ hMi [] (by simp)
  have tMa := token_decimal ipMa fpMa _ hMa [] (by simp)
  rw [List.append_nil] at tD tMi tMa
  obtain ⟨whole, hm⟩ := FindStringSubmatch_lineText ws N w1 _ S dot w2 _ _ _ tail hws.2 hN hw1
    tA ⟨hS.1, hS.2.1⟩ hdot hw2 tD tMi tMa htail
  have hskip : findFrom msgLine (tok ++ lineText ws N w1 (decimal ipA fpA ++ ['m', 's']) S dot
      w2 (decimal ipD fpD) (decimal ipMi fpMi) (decimal ipMa fpMa) tail) =
      findFrom msgLine (lineText ws N w1 (decimal ipA fpA ++ ['m', 's']) S dot
      w2 (decimal ipD fpD) (decimal ipMi fpMi) (decimal ipMa fpMa) tail) := by
    unfold lineText
    exact findFrom_skip tok ws N w1 _ htok hws hN hw1
  refine GetResult_of_fields _ whole N ipA fpA S ipD fpD ipMi fpMi ipMa fpMa ?_ hA hS hD hMi hMa
  rw [← hm]
  unfold FindStringSubmatch
  exact congrArg (fun o => match o with | some m => m | none => []) hskip

theorem parseFloat_err_zero (s : String) (d : Int) (e : ParseFloatError)
    (h : parseFloat s = (d, some e)) : d = 0 := by
  unfold parseFloat at h
  rcases h1 : strconv.ParseFloat s with err | raw
  · rw [h1] at h; simp at h; exact h.1.symm
  · rw [h1] at h
    dsimp only at h
    rcases h2 : time.ParseDuration
      (FormatInt (toInt64 (mul (ofNat time.Millisecond) raw)) ++ "ns") with err | v
    · rw [h2] at h; simp at h; exact h.1.symm
    · rw [h2] at h; simp at h

theorem getResult_error_shape (t : String) (h : (GetResult t).2 ≠ none) :
    (GetResult t).1.Max = 0 ∧
      ((regexp.FindStringSubmatch msgLine t).length ≠ MaxGroup + 1 →
        (GetResult t).1 = Result.zero) ∧
      ((regexp.FindStringSubmatch msgLine t).length = MaxGroup + 1 →
        (GetResult t).1.Name = (regexp.FindStringSubmatch msgLine t).getD NameGroup "") := by
  by_cases hlen : (regexp.FindStringSubmatch msgLine t).length ≠ MaxGroup + 1
  · simp [GetResult, hlen, Result.zero]
  · unfold GetResult at h ⊢
    rw [if_neg hlen] at h ⊢
    refine ⟨?_, fun h' => absurd h' hlen, fun _ => ?_⟩
    · revert h
      rcases time.ParseDuration ((FindStringSubmatch msgLine t).getD AvgGroup "") with e | avg
      · intro _; rfl
      · rcases strconv.ParseInt ((FindStringSubmatch msgLine t).getD NumSamplesGroup "") 32
          with e | n
        · intro _; rfl
        · rcases parseFloat ((FindStringSubmatch msgLine t).getD StdDevGroup "")
            with ⟨d, _ | e⟩
          · rcases parseFloat ((FindStringSubmatch msgLine t).getD MinGroup "")
              with ⟨mi, _ | e⟩
            · rcases h5 : parseFloat ((FindStringSubmatch msgLine t).getD MaxGroup "")
                with ⟨ma, _ | e⟩
              · intro h; exact absurd rfl h
              · intro _; exact parseFloat_err_zero _ _ _ h5
            · intro _; rfl
          · intro _; rfl
    · rcases time.ParseDuration ((FindStringSubmatch msgLine t).getD AvgGroup "") with e | avg
      · rfl
      · rcases strconv.ParseInt ((FindStringSubmatch msgLine t).getD NumSamplesGroup "") 32
          with e | n
        · rfl
        · rcases parseFloat ((FindStringSubmatch msgLine t).getD StdDevGroup "")
            with ⟨d, _ | e⟩
          · rcases parseFloat ((FindStringSubmatch msgLine t).getD MinGroup "")
              with ⟨mi, _ | e⟩
            · rcases parseFloat ((FindStringSubmatch msgLine t).getD MaxGroup "")
                with ⟨ma, _ | e⟩ <;> rfl
            · rfl
          · rfl

theorem emit_of_error (t : String) (h : (GetResult t).2 ≠ none) : emit t = "" := by
  unfold emit
  rcases hg : GetResult t with ⟨r, _ | e⟩
  · rw [hg] at h; exact absurd rfl h
  · rfl

namespace bufio

theorem byteLen_append (a b : List Char) : byteLen (a ++ b) = byteLen a + byteLen b := by
  simp [byteLen]

theorem le_byteLen (l : List Char) : l.length ≤ byteLen l := by
  induction l with
  | nil => simp [byteLen]
  | cons c l ih =>
    have : 1 ≤ c.utf8Size := Char.utf8Size_pos c
    simp only [byteLen, List.map_cons, List.sum_cons, List.length_cons] at ih ⊢
    omega

/-- A single line that does not fit the buffer is never delivered. -/
theorem scan_tooLong (l : List Char) (h1 : '\n' ∉ l) (h2 : MaxScanTokenSize ≤ byteLen l) :
    scan l = [] := by
  have hne : l ≠ [] := by
    intro h; subst h; simp [byteLen, MaxScanTokenSize] at h2
  have h3 : ¬ byteLen l < MaxScanTokenSize := by omega
  simp [scan, splitLines_line l h1, hne, h3]

end bufio

namespace bufio

/-- After a line that does not fit the buffer nothing more is delivered. -/
theorem scan_tooLong_first (l rest : List Char) (h1 : '\n' ∉ l)
    (h2 : MaxScanTokenSize ≤ byteLen l) : scan (l ++ '\n' :: rest) = [] := by
  have h3 : decide (byteLen l < MaxScanTokenSize) = false := by
    rw [decide_eq_false_iff_not]; omega
  unfold scan
  rw [splitLines_append l rest h1, List.takeWhile_cons]
  simp only [h3]
  rfl

end bufio

theorem lineOf_long_data (n : Nat) :
    (lineOf (List.replicate n 'x') "1ms".data "1".data "1".data "1".data "1".data).data =
      List.replicate n 'x' ++ " -> avg 1ms out of 1 samples. (std dev 1, min 1, max 1)".data := by
  simp [lineOf, lineText]

theorem lineOf_long_no_newline (n : Nat) :
    '\n' ∉ (lineOf (List.replicate n 'x') "1ms".data "1".data "1".data "1".data "1".data).data := by
  rw [lineOf_long_data]
  intro h
  rcases List.mem_append.1 h with h | h
  · have := List.eq_of_mem_replicate h
    exact absurd this (by decide)
  · revert h; decide

theorem lineOf_long_byteLen (n : Nat) : n ≤ bufio.byteLen
    (lineOf (List.replicate n 'x') "1ms".data "1".data "1".data "1".data "1".data).data := by
  have h := bufio.le_byteLen
    (lineOf (List.replicate n 'x') "1ms".data "1".data "1".data "1".data "1".data).data
  have e : (lineOf (List.replicate n 'x') "1ms".data "1".data "1".data "1".data
      "1".data).data.length = n + 55 := by
    rw [lineOf_long_data, List.length_append, List.length_replicate]; rfl
  omega

theorem lineOf_long_ok (n : Nat) (hn : 0 < n) :
    (GetResult (lineOf (List.replicate n 'x') "1ms".data "1".data "1".data "1".data
      "1".data)).2 = none := by
  have h := GetResult_lineText [] (List.replicate n 'x') [' '] ['1'] [] ['1'] '.' [' ']
    ['1'] [] ['1'] [] ['1'] [] [] (by intro c hc; cases hc)
    ⟨fun h => by
        have := congrArg List.length h
        rw [List.length_replicate] at this
        simp at this; omega,
      fun c hc => by rw [List.eq_of_mem_replicate hc]; decide⟩
    (by decide) (by decide!) (by decide) (by decide) (by decide) (by decide!) (by decide!)
    (by decide!) (stops_nil _)
  have e : lineOf (List.replicate n 'x') "1ms".data "1".data "1".data "1".data "1".data =
      String.mk (lineText [] (List.replicate n 'x') [' ']
      (decimal ['1'] [] ++ ['m', 's']) ['1'] '.' [' '] (decimal ['1'] []) (decimal ['1'] [])
      (decimal ['1'] []) []) := rfl
  rw [e, h]

theorem longLine_no_newline : '\n' ∉ longLine.data := by
  unfold longLine; exact lineOf_long_no_newline _

theorem longLine_byteLen : bufio.MaxScanTokenSize ≤ bufio.byteLen longLine.data := by
  unfold longLine; exact lineOf_long_byteLen _

theorem longLine_ok : (GetResult longLine).2 = none := by
  unfold longLine; exact lineOf_long_ok _ (by decide)

theorem process_longLine (rest : List String) (e : Option String) (out : String) :
    Process ⟨joinLines (longLine :: exampleLine :: rest), e⟩ ⟨out, none⟩ =
      (⟨out, none⟩, none) := by
  unfold Process
  have : (joinLines (longLine :: exampleLine :: rest)).data =
      longLine.data ++ '\n' :: joinChars (exampleLine :: rest) := by
    simp [joinLines, joinChars]
  rw [this, bufio.scan_tooLong_first _ _ longLine_no_newline longLine_byteLen]
  rfl

theorem getResult_ok_fields (t : String) (h : (GetResult t).2 = none) :
    (regexp.FindStringSubmatch msgLine t).length = MaxGroup + 1 ∧
      (GetResult t).1.Name = (regexp.FindStringSubmatch msgLine t).getD NameGroup "" ∧
      (GetResult t).1.StdDev =
        (parseFloat ((regexp.FindStringSubmatch msgLine t).getD StdDevGroup "")).1 ∧
      (GetResult t).1.Min =
        (parseFloat ((regexp.FindStringSubmatch msgLine t).getD MinGroup "")).1 ∧
      (GetResult t).1.Max =
        (parseFloat ((regexp.FindStringSubmatch msgLine t).getD MaxGroup "")).1 := by
  unfold GetResult at h ⊢
  by_cases hlen : (regexp.FindStringSubmatch msgLine t).length ≠ MaxGroup + 1
  · rw [if_pos hlen] at h; simp at h
  · rw [if_neg hlen] at h ⊢
    refine ⟨by simpa using hlen, ?_⟩
    revert h
    rcases time.ParseDuration ((FindStringSubmatch msgLine t).getD AvgGroup "") with e | avg
    · intro h; simp at h
    · rcases strconv.ParseInt ((FindStringSubmatch msgLine t).getD NumSamplesGroup "") 32
        with e | n
      · intro h; simp at h
      · rcases parseFloat ((FindStringSubmatch msgLine t).getD StdDevGroup "")
          with ⟨d, _ | e⟩
        · rcases parseFloat ((FindStringSubmatch msgLine t).getD MinGroup "")
            with ⟨mi, _ | e⟩
          · rcases parseFloat ((FindStringSubmatch msgLine t).getD MaxGroup "")
              with ⟨ma, _ | e⟩
            · intro _; exact ⟨rfl, rfl, rfl, rfl⟩
            · intro h; simp at h
          · intro h; simp at h
        · intro h; simp at h

theorem concat_emit_filter (ls : List String) :
    concat ((ls.filter fun t => (GetResult t).2.isNone).map emit) = concat (ls.map emit) := by
  induction ls with
  | nil => rfl
  | cons t ls ih =>
    by_cases h : (GetResult t).2 = none
    · simp [List.filter, h, concat, ih]
    · have h' : (GetResult t).2.isNone = false := by
        cases hg : (GetResult t).2 with
        | none => exact absurd hg h
        | some e => rfl
      simp [List.filter, h', concat, ih, emit_of_error t h]

theorem emit_of_ok (t : String) (h : (GetResult t).2 = none) :
    emit t = render (GetResult t).1 ++ "\n" := by
  unfold emit
  rcases hg : GetResult t with ⟨r, _ | e⟩
  · rfl
  · rw [hg] at h; simp at h

theorem concat_emit_ok (ls : List String) (h : ∀ t ∈ ls, (GetResult t).2 = none) :
    concat (ls.map emit) = concat (ls.map fun t => render (GetResult t).1 ++ "\n") := by
  induction ls with
  | nil => rfl
  | cons t ls ih =>
    simp only [List.map_cons, concat, emit_of_ok t (h t (List.mem_cons_self _ _)),
      ih (fun a ha => h a (List.mem_cons_of_mem _ ha))]

theorem lineText_split (pre N w1 A S : List Char) (dot : Char) (w2 D Mi Ma tail : List Char) :
    pre ++ ((String.mk (lineText [] N w1 A S dot w2 D Mi Ma [])).data ++ tail) =
      lineText pre N w1 A S dot w2 D Mi Ma tail := by
  simp [lineText]

theorem scannable_filter (ls : List String) (p : String → Bool)
    (h : ∀ t ∈ ls, Scannable t) : ∀ t ∈ ls.filter p, Scannable t :=
  fun t ht => h t (List.mem_of_mem_filter ht)

theorem processLines_skip (t : String) (h : (GetResult t).2 ≠ none) (ts : List String)
    (w : Writer) : processLines (t :: ts) w = processLines ts w := by
  rcases hg : GetResult t with ⟨r, _ | e⟩
  · rw [hg] at h; exact absurd rfl h
  · simp [processLines, hg]

theorem concat_emit_success (ls : List String) :
    concat (ls.map emit) = concat ((ls.filter fun t => (GetResult t).2.isNone).map
      fun t => render (GetResult t).1 ++ "\n") := by
  rw [← concat_emit_filter ls]
  exact concat_emit_ok _ (fun t ht => by
    have := (List.mem_filter.1 ht).2
    simpa using this)

namespace float64

/-- Rounding to the nearest integer is off by at most half of the divisor. -/
theorem rhe_near (n d : Nat) (hd : 0 < d) :
    2 * (rhe n d * d) ≤ 2 * n + d ∧ 2 * n ≤ 2 * (rhe n d * d) + d := by
  have hdm := Nat.div_add_mod n d
  have hlt := Nat.mod_lt n hd
  have e1 : n / d * d = d * (n / d) := Nat.mul_comm _ _
  have e2 : (n / d + 1) * d = d * (n / d) + d := by ring
  unfold rhe
  simp only
  split_ifs with h1 h2 h3
  · rw [e1]; omega
  · rw [e2]; omega
  · rw [e1]; omega
  · rw [e2]; omega

/-- In the normal range the double nearest to `n / d` has a relative error of
at most `2^-53`. -/
theorem nearest_rel (n d : Nat) (hd : 0 < d) (hn : 2 ^ 53 * d ≤ n * U) :
    2 ^ 53 * (nearest n d * d) ≤ (2 ^ 53 + 1) * (n * U) ∧
      (2 ^ 53 - 1) * (n * U) ≤ 2 ^ 53 * (nearest n d * d) := by
  have hq : 2 ^ 53 ≤ n * U / d := by
    rw [Nat.le_div_iff_mul_le hd]; exact hn
  have hpow : 2 ^ (log2 (n * U / d) - 52) * 2 ^ 52 ≤ n * U / d := by
    by_cases h : 52 ≤ log2 (n * U / d)
    · rw [← pow_add, Nat.sub_add_cancel h]
      exact pow_log2_le _ (le_trans (by norm_num) hq)
    · have h0 : log2 (n * U / d) - 52 = 0 := by omega
      rw [h0, pow_zero, Nat.one_mul]
      exact le_trans (by norm_num) hq
  have hqd : n * U / d * d ≤ n * U := Nat.div_mul_le_self _ _
  unfold nearest
  simp only
  generalize log2 (n * U / d) - 52 = e at hpow
  have hE : 2 ^ 52 * (d * 2 ^ e) ≤ n * U := by
    calc 2 ^ 52 * (d * 2 ^ e) = 2 ^ e * 2 ^ 52 * d := by ring
      _ ≤ n * U / d * d := Nat.mul_le_mul_right _ hpow
      _ ≤ n * U := hqd
  obtain ⟨h1, h2⟩ := rhe_near (n * U) (d * 2 ^ e) (by positivity)
  have e3 : rhe (n * U) (d * 2 ^ e) * 2 ^ e * d = rhe (n * U) (d * 2 ^ e) * (d * 2 ^ e) := by
    ring
  rw [e3]
  generalize rhe (n * U) (d * 2 ^ e) * (d * 2 ^ e) = X at h1 h2 ⊢
  generalize d * 2 ^ e = D at h1 h2 hE ⊢
  generalize n * U = M at h1 h2 hE ⊢
  norm_num at hE ⊢
  constructor <;> omega

theorem pow_ten_le (k : Nat) (hk : k ≤ 300) : 2 ^ 74 * 10 ^ k ≤ U := by
  have h0 : (10 : Nat) ^ k ≤ 10 ^ 300 := Nat.pow_le_pow_right (by norm_num) hk
  have h1 : (10 : Nat) ^ 300 = (10 ^ 3) ^ 100 := by rw [← pow_mul]
  have h2 : (10 : Nat) ^ 3 ≤ 2 ^ 10 := by norm_num
  have h3 : ((10 : Nat) ^ 3) ^ 100 ≤ (2 ^ 10) ^ 100 := Nat.pow_le_pow_left h2 _
  have h4 : ((2 : Nat) ^ 10) ^ 100 = 2 ^ 1000 := by rw [← pow_mul]
  have h5 : U = 2 ^ 74 * 2 ^ 1000 := by unfold U; rw [← pow_add]
  rw [h5]
  exact Nat.mul_le_mul_left _ (by rw [← h4]; exact le_trans h0 (by rw [h1]; exact h3))

theorem two_pow_le_U : 2 ^ 74 ≤ U := by
  have := pow_ten_le 0 (by norm_num)
  simpa using this

end float64

namespace float64

/-- A value within one unit of `T / L` truncates to within one of the floor. -/
theorem floor_near (T L N : Nat) (hL : 0 < L) (h1 : N * L < T * U + L * U)
    (h2 : T * U < N * L + L * U) : T / L ≤ N / U + 1 ∧ N / U ≤ T / L + 1 := by
  have hU := U_pos
  have hF1 : T / L * L ≤ T := Nat.div_mul_le_self _ _
  have hF2 : T < (T / L + 1) * L := by
    have := Nat.div_add_mod T L
    have := Nat.mod_lt T hL
    have e : (T / L + 1) * L = L * (T / L) + L := by ring
    omega
  constructor
  · have h3 : T / L * U * L < (N + U) * L := by
      calc T / L * U * L = T / L * L * U := by ring
        _ ≤ T * U := Nat.mul_le_mul_right _ hF1
        _ < N * L + L * U := h2
        _ = (N + U) * L := by ring
    have h4 : T / L * U < N + U := Nat.lt_of_mul_lt_mul_right h3
    rcases Nat.eq_zero_or_pos (T / L) with h0 | h0
    · rw [h0]; exact Nat.zero_le _
    · have h5 : (T / L - 1) * U ≤ N := by
        have e : T / L * U = (T / L - 1) * U + U := by
          conv_lhs => rw [show T / L = T / L - 1 + 1 by omega]
          ring
        omega
      have := (Nat.le_div_iff_mul_le hU).2 h5
      omega
  · have h3 : N * L < (T / L + 2) * U * L := by
      calc N * L < T * U + L * U := h1
        _ ≤ (T / L + 1) * L * U + L * U :=
          Nat.add_le_add_right (Nat.mul_le_mul_right _ (le_of_lt hF2)) _
        _ = (T / L + 2) * U * L := by ring
    have h4 : N < (T / L + 2) * U := Nat.lt_of_mul_lt_mul_right h3
    have := (Nat.div_lt_iff_lt_mul hU).2 h4
    omega

/-- Two roundings, of `v / L` and of the product with `1e6`, stay within one
unit of `v * 1e6 / L` when this is below `2 * 10^15`. -/
theorem near_of_two (v L N1 N2 : Nat) (hL : 0 < L)
    (h1u : 2 ^ 53 * (N1 * L) ≤ (2 ^ 53 + 1) * (v * U))
    (h1l : (2 ^ 53 - 1) * (v * U) ≤ 2 ^ 53 * (N1 * L))
    (h2u : 2 ^ 53 * N2 ≤ (2 ^ 53 + 1) * (1000000 * N1))
    (h2l : (2 ^ 53 - 1) * (1000000 * N1) ≤ 2 ^ 53 * N2)
    (hv : v < 2000000000 * L) :
    v * 1000000 / L ≤ N2 / U + 1 ∧ N2 / U ≤ v * 1000000 / L + 1 := by
  have hU := U_pos
  have hvU : v * U < 2000000000 * (L * U) := by
    calc v * U < 2000000000 * L * U := Nat.mul_lt_mul_of_pos_right hv hU
      _ = 2000000000 * (L * U) := by ring
  have h2u' : 2 ^ 53 * (N2 * L) ≤ (2 ^ 53 + 1) * (1000000 * (N1 * L)) := by
    calc 2 ^ 53 * (N2 * L) = 2 ^ 53 * N2 * L := by ring
      _ ≤ (2 ^ 53 + 1) * (1000000 * N1) * L := Nat.mul_le_mul_right _ h2u
      _ = (2 ^ 53 + 1) * (1000000 * (N1 * L)) := by ring
  have h2l' : (2 ^ 53 - 1) * (1000000 * (N1 * L)) ≤ 2 ^ 53 * (N2 * L) := by
    calc (2 ^ 53 - 1) * (1000000 * (N1 * L)) = (2 ^ 53 - 1) * (1000000 * N1) * L := by ring
      _ ≤ 2 ^ 53 * N2 * L := Nat.mul_le_mul_right _ h2l
      _ = 2 ^ 53 * (N2 * L) := by ring
  apply floor_near _ _ _ hL
  · rw [show v * 1000000 * U = 1000000 * (v * U) by ring]
    generalize N2 * L = X at h2u' h2l' ⊢
    generalize N1 * L = A at h1u h1l h2u' h2l' ⊢
    generalize v * U = B at h1u h1l hvU ⊢
    generalize L * U = C at hvU ⊢
    norm_num at h1u h1l h2u' h2l' ⊢
    omega
  · rw [show v * 1000000 * U = 1000000 * (v * U) by ring]
    generalize N2 * L = X at h2u' h2l' ⊢
    generalize N1 * L = A at h1u h1l h2u' h2l' ⊢
    generalize v * U = B at h1u h1l hvU ⊢
    generalize L * U = C at hvU ⊢
    norm_num at h1u h1l h2u' h2l' ⊢
    omega

/-- Three roundings, of `f`, of `1e6 / L` and of their product, stay within
one unit of `f * 1e6 / L` when `f < L`. -/
theorem near_of_three (f L N0 N1 N2 : Nat) (hL : 0 < L) (hf : f < L)
    (h0u : 2 ^ 53 * N0 ≤ (2 ^ 53 + 1) * (f * U))
    (h0l : (2 ^ 53 - 1) * (f * U) ≤ 2 ^ 53 * N0)
    (h1u : 2 ^ 53 * (N1 * L) ≤ (2 ^ 53 + 1) * (1000000 * U))
    (h1l : (2 ^ 53 - 1) * (1000000 * U) ≤ 2 ^ 53 * (N1 * L))
    (h2u : 2 ^ 53 * (N2 * U) ≤ (2 ^ 53 + 1) * (N0 * N1))
    (h2l : (2 ^ 53 - 1) * (N0 * N1) ≤ 2 ^ 53 * (N2 * U)) :
    f * 1000000 / L ≤ N2 / U + 1 ∧ N2 / U ≤ f * 1000000 / L + 1 := by
  have hU := U_pos
  have a1 : 2 ^ 53 * (N0 * (N1 * L)) ≤ (2 ^ 53 + 1) * (1000000 * (N0 * U)) := by
    calc 2 ^ 53 * (N0 * (N1 * L)) = N0 * (2 ^ 53 * (N1 * L)) := by ring
      _ ≤ N0 * ((2 ^ 53 + 1) * (1000000 * U)) := Nat.mul_le_mul_left _ h1u
      _ = (2 ^ 53 + 1) * (1000000 * (N0 * U)) := by ring
  have a1' : (2 ^ 53 - 1) * (1000000 * (N0 * U)) ≤ 2 ^ 53 * (N0 * (N1 * L)) := by
    calc (2 ^ 53 - 1) * (1000000 * (N0 * U)) = N0 * ((2 ^ 53 - 1) * (1000000 * U)) := by ring
      _ ≤ N0 * (2 ^ 53 * (N1 * L)) := Nat.mul_le_mul_left _ h1l
      _ = 2 ^ 53 * (N0 * (N1 * L)) := by ring
  have a0 : 2 ^ 53 * (N0 * U) ≤ (2 ^ 53 + 1) * (f * U * U) := by
    calc 2 ^ 53 * (N0 * U) = 2 ^ 53 * N0 * U := by ring
      _ ≤ (2 ^ 53 + 1) * (f * U) * U := Nat.mul_le_mul_right _ h0u
      _ = (2 ^ 53 + 1) * (f * U * U) := by ring
  have a0' : (2 ^ 53 - 1) * (f * U * U) ≤ 2 ^ 53 * (N0 * U) := by
    calc (2 ^ 53 - 1) * (f * U * U) = (2 ^ 53 - 1) * (f * U) * U := by ring
      _ ≤ 2 ^ 53 * N0 * U := Nat.mul_le_mul_right _ h0l
      _ = 2 ^ 53 * (N0 * U) := by ring
  have a2 : 2 ^ 53 * (N2 * L * U) ≤ (2 ^ 53 + 1) * (N0 * (N1 * L)) := by
    calc 2 ^ 53 * (N2 * L * U) = 2 ^ 53 * (N2 * U) * L := by ring
      _ ≤ (2 ^ 53 + 1) * (N0 * N1) * L := Nat.mul_le_mul_right _ h2u
      _ = (2 ^ 53 + 1) * (N0 * (N1 * L)) := by ring
  have a2' : (2 ^ 53 - 1) * (N0 * (N1 * L)) ≤ 2 ^ 53 * (N2 * L * U) := by
    calc (2 ^ 53 - 1) * (N0 * (N1 * L)) = (2 ^ 53 - 1) * (N0 * N1) * L := by ring
      _ ≤ 2 ^ 53 * (N2 * U) * L := Nat.mul_le_mul_right _ h2l
      _ = 2 ^ 53 * (N2 * L * U) := by ring
  have hRS : f * U * U + U * U ≤ L * U * U := by
    calc f * U * U + U * U = (f + 1) * (U * U) := by ring
      _ ≤ L * (U * U) := Nat.mul_le_mul_right _ hf
      _ = L * U * U := by ring
  have hUU : 0 < U * U := Nat.mul_pos hU hU
  have b1 : N2 * L * U < (f * 1000000 * U + L * U) * U := by
    rw [show (f * 1000000 * U + L * U) * U = 1000000 * (f * U * U) + L * U * U by ring]
    generalize N2 * L * U = Y at a2 a2' ⊢
    generalize N0 * (N1 * L) = P at a1 a1' a2 a2'
    generalize N0 * U = Q at a0 a0' a1 a1'
    generalize f * U * U = R at a0 a0' hRS ⊢
    generalize L * U * U = S at hRS ⊢
    generalize U * U = W at hRS hUU
    norm_num at a0 a0' a1 a1' a2 a2' ⊢
    omega
  have b2 : f * 1000000 * U * U < (N2 * L + L * U) * U := by
    rw [show (N2 * L + L * U) * U = N2 * L * U + L * U * U by ring,
      show f * 1000000 * U * U = 1000000 * (f * U * U) by ring]
    generalize N2 * L * U = Y at a2 a2' ⊢
    generalize N0 * (N1 * L) = P at a1 a1' a2 a2'
    generalize N0 * U = Q at a0 a0' a1 a1'
    generalize f * U * U = R at a0 a0' hRS ⊢
    generalize L * U * U = S at hRS ⊢
    generalize U * U = W at hRS hUU
    norm_num at a0 a0' a1 a1' a2 a2' ⊢
    omega
  exact floor_near _ _ _ hL (Nat.lt_of_mul_lt_mul_right b1) (Nat.lt_of_mul_lt_mul_right b2)

end float64

namespace float64

theorem round_fin (n d c : Nat) (h : nearest n d / U ≤ c) (hc : c + 1 < 2 ^ 100) :
    float64.round false n d = .fin false (nearest n d) := by
  have hU := U_pos
  have h1 : nearest n d < (c + 1) * U := by
    have := Nat.lt_succ_of_le h
    exact (Nat.div_lt_iff_lt_mul hU).1 this
  have h2 : nearest n d < maxU := lt_maxU_of_le _ (c + 1) (le_of_lt h1) hc
  simp [float64.round, h2]

end float64

/-- The nanoseconds of `parseFloat` are within one of the exact product,
truncated, for values below `2 * 10^9` milliseconds. -/
theorem msValue_near (ip fp : List Char) (hfp : ∀ c ∈ fp, isDigit c = true)
    (hlen : fp.length ≤ 300) (hb : decVal ip < 2 * 10 ^ 9) :
    ((decVal (ip ++ fp) * 1000000 / 10 ^ fp.length : Nat) : Int) ≤ msValue ip fp + 1 ∧
      msValue ip fp ≤ ((decVal (ip ++ fp) * 1000000 / 10 ^ fp.length : Nat) : Int) + 1 := by
  have hU := U_pos
  have hUU : 0 < U * U := Nat.mul_pos hU hU
  have hL : 0 < 10 ^ fp.length := by positivity
  have hb' : decVal ip < 10 ^ 300 :=
    lt_of_lt_of_le hb (by
      calc 2 * 10 ^ 9 ≤ 10 ^ 10 := by norm_num
        _ ≤ 10 ^ 300 := Nat.pow_le_pow_right (by decide) (by decide))
  have hv : decVal (ip ++ fp) < 2000000000 * 10 ^ fp.length := by
    have h1 := decVal_append_lt ip fp hfp
    have h2 : (decVal ip + 1) * 10 ^ fp.length ≤ 2000000000 * 10 ^ fp.length :=
      Nat.mul_le_mul_right _ (by norm_num at hb; omega)
    omega
  have hpow := pow_ten_le fp.length hlen
  unfold msValue
  rw [decimalFloat_fin ip fp hfp hb', time.Millisecond, ofNat_million]
  simp only [mul, Bool.xor_false]
  generalize decVal (ip ++ fp) = v at hv ⊢
  generalize 10 ^ fp.length = L at hv hL hpow ⊢
  rcases Nat.eq_zero_or_pos v with h0 | h0
  · subst h0
    rw [nearest_zero, Nat.mul_zero]
    have hz : float64.round false 0 (U * U) = .fin false 0 := by
      have := maxU_pos
      simp [float64.round, nearest_zero, this]
    rw [hz]
    simp [toInt64]
  · have hn1 : 2 ^ 53 * L ≤ v * U := by
      calc 2 ^ 53 * L ≤ 2 ^ 74 * L := Nat.mul_le_mul_right _ (by norm_num)
        _ ≤ U := hpow
        _ ≤ v * U := Nat.le_mul_of_pos_left _ h0
    obtain ⟨h1u, h1l⟩ := nearest_rel v L hL hn1
    have hvU : 2 ^ 74 * L ≤ v * U := le_trans hpow (Nat.le_mul_of_pos_left _ h0)
    generalize nearest v L = N1 at h1u h1l ⊢
    have hN1 : 2 ^ 73 ≤ N1 := by
      have h3 : 2 ^ 73 * L ≤ N1 * L := by
        generalize N1 * L = A at h1l ⊢
        generalize v * U = B at h1l hvU
        norm_num at h1l hvU ⊢
        omega
      exact Nat.le_of_mul_le_mul_right h3 hL
    have hn2 : 2 ^ 53 * (U * U) ≤ 1000000 * U * N1 * U := by
      calc 2 ^ 53 * (U * U) ≤ 2 ^ 73 * (U * U) := Nat.mul_le_mul_right _ (by norm_num)
        _ ≤ N1 * (U * U) := Nat.mul_le_mul_right _ hN1
        _ ≤ 1000000 * (N1 * (U * U)) := Nat.le_mul_of_pos_left _ (by norm_num)
        _ = 1000000 * U * N1 * U := by ring
    obtain ⟨h2u0, h2l0⟩ := nearest_rel (1000000 * U * N1) (U * U) hUU hn2
    have h2u : 2 ^ 53 * nearest (1000000 * U * N1) (U * U) ≤ (2 ^ 53 + 1) * (1000000 * N1) := by
      apply Nat.le_of_mul_le_mul_right _ hUU
      calc 2 ^ 53 * nearest (1000000 * U * N1) (U * U) * (U * U)
          = 2 ^ 53 * (nearest (1000000 * U * N1) (U * U) * (U * U)) := by ring
        _ ≤ (2 ^ 53 + 1) * (1000000 * U * N1 * U) := h2u0
        _ = (2 ^ 53 + 1) * (1000000 * N1) * (U * U) := by ring
    have h2l : (2 ^ 53 - 1) * (1000000 * N1) ≤ 2 ^ 53 * nearest (1000000 * U * N1) (U * U) := by
      apply Nat.le_of_mul_le_mul_right _ hUU
      calc (2 ^ 53 - 1) * (1000000 * N1) * (U * U)
          = (2 ^ 53 - 1) * (1000000 * U * N1 * U) := by ring
        _ ≤ 2 ^ 53 * (nearest (1000000 * U * N1) (U * U) * (U * U)) := h2l0
        _ = 2 ^ 53 * nearest (1000000 * U * N1) (U * U) * (U * U) := by ring
    have near := near_of_two v L N1 _ hL h1u h1l h2u h2l hv
    have hF : v * 1000000 / L < 2000000000000000 := by
      rw [Nat.div_lt_iff_lt_mul hL]
      omega
    have hle : nearest (1000000 * U * N1) (U * U) / U ≤ 2000000000000000 := by omega
    rw [round_fin _ _ _ hle (by norm_num)]
    have h63 : nearest (1000000 * U * N1) (U * U) / U < 2 ^ 63 :=
      lt_of_le_of_lt hle (by norm_num)
    simp only [toInt64, h63, if_true]
    exact ⟨by exact_mod_cast near.1, by exact_mod_cast near.2⟩

namespace time

/-- With at most eighteen fraction digits, the nanoseconds of the fraction are
within one of the exact product, truncated. -/
theorem msFraction_near (fp : List Char) (hfp : ∀ c ∈ fp, isDigit c = true)
    (h18 : fp.length ≤ 18) :
    decVal fp * 1000000 / 10 ^ fp.length ≤ msFraction fp + 1 ∧
      msFraction fp ≤ decVal fp * 1000000 / 10 ^ fp.length + 1 := by
  have hU := U_pos
  have hUU : 0 < U * U := Nat.mul_pos hU hU
  have hlf := leadingFraction_exact fp hfp 0 0 (by norm_num) (by omega)
  have hlt := decValFrom_lt fp hfp
  have e1 : ofNat 1 = F64.fin false (10 ^ 0 * U) := by
    rw [ofNat_one, Nat.pow_zero, Nat.one_mul]
  have hL : 0 < 10 ^ fp.length := by positivity
  have hL18 : 10 ^ fp.length ≤ 10 ^ 18 := Nat.pow_le_pow_right (by decide) h18
  have hpow := pow_ten_le 30 (by decide)
  unfold msFraction
  rw [e1, hlf, Nat.zero_add]
  simp only [← decVal_eq] at hlt ⊢
  generalize decVal fp = f at hlt ⊢
  generalize 10 ^ fp.length = L at hlt hL hL18 ⊢
  split_ifs with h0
  · have hf63 : f ≤ 2 ^ 63 := by norm_num at hL18 ⊢; omega
    obtain ⟨hof, -⟩ := ofNat_fin f hf63
    have hLU : L * U ≠ 0 := Nat.pos_iff_ne_zero.1 (Nat.mul_pos hL hU)
    -- first rounding
    have hn0 : 2 ^ 53 * 1 ≤ f * U := by
      calc 2 ^ 53 * 1 ≤ 2 ^ 74 * 10 ^ 30 := by norm_num
        _ ≤ U := hpow
        _ ≤ f * U := Nat.le_mul_of_pos_left _ h0
    obtain ⟨h0u, h0l⟩ := nearest_rel f 1 (by decide) hn0
    rw [Nat.mul_one] at h0u h0l
    have hfU : U ≤ f * U := Nat.le_mul_of_pos_left _ h0
    have hN0 : U ≤ 2 * nearest f 1 := by
      generalize nearest f 1 = N0 at h0l ⊢
      generalize f * U = B at h0l hfU
      norm_num at h0l
      omega
    -- second rounding
    have hn1 : 2 ^ 53 * (L * U) ≤ 1000000 * U * U := by
      calc 2 ^ 53 * (L * U) ≤ 2 ^ 53 * (10 ^ 18 * U) :=
            Nat.mul_le_mul_left _ (Nat.mul_le_mul_right _ hL18)
        _ = 2 ^ 53 * 10 ^ 18 * U := by ring
        _ ≤ 2 ^ 74 * 10 ^ 30 * U := Nat.mul_le_mul_right _ (by norm_num)
        _ ≤ U * U := Nat.mul_le_mul_right _ hpow
        _ ≤ 1000000 * (U * U) := Nat.le_mul_of_pos_left _ (by norm_num)
        _ = 1000000 * U * U := by ring
    obtain ⟨h1u0, h1l0⟩ := nearest_rel (1000000 * U) (L * U) (Nat.mul_pos hL hU) hn1
    have h1u : 2 ^ 53 * (nearest (1000000 * U) (L * U) * L) ≤ (2 ^ 53 + 1) * (1000000 * U) := by
      apply Nat.le_of_mul_le_mul_right _ hU
      calc 2 ^ 53 * (nearest (1000000 * U) (L * U) * L) * U
          = 2 ^ 53 * (nearest (1000000 * U) (L * U) * (L * U)) := by ring
        _ ≤ (2 ^ 53 + 1) * (1000000 * U * U) := h1u0
        _ = (2 ^ 53 + 1) * (1000000 * U) * U := by ring
    have h1l : (2 ^ 53 - 1) * (1000000 * U) ≤ 2 ^ 53 * (nearest (1000000 * U) (L * U) * L) := by
      apply Nat.le_of_mul_le_mul_right _ hU
      calc (2 ^ 53 - 1) * (1000000 * U) * U = (2 ^ 53 - 1) * (1000000 * U * U) := by ring
        _ ≤ 2 ^ 53 * (nearest (1000000 * U) (L * U) * (L * U)) := h1l0
        _ = 2 ^ 53 * (nearest (1000000 * U) (L * U) * L) * U := by ring
    have hN1le : nearest (1000000 * U) (L * U) / U ≤ 2000000 := by
      have h3 : nearest (1000000 * U) (L * U) ≤ nearest (1000000 * U) (L * U) * L :=
        Nat.le_mul_of_pos_right _ hL
      have h4 : nearest (1000000 * U) (L * U) ≤ 2000000 * U := by
        generalize nearest (1000000 * U) (L * U) * L = A at h1u h3
        generalize nearest (1000000 * U) (L * U) = N1 at h3 ⊢
        norm_num at h1u
        omega
      calc nearest (1000000 * U) (L * U) / U ≤ 2000000 * U / U := Nat.div_le_div_right h4
        _ = 2000000 := Nat.mul_div_cancel _ hU
    have hN1 : 2 ^ 54 ≤ nearest (1000000 * U) (L * U) := by
      have h3 : nearest (1000000 * U) (L * U) * L ≤ nearest (1000000 * U) (L * U) * 10 ^ 18 :=
        Nat.mul_le_mul_left _ hL18
      generalize nearest (1000000 * U) (L * U) * L = A at h1l h3
      generalize nearest (1000000 * U) (L * U) = N1 at h3 ⊢
      norm_num at h1l h3 hpow ⊢
      omega
    -- third rounding
    have hn2 : 2 ^ 53 * (U * U) ≤ nearest f 1 * nearest (1000000 * U) (L * U) * U := by
      have h3 : 2 ^ 53 * U ≤ nearest f 1 * nearest (1000000 * U) (L * U) := by
        calc 2 ^ 53 * U ≤ 2 ^ 53 * (2 * nearest f 1) := Nat.mul_le_mul_left _ hN0
          _ = nearest f 1 * 2 ^ 54 := by ring
          _ ≤ nearest f 1 * nearest (1000000 * U) (L * U) := Nat.mul_le_mul_left _ hN1
      calc 2 ^ 53 * (U * U) = 2 ^ 53 * U * U := by ring
        _ ≤ nearest f 1 * nearest (1000000 * U) (L * U) * U := Nat.mul_le_mul_right _ h3
    obtain ⟨h2u0, h2l0⟩ :=
      nearest_rel (nearest f 1 * nearest (1000000 * U) (L * U)) (U * U) hUU hn2
    rw [hof, Millisecond, ofNat_million]
    simp only [div, hLU, if_false, Bool.xor_false]
    rw [round_fin _ _ _ hN1le (by norm_num)]
    simp only [mul, Bool.xor_false]
    generalize nearest (1000000 * U) (L * U) = N1 at *
    generalize nearest f 1 = N0 at *
    have h2u : 2 ^ 53 * (nearest (N0 * N1) (U * U) * U) ≤ (2 ^ 53 + 1) * (N0 * N1) := by
      apply Nat.le_of_mul_le_mul_right _ hU
      calc 2 ^ 53 * (nearest (N0 * N1) (U * U) * U) * U
          = 2 ^ 53 * (nearest (N0 * N1) (U * U) * (U * U)) := by ring
        _ ≤ (2 ^ 53 + 1) * (N0 * N1 * U) := h2u0
        _ = (2 ^ 53 + 1) * (N0 * N1) * U := by ring
    have h2l : (2 ^ 53 - 1) * (N0 * N1) ≤ 2 ^ 53 * (nearest (N0 * N1) (U * U) * U) := by
      apply Nat.le_of_mul_le_mul_right _ hU
      calc (2 ^ 53 - 1) * (N0 * N1) * U = (2 ^ 53 - 1) * (N0 * N1 * U) := by ring
        _ ≤ 2 ^ 53 * (nearest (N0 * N1) (U * U) * (U * U)) := h2l0
        _ = 2 ^ 53 * (nearest (N0 * N1) (U * U) * U) * U := by ring
    have near := near_of_three f L N0 N1 _ hL hlt h0u h0l h1u h1l h2u h2l
    have hF : f * 1000000 / L < 1000000 := by
      rw [Nat.div_lt_iff_lt_mul hL]
      nlinarith
    have hle : nearest (N0 * N1) (U * U) / U ≤ 1000000 := by omega
    rw [round_fin _ _ _ hle (by norm_num)]
    have h64 : nearest (N0 * N1) (U * U) / U < 2 ^ 64 := lt_of_le_of_lt hle (by norm_num)
    simp only [toUint64, h64, if_true]
    exact near
  · have : f = 0 := by omega
    subst this
    simp

end time

namespace strconv

theorem decVal_append (ip fp : List Char) :
    decVal (ip ++ fp) = decVal ip * 10 ^ fp.length + decVal fp := by
  rw [decVal_eq, decValFrom_append, decValFrom_eq, ← decVal_eq, ← decVal_eq]

theorem decVal_append_floor (ip fp : List Char) :
    decVal (ip ++ fp) * 1000000 / 10 ^ fp.length =
      decVal ip * 1000000 + decVal fp * 1000000 / 10 ^ fp.length := by
  have hL : 0 < 10 ^ fp.length := by positivity
  rw [decVal_append, Nat.add_mul,
    show decVal ip * 10 ^ fp.length * 1000000 = 10 ^ fp.length * (decVal ip * 1000000) by ring,
    Nat.mul_add_div hL]

theorem decVal_append_exact (ip fp : List Char) (h6 : fp.length ≤ 6) :
    decVal (ip ++ fp) * 10 ^ (6 - fp.length) =
      decVal ip * 1000000 + decVal fp * 10 ^ (6 - fp.length) := by
  have hk : (10 : Nat) ^ fp.length * 10 ^ (6 - fp.length) = 1000000 := by
    rw [← pow_add, Nat.add_sub_cancel' h6]; norm_num
  rw [decVal_append, Nat.add_mul, Nat.mul_assoc, hk]

end strconv

/-- The average of a line with at most eighteen fraction digits is within one
nanosecond of the exact value, truncated. -/
theorem average_near (ip fp : List Char) (hfp : ∀ c ∈ fp, isDigit c = true)
    (h18 : fp.length ≤ 18) :
    decVal (ip ++ fp) * 1000000 / 10 ^ fp.length ≤ decVal ip * 1000000 + time.msFraction fp + 1 ∧
      decVal ip * 1000000 + time.msFraction fp ≤
        decVal (ip ++ fp) * 1000000 / 10 ^ fp.length + 1 := by
  have h := time.msFraction_near fp hfp h18
  rw [decVal_append_floor]
  omega

theorem average_exact (ip fp : List Char) (hfp : ∀ c ∈ fp, isDigit c = true)
    (h6 : fp.length ≤ 6) :
    decVal ip * 1000000 + time.msFraction fp = decVal (ip ++ fp) * 10 ^ (6 - fp.length) := by
  rw [time.msFraction_exact fp hfp h6, decVal_append_exact ip fp h6]

/-- With an error, the field that failed to parse and the fields after it are
zero. -/
theorem getResult_error_fields (t : String) :
    match (GetResult t).2 with
    | none => True
    | some (.noMatch _ _) => (GetResult t).1 = Result.zero
    | some (.average _ _) =>
      (GetResult t).1.Average = 0 ∧ (GetResult t).1.NumSamples = 0 ∧
        (GetResult t).1.StdDev = 0 ∧ (GetResult t).1.Min = 0 ∧ (GetResult t).1.Max = 0
    | some (.samples _ _) =>
      (GetResult t).1.NumSamples = 0 ∧ (GetResult t).1.StdDev = 0 ∧
        (GetResult t).1.Min = 0 ∧ (GetResult t).1.Max = 0
    | some (.stdDev _ _) =>
      (GetResult t).1.StdDev = 0 ∧ (GetResult t).1.Min = 0 ∧ (GetResult t).1.Max = 0
    | some (.min _ _) => (GetResult t).1.Min = 0 ∧ (GetResult t).1.Max = 0
    | some (.max _ _) => (GetResult t).1.Max = 0 := by
  unfold GetResult
  by_cases hlen : (regexp.FindStringSubmatch msgLine t).length ≠ MaxGroup + 1
  · simp only [if_pos hlen]
  · simp only [if_neg hlen]
    rcases time.ParseDuration ((FindStringSubmatch msgLine t).getD AvgGroup "") with e | avg
    · exact ⟨rfl, rfl, rfl, rfl, rfl⟩
    · rcases strconv.ParseInt ((FindStringSubmatch msgLine t).getD NumSamplesGroup "") 32
        with e | n
      · exact ⟨rfl, rfl, rfl, rfl⟩
      · rcases h3 : parseFloat ((FindStringSubmatch msgLine t).getD StdDevGroup "")
          with ⟨d, _ | e⟩
        · rcases h4 : parseFloat ((FindStringSubmatch msgLine t).getD MinGroup "")
            with ⟨mi, _ | e⟩
          · rcases h5 : parseFloat ((FindStringSubmatch msgLine t).getD MaxGroup "")
              with ⟨ma, _ | e⟩
            · trivial
            · exact parseFloat_err_zero _ _ _ h5
          · exact ⟨parseFloat_err_zero _ _ _ h4, rfl⟩
        · exact ⟨parseFloat_err_zero _ _ _ h3, rfl, rfl⟩

namespace regexp

/-- A successful repetition consumed a run of the class and the continuation
succeeded after it. -/
theorem rep_inv {α : Type} (p : Char → Bool) (k : List Char → List Char → Option α)
    (acc s : List Char) (r : α) (h : rep p k acc s = some r) :
    ∃ run rest, s = run ++ rest ∧ (∀ c ∈ run, p c = true) ∧ k (acc ++ run) rest = some r := by
  induction s generalizing acc with
  | nil => exact ⟨[], [], rfl, by simp, by simpa [rep] using h⟩
  | cons c cs ih =>
    by_cases hp : p c = true
    · simp only [rep, hp, if_true] at h
      cases h1 : rep p k (acc ++ [c]) cs with
      | none =>
        rw [h1] at h
        exact ⟨[], c :: cs, rfl, by simp, by simpa using h⟩
      | some r1 =>
        rw [h1] at h
        have e : r1 = r := by simpa using h
        subst e
        obtain ⟨run, rest, hs, hrun, hk⟩ := ih (acc ++ [c]) h1
        refine ⟨c :: run, rest, by rw [hs]; rfl, ?_, ?_⟩
        · intro a ha
          rcases List.mem_cons.1 ha with ha | ha
          · rw [ha]; exact hp
          · exact hrun a ha
        · rw [← hk]; simp
    · simp only [rep, hp, if_false] at h
      exact ⟨[], c :: cs, rfl, by simp, by simpa using h⟩

theorem matchHere_one_inv (c : Cls) (r : Regexp) (caps : List (List Char)) (s : List Char)
    (x : List (List Char) × List Char) (h : matchHere (Item.one c :: r) caps s = some x) :
    ∃ a s', s = a :: s' ∧ c.test a = true ∧ matchHere r caps s' = some x := by
  cases s with
  | nil => simp [matchHere] at h
  | cons a s' =>
    by_cases ha : c.test a = true
    · exact ⟨a, s', rfl, ha, by simpa [matchHere, ha] using h⟩
    · simp [matchHere, ha] at h

theorem matchHere_lits_inv (l : List Char) (r : Regexp) (caps : List (List Char))
    (s : List Char) (x : List (List Char) × List Char)
    (h : matchHere (l.map (fun c => Item.one (Cls.lit c)) ++ r) caps s = some x) :
    ∃ s', s = l ++ s' ∧ matchHere r caps s' = some x := by
  induction l generalizing s with
  | nil => exact ⟨s, rfl, h⟩
  | cons c l ih =>
    obtain ⟨a, s1, hs, ha, h1⟩ := matchHere_one_inv _ _ _ _ _ h
    obtain ⟨s', hs', h2⟩ := ih s1 h1
    have : a = c := by simpa [Cls.test] using ha
    exact ⟨s', by rw [hs, hs', this]; rfl, h2⟩

theorem matchHere_star_inv (c : Cls) (r : Regexp) (caps : List (List Char)) (s : List Char)
    (x : List (List Char) × List Char) (h : matchHere (Item.star c :: r) caps s = some x) :
    ∃ run s', s = run ++ s' ∧ (∀ a ∈ run, c.test a = true) ∧ matchHere r caps s' = some x := by
  simp only [matchHere] at h
  obtain ⟨run, rest, hs, hrun, hk⟩ := rep_inv _ _ _ _ _ h
  exact ⟨run, rest, hs, hrun, hk⟩

theorem matchHere_plus_inv (c : Cls) (r : Regexp) (caps : List (List Char)) (s : List Char)
    (x : List (List Char) × List Char) (h : matchHere (Item.plus c :: r) caps s = some x) :
    ∃ run s', s = run ++ s' ∧ Token c.test run ∧ matchHere r caps s' = some x := by
  cases s with
  | nil => simp [matchHere] at h
  | cons a s1 =>
    by_cases ha : c.test a = true
    · simp only [matchHere, ha, if_true] at h
      obtain ⟨run, rest, hs, hrun, hk⟩ := rep_inv _ _ _ _ _ h
      refine ⟨a :: run, rest, by rw [hs]; rfl, ⟨by simp, ?_⟩, hk⟩
      intro b hb
      rcases List.mem_cons.1 hb with hb | hb
      · rw [hb]; exact ha
      · exact hrun b hb
    · simp [matchHere, ha] at h

theorem matchHere_cap_inv (c : Cls) (r : Regexp) (caps : List (List Char)) (s : List Char)
    (x : List (List Char) × List Char) (h : matchHere (Item.cap c :: r) caps s = some x) :
    ∃ tok s', s = tok ++ s' ∧ Token c.test tok ∧ matchHere r (caps ++ [tok]) s' = some x := by
  cases s with
  | nil => simp [matchHere] at h
  | cons a s1 =>
    by_cases ha : c.test a = true
    · simp only [matchHere, ha, if_true] at h
      obtain ⟨run, rest, hs, hrun, hk⟩ := rep_inv _ _ _ _ _ h
      refine ⟨a :: run, rest, by rw [hs]; rfl, ⟨by simp, ?_⟩, by simpa using hk⟩
      intro b hb
      rcases List.mem_cons.1 hb with hb | hb
      · rw [hb]; exact ha
      · exact hrun b hb
    · simp [matchHere, ha] at h

/-- What a match of `msgLine` at the start of a text looks like. -/
theorem matchHere_msgLine_inv (s : List Char) (x : List (List Char) × List Char)
    (h : matchHere msgLine [] s = some x) :
    ∃ pre N w1 A S dot w2 D Mi Ma,
      s = lineText pre N w1 A S dot w2 D Mi Ma x.2 ∧ x.1 = [N, A, S, D, Mi, Ma] ∧
      (∀ c ∈ pre, isSpace c = true) ∧ Token (fun c => !isSpace c) N ∧ Token isSpace w1 ∧
      Token (fun c => !isSpace c) A ∧ Token isDigit S ∧ dot ≠ '\n' ∧ Token isSpace w2 ∧
      Token (fun c => !isSpace c) D ∧ Token (fun c => !isSpace c) Mi ∧
      Token (fun c => !isSpace c) Ma := by
  rw [msgLine_eq] at h
  obtain ⟨pre, s1, e1, hpre, h⟩ := matchHere_star_inv _ _ _ _ _ h
  obtain ⟨N, s2, e2, hN, h⟩ := matchHere_cap_inv _ _ _ _ _ h
  obtain ⟨w1, s3, e3, hw1, h⟩ := matchHere_plus_inv _ _ _ _ _ h
  obtain ⟨s4, e4, h⟩ := matchHere_lits_inv _ _ _ _ _ h
  obtain ⟨A, s5, e5, hA, h⟩ := matchHere_cap_inv _ _ _ _ _ h
  obtain ⟨s6, e6, h⟩ := matchHere_lits_inv _ _ _ _ _ h
  obtain ⟨S, s7, e7, hS, h⟩ := matchHere_cap_inv _ _ _ _ _ h
  obtain ⟨s8, e8, h⟩ := matchHere_lits_inv _ _ _ _ _ h
  obtain ⟨dot, s9, e9, hdot, h⟩ := matchHere_one_inv _ _ _ _ _ h
  obtain ⟨s10, e10, h⟩ := matchHere_lits_inv _ _ _ _ _ h
  obtain ⟨w2, s11, e11, hw2, h⟩ := matchHere_plus_inv _ _ _ _ _ h
  obtain ⟨D, s12, e12, hD, h⟩ := matchHere_cap_inv _ _ _ _ _ h
  obtain ⟨s13, e13, h⟩ := matchHere_lits_inv _ _ _ _ _ h
  obtain ⟨Mi, s14, e14, hMi, h⟩ := matchHere_cap_inv _ _ _ _ _ h
  obtain ⟨s15, e15, h⟩ := matchHere_lits_inv _ _ _ _ _ h
  obtain ⟨Ma, s16, e16, hMa, h⟩ := matchHere_cap_inv _ _ _ _ _ h
  obtain ⟨par, s17, e17, hpar, h⟩ := matchHere_one_inv _ _ _ _ _ h
  have hx : x = ([N, A, S, D, Mi, Ma], s17) := by
    simp only [matchHere, List.nil_append, List.cons_append, Option.some.injEq] at h
    exact h.symm
  have hp : par = ')' := by simpa [Cls.test] using hpar
  refine ⟨pre, N, w1, A, S, dot, w2, D, Mi, Ma, ?_, by rw [hx], hpre, hN, hw1, hA, hS, ?_,
    hw2, hD, hMi, hMa⟩
  · rw [hx, e1, e2, e3, e4, e5, e6, e7, e8, e9, e10, e11, e12, e13, e14, e15, e16, e17, hp]
    rfl
  · simpa [Cls.test] using hdot

theorem findFrom_inv (re : Regexp) (s : List Char) (m : List String)
    (h : findFrom re s = some m) : ∃ p s', s = p ++ s' ∧ submatchHere re s' = some m := by
  induction s with
  | nil => exact ⟨[], [], rfl, by simpa [findFrom] using h⟩
  | cons c cs ih =>
    simp only [findFrom] at h
    cases h1 : submatchHere re (c :: cs) with
    | some m1 =>
      rw [h1] at h
      exact ⟨[], c :: cs, rfl, by rw [h1]; simpa using h⟩
    | none =>
      rw [h1] at h
      obtain ⟨p, s', hs, hm⟩ := ih h
      exact ⟨c :: p, s', by rw [hs]; rfl, hm⟩

end regexp

/-- The submatches of `msgLine` in a line: none, or a match of the shape of the
pattern somewhere in the line, with its six groups. -/
theorem FindStringSubmatch_inv (t : String) :
    regexp.FindStringSubmatch msgLine t = [] ∨
      ∃ p pre N w1 A S dot w2 D Mi Ma tail whole,
        t.data = p ++ lineText pre N w1 A S dot w2 D Mi Ma tail ∧
        regexp.FindStringSubmatch msgLine t =
          [whole, String.mk N, String.mk A, String.mk S, String.mk D, String.mk Mi,
            String.mk Ma] ∧
        (∀ c ∈ pre, isSpace c = true) ∧ Token (fun c => !isSpace c) N ∧ Token isSpace w1 ∧
        Token (fun c => !isSpace c) A ∧ Token isDigit S ∧ dot ≠ '\n' ∧ Token isSpace w2 ∧
        Token (fun c => !isSpace c) D ∧ Token (fun c => !isSpace c) Mi ∧
        Token (fun c => !isSpace c) Ma := by
  unfold regexp.FindStringSubmatch
  cases h : findFrom msgLine t.data with
  | none => exact Or.inl rfl
  | some m =>
    right
    obtain ⟨p, s', hs, hm⟩ := findFrom_inv _ _ _ h
    unfold submatchHere at hm
    cases h1 : matchHere msgLine [] s' with
    | none => rw [h1] at hm; cases hm
    | some x =>
      rw [h1] at hm
      obtain ⟨pre, N, w1, A, S, dot, w2, D, Mi, Ma, e, hc, rest⟩ := matchHere_msgLine_inv s' x h1
      obtain ⟨caps, tail⟩ := x
      simp only at e hc hm
      refine ⟨p, pre, N, w1, A, S, dot, w2, D, Mi, Ma, tail,
        String.mk (List.take (s'.length - tail.length) s'), by rw [hs, e], ?_, rest⟩
      simp only [Option.some.injEq] at hm
      rw [← hm, hc]
      rfl

namespace strconv

theorem uintLoop_range (ds : List Char) (x : Nat) (hds : ∀ c ∈ ds, isDigit c = true)
    (hx : x < 2 ^ 32) (hb : 2 ^ 32 ≤ decValFrom x ds) : uintLoop 32 x ds = .error .range := by
  induction ds generalizing x with
  | nil => simp only [decValFrom_nil] at hb; omega
  | cons c ds ih =>
    have hc : isDigit c = true := hds c (List.mem_cons_self _ _)
    rw [decValFrom_cons] at hb
    have h2 : ¬ x ≥ (2 ^ 64 - 1) / 10 + 1 := by norm_num at hx ⊢; omega
    simp only [uintLoop, hc, if_true, h2, if_false]
    by_cases h3 : x * 10 + digitVal c > 2 ^ 32 - 1
    · rw [if_pos h3]
    · rw [if_neg h3]
      exact ih _ (fun a ha => hds a (List.mem_cons_of_mem _ ha)) (by norm_num at h3 ⊢; omega) hb

theorem digit_ne_sign (c : Char) (hc : isDigit c = true) : c ≠ '-' ∧ c ≠ '+' := by
  rw [isDigit_iff] at hc
  constructor
  · rw [Ne, char_eq_iff]; have : ('-' : Char).toNat = 45 := by decide
    omega
  · rw [Ne, char_eq_iff]; have : ('+' : Char).toNat = 43 := by decide
    omega

/-- A decimal integer of `2^31` or more is out of range for `ParseInt` with
`bitSize` 32. -/
theorem parseIntChars_large (ds : List Char) (hne : ds ≠ []) (hds : ∀ c ∈ ds, isDigit c = true)
    (hb : 2 ^ 31 ≤ decValFrom 0 ds) : parseIntChars ds 32 = .error .range := by
  cases ds with
  | nil => exact absurd rfl hne
  | cons c ds =>
    obtain ⟨hc1, hc2⟩ := digit_ne_sign c (hds c (List.mem_cons_self _ _))
    by_cases h32 : decValFrom 0 (c :: ds) < 2 ^ 32
    · have hu := uintLoop_digits (c :: ds) 0 hds h32
      have h3 : 2147483648 ≤ decValFrom 0 (c :: ds) := by norm_num at hb ⊢; omega
      simp [parseIntChars, hc1, hc2, ParseUint, hu, h3]
    · have hu := uintLoop_range (c :: ds) 0 hds (by norm_num) (by omega)
      simp [parseIntChars, hc1, hc2, ParseUint, hu]

/-- On a string of digits `ParseInt` with `bitSize` 32 succeeds exactly below
`2^31`, with the value of the digits. -/
theorem parseIntChars_token (ds : List Char) (h : Token isDigit ds) (v : Int)
    (hv : parseIntChars ds 32 = .ok v) : v = (decVal ds : Int) ∧ decVal ds < 2 ^ 31 := by
  by_cases hb : decValFrom 0 ds < 2 ^ 31
  · rw [parseIntChars_digits ds h.1 h.2 hb] at hv
    simp only [Except.ok.injEq] at hv
    exact ⟨hv.symm, hb⟩
  · rw [parseIntChars_large ds h.1 h.2 (by omega)] at hv
    cases hv

end strconv

/-- A successful `GetResult` in terms of the submatches and the parsed fields. -/
theorem getResult_ok_inv (t : String) (h : (GetResult t).2 = none) :
    ∃ av sv dv miv mav,
      (regexp.FindStringSubmatch msgLine t).length = MaxGroup + 1 ∧
      time.ParseDuration ((regexp.FindStringSubmatch msgLine t).getD AvgGroup "") = .ok av ∧
      strconv.ParseInt ((regexp.FindStringSubmatch msgLine t).getD NumSamplesGroup "") 32 =
        .ok sv ∧
      parseFloat ((regexp.FindStringSubmatch msgLine t).getD StdDevGroup "") = (dv, none) ∧
      parseFloat ((regexp.FindStringSubmatch msgLine t).getD MinGroup "") = (miv, none) ∧
      parseFloat ((regexp.FindStringSubmatch msgLine t).getD MaxGroup "") = (mav, none) ∧
      GetResult t =
        (⟨(regexp.FindStringSubmatch msgLine t).getD NameGroup "", av, sv, dv, miv, mav⟩,
          none) := by
  unfold GetResult at h ⊢
  by_cases hlen : (regexp.FindStringSubmatch msgLine t).length ≠ MaxGroup + 1
  · rw [if_pos hlen] at h; simp at h
  · rw [if_neg hlen] at h ⊢
    revert h
    rcases time.ParseDuration ((FindStringSubmatch msgLine t).getD AvgGroup "") with e | avg
    · intro h; simp at h
    · rcases strconv.ParseInt ((FindStringSubmatch msgLine t).getD NumSamplesGroup "") 32
        with e | n
      · intro h; simp at h
      · rcases parseFloat ((FindStringSubmatch msgLine t).getD StdDevGroup "")
          with ⟨d, _ | e⟩
        · rcases parseFloat ((FindStringSubmatch msgLine t).getD MinGroup "")
            with ⟨mi, _ | e⟩
          · rcases parseFloat ((FindStringSubmatch msgLine t).getD MaxGroup "")
              with ⟨ma, _ | e⟩
            · intro _
              exact ⟨avg, n, d, mi, ma, by simpa using hlen, rfl, rfl, rfl, rfl, rfl, rfl⟩
            · intro h; simp at h
          · intro h; simp at h
        · intro h; simp at h

/-- The Name and the sample count of a successful `GetResult`. -/
theorem getResult_ok_name (t : String) (h : (GetResult t).2 = none) :
    Token (fun c => !isSpace c) (GetResult t).1.Name.data ∧
      0 ≤ (GetResult t).1.NumSamples ∧ (GetResult t).1.NumSamples ≤ 2 ^ 31 - 1 := by
  obtain ⟨av, sv, dv, miv, mav, hlen, ha, hs, hd, hmi, hma, hr⟩ := getResult_ok_inv t h
  rcases FindStringSubmatch_inv t with h0 | ⟨p, pre, N, w1, A, S, dot, w2, D, Mi, Ma, tail,
    whole, ht, hm, hpre, hN, hw1, hA, hS, hdot, hw2, hD, hMi, hMa⟩
  · rw [h0] at hlen; cases hlen
  · rw [hm] at hs hr
    rw [hr]
    have hs' : strconv.parseIntChars S 32 = .ok sv := hs
    obtain ⟨e, hb⟩ := strconv.parseIntChars_token S hS sv hs'
    refine ⟨hN, ?_, ?_⟩
    · show (0 : Int) ≤ sv
      rw [e]; exact Int.natCast_nonneg _
    · show sv ≤ 2 ^ 31 - 1
      rw [e]
      have : ((decVal S : Nat) : Int) < 2 ^ 31 := by exact_mod_cast hb
      omega

namespace regexp

theorem rep_acc_irrel {α : Type} (p : Char → Bool) (k : List Char → List Char → Option α)
    (hk : ∀ a b s, k a s = k b s) (acc acc' s : List Char) :
    rep p k acc s = rep p k acc' s := by
  induction s generalizing acc acc' with
  | nil => simp only [rep]; exact hk _ _ _
  | cons c cs ih =>
    simp only [rep]
    rw [ih (acc ++ [c]) (acc' ++ [c]), hk acc acc' (c :: cs)]

theorem matchHere_cap_fail (c : Cls) (r : Regexp) (caps : List (List Char)) (x : Char)
    (xs : List Char) (h : c.test x = false) :
    matchHere (Item.cap c :: r) caps (x :: xs) = none := by
  simp [matchHere, h]

theorem matchHere_star_cons (c : Cls) (r : Regexp) (caps : List (List Char)) (w : Char)
    (s : List Char) (hw : c.test w = true) (hfail : matchHere r caps (w :: s) = none) :
    matchHere (Item.star c :: r) caps (w :: s) = matchHere (Item.star c :: r) caps s := by
  simp only [matchHere]
  simp only [rep, hw, if_true, List.nil_append, hfail]
  rw [rep_acc_irrel c.test (fun _ s' => matchHere r caps s') (fun _ _ _ => rfl) [w] []]
  cases rep c.test (fun _ s' => matchHere r caps s') [] s <;> rfl

/-- A whitespace character before the text is absorbed by the leading `\s*`. -/
theorem matchHere_msgLine_space (w : Char) (hw : isSpace w = true) (s : List Char) :
    matchHere msgLine [] (w :: s) = matchHere msgLine [] s := by
  rw [msgLine_eq]
  apply matchHere_star_cons
  · exact hw
  · apply matchHere_cap_fail
    simp [Cls.test, hw]

/-- Two submatch lists agree on the groups: they have the same length and the
same elements after the first, which is the whole match. -/
theorem findFrom_space (w : Char) (hw : isSpace w = true) (s : List Char) :
    ((findFrom msgLine (w :: s)).map List.tail = (findFrom msgLine s).map List.tail) ∧
      ((findFrom msgLine (w :: s)).map List.length = (findFrom msgLine s).map List.length) := by
  simp only [findFrom, submatchHere, matchHere_msgLine_space w hw s]
  cases h : matchHere msgLine [] s with
  | none => exact ⟨rfl, rfl⟩
  | some x =>
    have hs : submatchHere msgLine s = some (String.mk (s.take (s.length - x.2.length)) ::
        x.1.map String.mk) := by
      simp only [submatchHere, h]
    rw [findFrom_of_here msgLine s _ hs]
    exact ⟨rfl, rfl⟩

theorem FindStringSubmatch_space (w : Char) (hw : isSpace w = true) (s : List Char) :
    (FindStringSubmatch msgLine (String.mk (w :: s))).tail =
        (FindStringSubmatch msgLine (String.mk s)).tail ∧
      (FindStringSubmatch msgLine (String.mk (w :: s))).length =
        (FindStringSubmatch msgLine (String.mk s)).length := by
  obtain ⟨h1, h2⟩ := findFrom_space w hw s
  unfold FindStringSubmatch
  cases ha : findFrom msgLine (w :: s) <;> cases hb : findFrom msgLine s <;>
    simp only [ha, hb, Option.map_some', Option.map_none', Option.some.injEq] at h1 h2 <;>
    first
    | exact ⟨rfl, rfl⟩
    | exact ⟨h1, h2⟩
    | cases h1

theorem FindStringSubmatch_spaces (ws : List Char) (hws : ∀ c ∈ ws, isSpace c = true)
    (s : List Char) :
    (FindStringSubmatch msgLine (String.mk (ws ++ s))).tail =
        (FindStringSubmatch msgLine (String.mk s)).tail ∧
      (FindStringSubmatch msgLine (String.mk (ws ++ s))).length =
        (FindStringSubmatch msgLine (String.mk s)).length := by
  induction ws with
  | nil => exact ⟨rfl, rfl⟩
  | cons w ws ih =>
    obtain ⟨h1, h2⟩ := FindStringSubmatch_space w (hws w (List.mem_cons_self _ _)) (ws ++ s)
    obtain ⟨h3, h4⟩ := ih (fun c hc => hws c (List.mem_cons_of_mem _ hc))
    exact ⟨h1.trans h3, h2.trans h4⟩

theorem FindStringSubmatch_append_ignored (re : Regexp) (ws : List Char)
    (hws : ∀ c ∈ ws, ignoresLast c re = true) (s : List Char) :
    FindStringSubmatch re (String.mk (s ++ ws)) = FindStringSubmatch re (String.mk s) := by
  induction ws generalizing s with
  | nil => rw [List.append_nil]
  | cons w ws ih =>
    rw [show s ++ w :: ws = (s ++ [w]) ++ ws by simp,
      ih (fun c hc => hws c (List.mem_cons_of_mem _ hc)) (s ++ [w]),
      FindStringSubmatch_append_last w re (hws w (List.mem_cons_self _ _))]

end regexp

/-- The Result of `GetResult`, and whether it is an error, depend on the line
only through the number of submatches and the groups. -/
theorem getResult_congr_groups (t u : String)
    (hl : (FindStringSubmatch msgLine t).length = (FindStringSubmatch msgLine u).length)
    (ht : (FindStringSubmatch msgLine t).tail = (FindStringSubmatch msgLine u).tail) :
    (GetResult t).1 = (GetResult u).1 ∧ ((GetResult t).2 = none ↔ (GetResult u).2 = none) := by
  rcases h1 : FindStringSubmatch msgLine t with _ | ⟨a, as⟩ <;>
    rcases h2 : FindStringSubmatch msgLine u with _ | ⟨b, bs⟩
  · exact getResult_congr t u (h1.trans h2.symm)
  · rw [h1, h2] at hl; cases hl
  · rw [h1, h2] at hl; cases hl
  · rw [h1, h2] at ht
    simp only [List.tail_cons] at ht
    subst ht
    unfold GetResult
    rw [h1, h2]
    have e : ∀ (x : String) (k : Nat), (x :: as).getD (k + 1) "" = as.getD k "" :=
      fun _ _ => rfl
    simp only [NameGroup, AvgGroup, NumSamplesGroup, StdDevGroup, MinGroup, MaxGroup,
      List.length_cons]
    rw [show (1 : Nat) = 0 + 1 from rfl, show (2 : Nat) = 1 + 1 from rfl,
      show (3 : Nat) = 2 + 1 from rfl, show (4 : Nat) = 3 + 1 from rfl,
      show (5 : Nat) = 4 + 1 from rfl, show (6 : Nat) = 5 + 1 from rfl]
    simp only [e]
    by_cases hlen : as.length + 1 ≠ 5 + 1 + 1
    · simp [hlen]
    · rw [if_neg hlen, if_neg hlen]
      rcases time.ParseDuration (as.getD 1 "") with e | avg
      · simp
      · rcases strconv.ParseInt (as.getD 2 "") 32 with e | n
        · simp
        · rcases parseFloat (as.getD 3 "") with ⟨d, _ | e⟩
          · rcases parseFloat (as.getD 4 "") with ⟨mi, _ | e⟩
            · rcases parseFloat (as.getD 5 "") with ⟨ma, _ | e⟩
              · simp
              · simp
            · simp
          · simp

theorem ignoresLast_blank : ignoresLast ' ' msgLine = true ∧ ignoresLast '\t' msgLine = true := by
  decide

/-- Spaces and tabs around a line change neither the Result nor whether
`GetResult` succeeds. -/
theorem getResult_blanks (W1 L W2 : List Char) (h1 : ∀ c ∈ W1, c = ' ' ∨ c = '\t')
    (h2 : ∀ c ∈ W2, c = ' ' ∨ c = '\t') :
    (GetResult (String.mk (W1 ++ (L ++ W2)))).1 = (GetResult (String.mk L)).1 ∧
      ((GetResult (String.mk (W1 ++ (L ++ W2)))).2 = none ↔
        (GetResult (String.mk L)).2 = none) := by
  have hW1 : ∀ c ∈ W1, isSpace c = true := by
    intro c hc
    rcases h1 c hc with h | h <;> rw [h] <;> decide
  have hW2 : ∀ c ∈ W2, ignoresLast c msgLine = true := by
    intro c hc
    rcases h2 c hc with h | h <;> rw [h]
    · exact ignoresLast_blank.1
    · exact ignoresLast_blank.2
  obtain ⟨ht, hl⟩ := FindStringSubmatch_spaces W1 hW1 (L ++ W2)
  rw [FindStringSubmatch_append_ignored msgLine W2 hW2 L] at ht hl
  exact getResult_congr_groups _ _ hl ht

theorem space_not_mem (l : List Char) (h : ∀ c ∈ l, isSpace c = false) : ' ' ∉ l :=
  fun hm => by have := h ' ' hm; revert this; decide

theorem space_not_mem_token {l : List Char} (h : Token (fun c => !isSpace c) l) : ' ' ∉ l :=
  fun hm => by have := h.2 ' ' hm; revert this; decide

theorem space_not_mem_digits {l : List Char} (h : Token isDigit l) : ' ' ∉ l :=
  fun hm => by have := h.2 ' ' hm; revert this; decide

/-- Words without spaces are separated at the first space. -/
theorem align_space (a b x y : List Char) (ha : ' ' ∉ a) (hb : ' ' ∉ b)
    (h : a ++ ' ' :: x = b ++ ' ' :: y) : a = b ∧ x = y := by
  induction a generalizing b with
  | nil =>
    cases b with
    | nil => exact ⟨rfl, by simpa using h⟩
    | cons d b' =>
      simp only [List.nil_append, List.cons_append, List.cons.injEq] at h
      exact absurd (h.1 ▸ List.mem_cons_self _ _) hb
  | cons c a' ih =>
    cases b with
    | nil =>
      simp only [List.nil_append, List.cons_append, List.cons.injEq] at h
      exact absurd (h.1 ▸ List.mem_cons_self _ _) ha
    | cons d b' =>
      simp only [List.cons_append, List.cons.injEq] at h
      obtain ⟨e1, e2⟩ := ih b' (fun hm => ha (List.mem_cons_of_mem _ hm))
        (fun hm => hb (List.mem_cons_of_mem _ hm)) h.2
      exact ⟨by rw [h.1, e1], e2⟩

/-- Joining words without spaces by single spaces loses nothing. -/
theorem joinWords_inj (ts us : List (List Char)) (hts : ∀ t ∈ ts, ' ' ∉ t)
    (hus : ∀ u ∈ us, ' ' ∉ u) (hl : ts.length = us.length)
    (h : joinWords ts = joinWords us) : ts = us := by
  induction ts generalizing us with
  | nil =>
    cases us with
    | nil => rfl
    | cons u us => cases hl
  | cons t ts ih =>
    cases us with
    | nil => cases hl
    | cons u us =>
      cases ts with
      | nil =>
        cases us with
        | nil => simpa [joinWords] using h
        | cons u2 us => simp at hl
      | cons t2 ts =>
        cases us with
        | nil => simp at hl
        | cons u2 us =>
          simp only [joinWords] at h
          obtain ⟨e1, e2⟩ := align_space t u _ _ (hts t (List.mem_cons_self _ _))
            (hus u (List.mem_cons_self _ _)) h
          have := ih (u2 :: us) (fun a ha => hts a (List.mem_cons_of_mem _ ha))
            (fun a ha => hus a (List.mem_cons_of_mem _ ha)) (by simpa using hl) e2
          rw [e1, this]

theorem count_joinWords (ts : List (List Char)) (hts : ∀ t ∈ ts, ' ' ∉ t) :
    (joinWords ts).count ' ' = ts.length - 1 := by
  induction ts with
  | nil => rfl
  | cons t ts ih =>
    have h0 : t.count ' ' = 0 := List.count_eq_zero.2 (hts t (List.mem_cons_self _ _))
    cases ts with
    | nil => simpa [joinWords] using h0
    | cons t2 ts =>
      have := ih (fun a ha => hts a (List.mem_cons_of_mem _ ha))
      simp only [joinWords, List.count_append, List.count_cons_self, h0] at this ⊢
      simp only [List.length_cons] at this ⊢
      omega

theorem mem_joinWords (ts : List (List Char)) (c : Char) (h : c ∈ joinWords ts) :
    c = ' ' ∨ ∃ t ∈ ts, c ∈ t := by
  induction ts with
  | nil => cases h
  | cons t ts ih =>
    cases ts with
    | nil => exact Or.inr ⟨t, List.mem_cons_self _ _, h⟩
    | cons t2 ts =>
      simp only [joinWords, List.mem_append, List.mem_cons] at h
      rcases h with h | h | h
      · exact Or.inr ⟨t, List.mem_cons_self _ _, h⟩
      · exact Or.inl h
      · rcases ih (by simpa [joinWords] using h) with h' | ⟨a, ha, hc⟩
        · exact Or.inl h'
        · exact Or.inr ⟨a, List.mem_cons_of_mem _ ha, hc⟩

theorem spaces_of_mem (ts : List (List Char)) (hts : ∀ t ∈ ts, ∀ c ∈ t, isSpace c = false)
    (l : List Char) (hl : ∀ c ∈ l, c ∈ joinWords ts) (hs : ∀ c ∈ l, isSpace c = true) :
    l.count ' ' = l.length := by
  rw [List.count_eq_length]
  intro c hc
  rcases mem_joinWords ts c (hl c hc) with h | ⟨t, ht, hct⟩
  · exact h.symm
  · have := hts t ht c hct
    rw [hs c hc] at this
    cases this

theorem eq_nil_of_count (l : List Char) (h0 : l.length = 0) : l = [] :=
  List.length_eq_zero.1 h0

theorem eq_space_of_count (l : List Char) (h : l.count ' ' = l.length) (h1 : l.length = 1) :
    l = [' '] := by
  match l, h1 with
  | [c], _ =>
    have := (List.count_eq_length.1 h) c (List.mem_singleton_self c)
    rw [← this]

/-- A line of fifteen words without whitespace, separated by single spaces,
matches the pattern only if the words are those of the pattern: the name, `->`,
`avg`, the average, `out`, `of`, digits, `samples` and one more character,
`(std`, `dev`, three values followed by `,`, `,` and `)`, and `min`, `max`. -/
theorem match_words (ts : List (List Char)) (hts : ∀ t ∈ ts, ∀ c ∈ t, isSpace c = false)
    (hlen : ts.length = 15)
    (hm : FindStringSubmatch msgLine (String.mk (joinWords ts)) ≠ []) :
    ∃ p N A S dot D Mi Ma tail whole,
      ts = [p ++ N, "->".data, "avg".data, A, "out".data, "of".data, S,
        "samples".data ++ [dot], "(std".data, "dev".data, D ++ [','], "min".data, Mi ++ [','],
        "max".data, Ma ++ ')' :: tail] ∧
      FindStringSubmatch msgLine (String.mk (joinWords ts)) =
        [whole, String.mk N, String.mk A, String.mk S, String.mk D, String.mk Mi,
          String.mk Ma] ∧
      Token (fun c => !isSpace c) N ∧ Token (fun c => !isSpace c) A ∧ Token isDigit S ∧
      Token (fun c => !isSpace c) D ∧ Token (fun c => !isSpace c) Mi ∧
      Token (fun c => !isSpace c) Ma := by
  rcases FindStringSubmatch_inv (String.mk (joinWords ts)) with h0 | ⟨p, pre, N, w1, A, S, dot, w2,
    D, Mi, Ma, tail, whole, ht, hmm, hpre, hN, hw1, hA, hS, hdot, hw2, hD, hMi, hMa⟩
  · exact absurd h0 hm
  · simp only at ht
    have hnsp : ∀ t ∈ ts, ' ' ∉ t := fun t h => space_not_mem t (hts t h)
    have hcount : (joinWords ts).count ' ' = 14 := by rw [count_joinWords ts hnsp, hlen]
    have cpre : pre.count ' ' = pre.length :=
      spaces_of_mem ts hts pre (fun c hc => by rw [ht]; simp [lineText, hc]) hpre
    have cw1 : w1.count ' ' = w1.length :=
      spaces_of_mem ts hts w1 (fun c hc => by rw [ht]; simp [lineText, hc]) hw1.2
    have cw2 : w2.count ' ' = w2.length :=
      spaces_of_mem ts hts w2 (fun c hc => by rw [ht]; simp [lineText, hc]) hw2.2
    have hNn := space_not_mem_token hN
    have hAn := space_not_mem_token hA
    have hSn := space_not_mem_digits hS
    have hDn := space_not_mem_token hD
    have hMin := space_not_mem_token hMi
    have hMan := space_not_mem_token hMa
    have cN : N.count ' ' = 0 := List.count_eq_zero.2 hNn
    have cA : A.count ' ' = 0 := List.count_eq_zero.2 hAn
    have cS : S.count ' ' = 0 := List.count_eq_zero.2 hSn
    have cD : D.count ' ' = 0 := List.count_eq_zero.2 hDn
    have cMi : Mi.count ' ' = 0 := List.count_eq_zero.2 hMin
    have cMa : Ma.count ' ' = 0 := List.count_eq_zero.2 hMan
    have l1 : List.count ' ' "-> avg ".data = 2 := by decide
    have l2 : List.count ' ' " out of ".data = 3 := by decide
    have l3 : List.count ' ' " samples".data = 1 := by decide
    have l4 : List.count ' ' " (std dev".data = 2 := by decide
    have l5 : List.count ' ' ", min ".data = 2 := by decide
    have l6 : List.count ' ' ", max ".data = 2 := by decide
    have hw1len : 1 ≤ w1.length := List.length_pos.2 hw1.1
    have hw2len : 1 ≤ w2.length := List.length_pos.2 hw2.1
    rw [ht] at hcount
    simp only [lineText, List.count_append, List.count_cons, cpre, cw1, cw2, cN, cA, cS, cD,
      cMi, cMa, l1, l2, l3, l4, l5, l6] at hcount
    have hparen : (if (')' == ' ') = true then 1 else 0) = 0 := by decide
    rw [hparen] at hcount
    have hdsp : dot ≠ ' ' := by
      intro h
      rw [h] at hcount
      simp only [beq_self_eq_true, if_true] at hcount
      omega
    have hdc : (if (dot == ' ') = true then 1 else 0) = 0 := by simp [hdsp]
    rw [hdc] at hcount
    have hpre0 : pre = [] := eq_nil_of_count pre (by omega)
    have hw1e : w1 = [' '] := eq_space_of_count w1 cw1 (by omega)
    have hw2e : w2 = [' '] := eq_space_of_count w2 cw2 (by omega)
    have hp : ' ' ∉ p := List.count_eq_zero.1 (by omega)
    have htl : ' ' ∉ tail := List.count_eq_zero.1 (by omega)
    subst hpre0 hw1e hw2e
    have e : p ++ lineText [] N [' '] A S dot [' '] D Mi Ma tail =
        joinWords [p ++ N, "->".data, "avg".data, A, "out".data, "of".data, S,
          "samples".data ++ [dot], "(std".data, "dev".data, D ++ [','], "min".data,
          Mi ++ [','], "max".data, Ma ++ ')' :: tail] := by
      simp [lineText, joinWords]
    have hus : ∀ u ∈ [p ++ N, "->".data, "avg".data, A, "out".data, "of".data, S,
        "samples".data ++ [dot], "(std".data, "dev".data, D ++ [','], "min".data, Mi ++ [','],
        "max".data, Ma ++ ')' :: tail], ' ' ∉ u := by
      intro u hu
      simp only [List.mem_cons, List.mem_singleton, List.not_mem_nil, or_false] at hu
      rcases hu with rfl | rfl | rfl | rfl | rfl | rfl | rfl | rfl | rfl | rfl | rfl | rfl |
        rfl | rfl | rfl
      · simp [hp, hNn]
      · decide
      · decide
      · exact hAn
      · decide
      · decide
      · exact hSn
      · simp [Ne.symm hdsp]
      · decide
      · decide
      · simp [hDn]
      · decide
      · simp [hMin]
      · decide
      · simp [hMan, htl]
    have := joinWords_inj ts _ hnsp hus (by simp [hlen]) (ht.trans e)
    exact ⟨p, N, A, S, dot, D, Mi, Ma, tail, whole, this, hmm, hN, hA, hS, hD, hMi, hMa⟩

theorem lineOf_words (N A X D Mi Ma : List Char) :
    lineOf N A X D Mi Ma = String.mk (joinWords [N, "->".data, "avg".data, A, "out".data,
      "of".data, X, "samples.".data, "(std".data, "dev".data, D ++ [','], "min".data,
      Mi ++ [','], "max".data, Ma ++ [')']]) := by
  simp [lineOf, lineText, joinWords]

theorem getResult_noMatch (t : String) (h : FindStringSubmatch msgLine t = []) :
    GetResult t = (Result.zero, some (.noMatch t [])) := by
  simp [GetResult, h, MaxGroup]

theorem lineOf_words_nospace (N A X D Mi Ma : List Char)
    (hN : ∀ c ∈ N, isSpace c = false) (hA : ∀ c ∈ A, isSpace c = false)
    (hX : ∀ c ∈ X, isSpace c = false) (hD : ∀ c ∈ D, isSpace c = false)
    (hMi : ∀ c ∈ Mi, isSpace c = false) (hMa : ∀ c ∈ Ma, isSpace c = false) :
    ∀ t ∈ [N, "->".data, "avg".data, A, "out".data, "of".data, X, "samples.".data,
      "(std".data, "dev".data, D ++ [','], "min".data, Mi ++ [','], "max".data, Ma ++ [')']],
      ∀ c ∈ t, isSpace c = false := by
  intro t ht
  simp only [List.mem_cons, List.mem_singleton, List.not_mem_nil, or_false] at ht
  rcases ht with rfl | rfl | rfl | rfl | rfl | rfl | rfl | rfl | rfl | rfl | rfl | rfl |
    rfl | rfl | rfl
  · exact hN
  · decide
  · decide
  · exact hA
  · decide
  · decide
  · exact hX
  · decide
  · decide
  · decide
  · intro c hc
    rcases List.mem_append.1 hc with h | h
    · exact hD c h
    · rw [List.mem_singleton.1 h]; decide
  · decide
  · intro c hc
    rcases List.mem_append.1 hc with h | h
    · exact hMi c h
    · rw [List.mem_singleton.1 h]; decide
  · decide
  · intro c hc
    rcases List.mem_append.1 hc with h | h
    · exact hMa c h
    · rw [List.mem_singleton.1 h]; decide

/-- A line of the shape of the pattern whose count field is not a non-empty
string of digits does not match. -/
theorem getResult_bad_count (N A X D Mi Ma : List Char)
    (hN : ∀ c ∈ N, isSpace c = false) (hA : ∀ c ∈ A, isSpace c = false)
    (hX : ∀ c ∈ X, isSpace c = false) (hD : ∀ c ∈ D, isSpace c = false)
    (hMi : ∀ c ∈ Mi, isSpace c = false) (hMa : ∀ c ∈ Ma, isSpace c = false)
    (hbad : ¬ Token isDigit X) :
    GetResult (lineOf N A X D Mi Ma) =
      (Result.zero, some (.noMatch (lineOf N A X D Mi Ma) [])) := by
  apply getResult_noMatch
  by_contra hne
  rw [lineOf_words] at hne
  obtain ⟨p, N', A', S, dot, D', Mi', Ma', tail, whole, hts, -, -, -, hS, -⟩ :=
    match_words _ (lineOf_words_nospace N A X D Mi Ma hN hA hX hD hMi hMa) rfl hne
  simp only [List.cons.injEq] at hts
  exact hbad (hts.2.2.2.2.2.2.1 ▸ hS)

/-- The Result and the error of `GetResult` when the average does not parse. -/
theorem GetResult_of_submatch_average (t w n a s d mi ma : String) (e : time.DurationError)
    (h : regexp.FindStringSubmatch msgLine t = [w, n, a, s, d, mi, ma])
    (ha : time.ParseDuration a = .error e) :
    GetResult t = (⟨n, 0, 0, 0, 0, 0⟩, some (.average t e)) := by
  simp [GetResult, h, NameGroup, AvgGroup, MaxGroup, ha, Result.zero]

/-- The Result and the error of `GetResult` when the sample count does not
parse. -/
theorem GetResult_of_submatch_samples (t w n a s d mi ma : String) (av : Int) (e : NumError)
    (h : regexp.FindStringSubmatch msgLine t = [w, n, a, s, d, mi, ma])
    (ha : time.ParseDuration a = .ok av) (hs : strconv.ParseInt s 32 = .error e) :
    GetResult t = (⟨n, av, 0, 0, 0, 0⟩, some (.samples t e)) := by
  simp [GetResult, h, NameGroup, AvgGroup, NumSamplesGroup, MaxGroup, ha, hs, Result.zero]

theorem token_of_decimal (ip fp : List Char) (b : Nat) (h : IsDecimal ip fp b) :
    Token (fun c => !isSpace c) (decimal ip fp) := by
  have := token_decimal ip fp b h [] (by simp)
  rwa [List.append_nil] at this

/-- The submatches of a line of the pattern's shape with single spaces. -/
theorem FindStringSubmatch_lineOf (N A S D Mi Ma : List Char)
    (hN : Token (fun c => !isSpace c) N) (hA : Token (fun c => !isSpace c) A)
    (hS : Token isDigit S) (hD : Token (fun c => !isSpace c) D)
    (hMi : Token (fun c => !isSpace c) Mi) (hMa : Token (fun c => !isSpace c) Ma) :
    ∃ whole, FindStringSubmatch msgLine (lineOf N A S D Mi Ma) =
      [whole, String.mk N, String.mk A, String.mk S, String.mk D, String.mk Mi,
        String.mk Ma] :=
  FindStringSubmatch_lineText [] N [' '] A S '.' [' '] D Mi Ma [] (by simp) hN (by decide) hA hS
    (by decide) (by decide) hD hMi hMa (stops_nil _)

/-- The average of a line is what `time.ParseDuration` makes of the token after
`avg`, whatever its unit. -/
theorem getResult_average (N A S ipD fpD ipMi fpMi ipMa fpMa : List Char)
    (hN : Token (fun c => !isSpace c) N) (hA : Token (fun c => !isSpace c) A)
    (hS : S ≠ [] ∧ Digits S ∧ strconv.decVal S < 2 ^ 31)
    (hD : IsDecimal ipD fpD (10 ^ 300)) (hMi : IsDecimal ipMi fpMi (10 ^ 300))
    (hMa : IsDecimal ipMa fpMa (10 ^ 300)) :
    (∀ v, time.ParseDuration (String.mk A) = .ok v →
        GetResult (lineOf N A S (decimal ipD fpD) (decimal ipMi fpMi) (decimal ipMa fpMa)) =
          (⟨String.mk N, v, (strconv.decVal S : Int), msValue ipD fpD, msValue ipMi fpMi,
            msValue ipMa fpMa⟩, none)) ∧
      (∀ e, time.ParseDuration (String.mk A) = .error e →
        GetResult (lineOf N A S (decimal ipD fpD) (decimal ipMi fpMi) (decimal ipMa fpMa)) =
          (⟨String.mk N, 0, 0, 0, 0, 0⟩,
            some (.average (lineOf N A S (decimal ipD fpD) (decimal ipMi fpMi)
              (decimal ipMa fpMa)) e))) := by
  obtain ⟨whole, hm⟩ := FindStringSubmatch_lineOf N A S (decimal ipD fpD) (decimal ipMi fpMi)
    (decimal ipMa fpMa) hN hA ⟨hS.1, hS.2.1⟩ (token_of_decimal _ _ _ hD)
    (token_of_decimal _ _ _ hMi) (token_of_decimal _ _ _ hMa)
  constructor
  · intro v hv
    exact GetResult_of_submatch _ _ _ _ _ _ _ _ _ _ _ _ _ hm hv
      (strconv.parseIntChars_digits S hS.1 hS.2.1 hS.2.2)
      (parseFloat_decimal ipD fpD hD.1 hD.2.1 hD.2.2.1 hD.2.2.2)
      (parseFloat_decimal ipMi fpMi hMi.1 hMi.2.1 hMi.2.2.1 hMi.2.2.2)
      (parseFloat_decimal ipMa fpMa hMa.1 hMa.2.1 hMa.2.2.1 hMa.2.2.2)
  · intro e he
    exact GetResult_of_submatch_average _ _ _ _ _ _ _ _ _ hm he

/-- A sample count of `2^31` or more is a range error of `ParseInt`. -/
theorem getResult_large_count (N ipA fpA S D Mi Ma : List Char)
    (hN : Token (fun c => !isSpace c) N) (hA : IsDecimal ipA fpA (9 * 10 ^ 12))
    (hS : Token isDigit S) (hb : 2 ^ 31 ≤ strconv.decVal S)
    (hD : Token (fun c => !isSpace c) D) (hMi : Token (fun c => !isSpace c) Mi)
    (hMa : Token (fun c => !isSpace c) Ma) :
    GetResult (lineOf N (decimal ipA fpA ++ ['m', 's']) S D Mi Ma) =
      (⟨String.mk N, ((strconv.decVal ipA * 1000000 + time.msFraction fpA : Nat) : Int),
        0, 0, 0, 0⟩,
        some (.samples (lineOf N (decimal ipA fpA ++ ['m', 's']) S D Mi Ma) .range)) := by
  obtain ⟨whole, hm⟩ := FindStringSubmatch_lineOf N (decimal ipA fpA ++ ['m', 's']) S D Mi Ma
    hN (token_decimal ipA fpA _ hA ['m', 's'] (by decide)) hS hD hMi hMa
  exact GetResult_of_submatch_samples _ _ _ _ _ _ _ _ _ _ hm
    (time.parseDurationChars_ms ipA fpA hA.1 hA.2.1 hA.2.2.1 hA.2.2.2)
    (strconv.parseIntChars_large S hS.1 hS.2 hb)

/-- A line of whitespace does not match the pattern. -/
theorem getResult_whitespace (t : String) (h : ∀ c ∈ t.data, isSpace c = true) :
    GetResult t = (Result.zero, some (.noMatch t [])) := by
  apply getResult_noMatch
  rcases FindStringSubmatch_inv t with h0 | ⟨p, pre, N, w1, A, S, dot, w2, D, Mi, Ma, tail,
    whole, ht, -, -, hN, -⟩
  · exact h0
  · exfalso
    obtain ⟨c, hc⟩ := List.exists_mem_of_ne_nil N hN.1
    have h1 := hN.2 c hc
    have h2 : c ∈ t.data := by rw [ht]; simp [lineText, hc]
    simp only [h c h2] at h1
    cases h1

/-- Every error of `GetResult` carries the line in its message. -/
theorem getResult_error_message (f : Verbs) (t : String) (e : GetResultError)
    (h : (GetResult t).2 = some e) :
    ∃ pre post, e.Error f = pre ++ f.quote t ++ post := by
  unfold GetResult at h
  by_cases hlen : (regexp.FindStringSubmatch msgLine t).length ≠ MaxGroup + 1
  · rw [if_pos hlen] at h
    simp only [Option.some.injEq] at h
    rw [← h]
    exact ⟨_, _, by simp only [GetResultError.Error, String.append_assoc]; rfl⟩
  · rw [if_neg hlen] at h
    revert h
    rcases time.ParseDuration ((FindStringSubmatch msgLine t).getD AvgGroup "") with e1 | avg
    · intro h
      simp only [Option.some.injEq] at h
      rw [← h]
      exact ⟨_, _, by simp only [GetResultError.Error, String.append_assoc]; rfl⟩
    · rcases strconv.ParseInt ((FindStringSubmatch msgLine t).getD NumSamplesGroup "") 32
        with e1 | n
      · intro h
        simp only [Option.some.injEq] at h
        rw [← h]
        exact ⟨_, _, by simp only [GetResultError.Error, String.append_assoc]; rfl⟩
      · rcases parseFloat ((FindStringSubmatch msgLine t).getD StdDevGroup "")
          with ⟨d, _ | e1⟩
        · rcases parseFloat ((FindStringSubmatch msgLine t).getD MinGroup "")
            with ⟨mi, _ | e1⟩
          · rcases parseFloat ((FindStringSubmatch msgLine t).getD MaxGroup "")
              with ⟨ma, _ | e1⟩
            · intro h; simp at h
            · intro h
              simp only [Option.some.injEq] at h
              rw [← h]
              exact ⟨_, _, by simp only [GetResultError.Error, String.append_assoc]; rfl⟩
          · intro h
            simp only [Option.some.injEq] at h
            rw [← h]
            exact ⟨_, _, by simp only [GetResultError.Error, String.append_assoc]; rfl⟩
        · intro h
          simp only [Option.some.injEq] at h
          rw [← h]
          exact ⟨_, _, by simp only [GetResultError.Error, String.append_assoc]; rfl⟩

theorem parseFloat_ok_inv (s : String) (d : Int) (h : parseFloat s = (d, none)) :
    ∃ x, strconv.ParseFloat s = .ok x := by
  unfold parseFloat at h
  rcases h1 : strconv.ParseFloat s with err | raw
  · rw [h1] at h; simp at h
  · exact ⟨raw, rfl⟩

/-- The std dev, min and max fields are accepted exactly when
`strconv.ParseFloat` accepts them. -/
theorem getResult_floats (N ipA fpA S D Mi Ma : List Char)
    (hN : Token (fun c => !isSpace c) N) (hA : IsDecimal ipA fpA (9 * 10 ^ 12))
    (hS : S ≠ [] ∧ Digits S ∧ strconv.decVal S < 2 ^ 31)
    (hD : Token (fun c => !isSpace c) D) (hMi : Token (fun c => !isSpace c) Mi)
    (hMa : Token (fun c => !isSpace c) Ma) :
    (∀ x y z, strconv.ParseFloat (String.mk D) = .ok x →
        strconv.ParseFloat (String.mk Mi) = .ok y →
        strconv.ParseFloat (String.mk Ma) = .ok z →
        GetResult (lineOf N (decimal ipA fpA ++ ['m', 's']) S D Mi Ma) =
          (⟨String.mk N, ((strconv.decVal ipA * 1000000 + time.msFraction fpA : Nat) : Int),
            (strconv.decVal S : Int),
            float64.toInt64 (float64.mul (float64.ofNat time.Millisecond) x),
            float64.toInt64 (float64.mul (float64.ofNat time.Millisecond) y),
            float64.toInt64 (float64.mul (float64.ofNat time.Millisecond) z)⟩, none)) ∧
      ((GetResult (lineOf N (decimal ipA fpA ++ ['m', 's']) S D Mi Ma)).2 = none →
        (∃ x, strconv.ParseFloat (String.mk D) = .ok x) ∧
        (∃ y, strconv.ParseFloat (String.mk Mi) = .ok y) ∧
        (∃ z, strconv.ParseFloat (String.mk Ma) = .ok z)) := by
  obtain ⟨whole, hm⟩ := FindStringSubmatch_lineOf N (decimal ipA fpA ++ ['m', 's']) S D Mi Ma
    hN (token_decimal ipA fpA _ hA ['m', 's'] (by decide)) ⟨hS.1, hS.2.1⟩ hD hMi hMa
  constructor
  · intro x y z hx hy hz
    exact GetResult_of_submatch _ _ _ _ _ _ _ _ _ _ _ _ _ hm
      (time.parseDurationChars_ms ipA fpA hA.1 hA.2.1 hA.2.2.1 hA.2.2.2)
      (strconv.parseIntChars_digits S hS.1 hS.2.1 hS.2.2)
      (parseFloat_of_ok _ _ hx) (parseFloat_of_ok _ _ hy) (parseFloat_of_ok _ _ hz)
  · intro h
    obtain ⟨av, sv, dv, miv, mav, -, -, -, hd, hmi, hma, -⟩ := getResult_ok_inv _ h
    rw [hm] at hd hmi hma
    exact ⟨parseFloat_ok_inv _ _ hd, parseFloat_ok_inv _ _ hmi, parseFloat_ok_inv _ _ hma⟩

namespace strconv

theorem formatInt_ofNat (n : Nat) : (FormatInt (Int.ofNat n)).data = (Nat.repr n).data := by
  simp [FormatInt, toString, instToStringInt, Int.repr]

theorem formatInt_negSucc (n : Nat) :
    (FormatInt (Int.negSucc n)).data = '-' :: (Nat.repr (n + 1)).data := by
  simp [FormatInt, toString, instToStringInt, Int.repr]

theorem repr_inj (m n : Nat) (h : (Nat.repr m).data = (Nat.repr n).data) : m = n := by
  have h1 := (repr_spec m).2.2
  have h2 := (repr_spec n).2.2
  rw [h] at h1
  omega

/-- The decimal rendering of an integer determines the integer. -/
theorem formatInt_inj (a b : Int) (h : FormatInt a = FormatInt b) : a = b := by
  have hd : (FormatInt a).data = (FormatInt b).data := by rw [h]
  cases a with
  | ofNat m =>
    cases b with
    | ofNat n =>
      rw [formatInt_ofNat, formatInt_ofNat] at hd
      rw [repr_inj m n hd]
    | negSucc n =>
      rw [formatInt_ofNat, formatInt_negSucc] at hd
      have := (repr_spec m).2.1 '-' (by rw [hd]; exact List.mem_cons_self _ _)
      exact absurd this (by decide)
  | negSucc m =>
    cases b with
    | ofNat n =>
      rw [formatInt_ofNat, formatInt_negSucc] at hd
      have := (repr_spec n).2.1 '-' (by rw [← hd]; exact List.mem_cons_self _ _)
      exact absurd this (by decide)
    | negSucc n =>
      rw [formatInt_negSucc, formatInt_negSucc] at hd
      have := repr_inj (m + 1) (n + 1) (List.cons.inj hd).2
      have e : m = n := by omega
      rw [e]

/-- The decimal rendering of an integer holds no tab. -/
theorem formatInt_no_tab (a : Int) : '\t' ∉ (FormatInt a).data := by
  intro h
  cases a with
  | ofNat m =>
    rw [formatInt_ofNat] at h
    have := (repr_spec m).2.1 _ h
    revert this; decide
  | negSucc m =>
    rw [formatInt_negSucc] at h
    rcases List.mem_cons.1 h with h | h
    · revert h; decide
    · have := (repr_spec (m + 1)).2.1 _ h
      revert this; decide

end strconv

/-- Texts are separated at the first occurrence of a character that the parts
before it do not hold. -/
theorem align_sep (sep : Char) (a b x y : List Char) (ha : sep ∉ a) (hb : sep ∉ b)
    (h : a ++ sep :: x = b ++ sep :: y) : a = b ∧ x = y := by
  induction a generalizing b with
  | nil =>
    cases b with
    | nil => exact ⟨rfl, by simpa using h⟩
    | cons d b' =>
      simp only [List.nil_append, List.cons_append, List.cons.injEq] at h
      exact absurd (h.1 ▸ List.mem_cons_self _ _) hb
  | cons c a' ih =>
    cases b with
    | nil =>
      simp only [List.nil_append, List.cons_append, List.cons.injEq] at h
      exact absurd (h.1 ▸ List.mem_cons_self _ _) ha
    | cons d b' =>
      simp only [List.cons_append, List.cons.injEq] at h
      obtain ⟨e1, e2⟩ := ih b' (fun hm => ha (List.mem_cons_of_mem _ hm))
        (fun hm => hb (List.mem_cons_of_mem _ hm)) h.2
      exact ⟨by rw [h.1, e1], e2⟩

theorem render_data (r : Result) :
    (render r).data = "Benchmark".data ++ (r.Name.data ++ '\t' ::
      ((strconv.FormatInt r.NumSamples).data ++ '\t' ::
        ((strconv.FormatInt r.Average).data ++ " ns/op".data))) := by
  rw [render_eq]
  simp [String.data_append]

/-- The output line of a Result whose name holds no tab determines the name,
the sample count and the average. -/
theorem render_inj (r1 r2 : Result) (h1 : '\t' ∉ r1.Name.data) (h2 : '\t' ∉ r2.Name.data)
    (h : render r1 = render r2) :
    r1.Name = r2.Name ∧ r1.NumSamples = r2.NumSamples ∧ r1.Average = r2.Average := by
  have hd : (render r1).data = (render r2).data := by rw [h]
  rw [render_data, render_data] at hd
  have hd1 := List.append_cancel_left hd
  obtain ⟨e1, hd2⟩ := align_sep '\t' _ _ _ _ h1 h2 hd1
  obtain ⟨e2, hd3⟩ := align_sep '\t' _ _ _ _ (strconv.formatInt_no_tab _)
    (strconv.formatInt_no_tab _) hd2
  have e3 := List.append_cancel_right hd3
  exact ⟨String.ext e1, strconv.formatInt_inj _ _ (String.ext e2),
    strconv.formatInt_inj _ _ (String.ext e3)⟩

theorem render_tabs (r : Result) (h : '\t' ∉ r.Name.data) :
    (render r).data.count '\t' = 2 := by
  rw [render_data]
  have c1 : List.count '\t' "Benchmark".data = 0 := by decide
  have c2 : List.count '\t' " ns/op".data = 0 := by decide
  simp only [List.count_append, List.count_cons_self, c1, c2, List.count_eq_zero.2 h,
    List.count_eq_zero.2 (strconv.formatInt_no_tab _)]

theorem tab_not_mem_token {l : List Char} (h : Token (fun c => !isSpace c) l) : '\t' ∉ l :=
  fun hm => by have := h.2 '\t' hm; revert this; decide

/-- A line of fifteen words on which `GetResult` succeeds has the literal words
of the pattern in their places. -/
theorem getResult_literal_words (ts : List (List Char))
    (hts : ∀ t ∈ ts, ∀ c ∈ t, isSpace c = false) (hlen : ts.length = 15)
    (h : (GetResult (String.mk (joinWords ts))).2 = none) :
    ∃ p N A S dot D Mi Ma tail,
      ts = [p ++ N, "->".data, "avg".data, A, "out".data, "of".data, S,
        "samples".data ++ [dot], "(std".data, "dev".data, D ++ [','], "min".data, Mi ++ [','],
        "max".data, Ma ++ ')' :: tail] := by
  obtain ⟨av, sv, dv, miv, mav, hl, -⟩ := getResult_ok_inv _ h
  have hne : FindStringSubmatch msgLine (String.mk (joinWords ts)) ≠ [] := by
    intro h0
    rw [h0] at hl
    simp [MaxGroup] at hl
  obtain ⟨p, N, A, S, dot, D, Mi, Ma, tail, whole, e, -⟩ := match_words ts hts hlen hne
  exact ⟨p, N, A, S, dot, D, Mi, Ma, tail, e⟩

/-- The character after `samples` does not matter as long as it is not a
newline. -/
theorem getResult_any_dot (N A S D Mi Ma : List Char) (dot : Char)
    (hN : Token (fun c => !isSpace c) N) (hA : Token (fun c => !isSpace c) A)
    (hS : Token isDigit S) (hdot : dot ≠ '\n') (hD : Token (fun c => !isSpace c) D)
    (hMi : Token (fun c => !isSpace c) Mi) (hMa : Token (fun c => !isSpace c) Ma) :
    (GetResult (String.mk (lineText [] N [' '] A S dot [' '] D Mi Ma []))).1 =
        (GetResult (lineOf N A S D Mi Ma)).1 ∧
      ((GetResult (String.mk (lineText [] N [' '] A S dot [' '] D Mi Ma []))).2 = none ↔
        (GetResult (lineOf N A S D Mi Ma)).2 = none) := by
  obtain ⟨w1, h1⟩ := FindStringSubmatch_lineText [] N [' '] A S dot [' '] D Mi Ma [] (by simp) hN
    (by decide) hA hS hdot (by decide) hD hMi hMa (stops_nil _)
  obtain ⟨w2, h2⟩ := FindStringSubmatch_lineOf N A S D Mi Ma hN hA hS hD hMi hMa
  apply getResult_congr_groups
  · rw [h1, h2]; rfl
  · rw [h1, h2]; rfl

theorem joinWords_dot (N A S D Mi Ma : List Char) (dot : Char) :
    joinWords [N, "->".data, "avg".data, A, "out".data, "of".data, S,
        "samples".data ++ [dot], "(std".data, "dev".data, D ++ [','], "min".data, Mi ++ [','],
        "max".data, Ma ++ [')']] = lineText [] N [' '] A S dot [' '] D Mi Ma [] := by
  simp [joinWords, lineText]

theorem token_of_nospace {l : List Char} (h0 : l ≠ []) (h : ∀ c ∈ l, isSpace c = false) :
    Token (fun c => !isSpace c) l :=
  ⟨h0, fun c hc => by simp [h c hc]⟩

theorem except_ok_of {ε α : Type} [DecidableEq α] (r : Except ε α) (v : α)
    (h : (match r with | .ok x => decide (x = v) | .error _ => false) = true) : r = .ok v := by
  cases r with
  | ok x => simp only [decide_eq_true_eq] at h; rw [h]
  | error e => simp at h

theorem except_error_of {ε α : Type} [DecidableEq ε] (r : Except ε α) (e : ε)
    (h : (match r with | .error x => decide (x = e) | .ok _ => false) = true) :
    r = .error e := by
  cases r with
  | ok x => simp at h
  | error x => simp only [decide_eq_true_eq] at h; rw [h]

/-- With an error, the fields parsed before the one that failed hold the values
parsed from their submatches. -/
theorem getResult_error_kept (t : String) :
    (∀ l err, (GetResult t).2 = some (.samples l err) →
        time.ParseDuration ((FindStringSubmatch msgLine t).getD AvgGroup "") =
          .ok (GetResult t).1.Average) ∧
      (∀ l err, (GetResult t).2 = some (.stdDev l err) →
        time.ParseDuration ((FindStringSubmatch msgLine t).getD AvgGroup "") =
          .ok (GetResult t).1.Average ∧
        strconv.ParseInt ((FindStringSubmatch msgLine t).getD NumSamplesGroup "") 32 =
          .ok (GetResult t).1.NumSamples) ∧
      (∀ l err, (GetResult t).2 = some (.min l err) →
        time.ParseDuration ((FindStringSubmatch msgLine t).getD AvgGroup "") =
          .ok (GetResult t).1.Average ∧
        strconv.ParseInt ((FindStringSubmatch msgLine t).getD NumSamplesGroup "") 32 =
          .ok (GetResult t).1.NumSamples ∧
        parseFloat ((FindStringSubmatch msgLine t).getD StdDevGroup "") =
          ((GetResult t).1.StdDev, none)) ∧
      (∀ l err, (GetResult t).2 = some (.max l err) →
        time.ParseDuration ((FindStringSubmatch msgLine t).getD AvgGroup "") =
          .ok (GetResult t).1.Average ∧
        strconv.ParseInt ((FindStringSubmatch msgLine t).getD NumSamplesGroup "") 32 =
          .ok (GetResult t).1.NumSamples ∧
        parseFloat ((FindStringSubmatch msgLine t).getD StdDevGroup "") =
          ((GetResult t).1.StdDev, none) ∧
        parseFloat ((FindStringSubmatch msgLine t).getD MinGroup "") =
          ((GetResult t).1.Min, none)) := by
  unfold GetResult
  by_cases hlen : (regexp.FindStringSubmatch msgLine t).length ≠ MaxGroup + 1
  · simp only [if_pos hlen]
    refine ⟨?_, ?_, ?_, ?_⟩ <;> intro l err h <;> simp at h
  · simp only [if_neg hlen]
    rcases h1 : time.ParseDuration ((FindStringSubmatch msgLine t).getD AvgGroup "")
      with e | avg
    · refine ⟨?_, ?_, ?_, ?_⟩ <;> intro l err h <;> simp at h
    · rcases h2 : strconv.ParseInt ((FindStringSubmatch msgLine t).getD NumSamplesGroup "") 32
        with e | n
      · refine ⟨?_, ?_, ?_, ?_⟩ <;> intro l err h <;> simp at h ⊢
      · rcases h3 : parseFloat ((FindStringSubmatch msgLine t).getD StdDevGroup "")
          with ⟨d, _ | e⟩
        · rcases h4 : parseFloat ((FindStringSubmatch msgLine t).getD MinGroup "")
            with ⟨mi, _ | e⟩
          · rcases h5 : parseFloat ((FindStringSubmatch msgLine t).getD MaxGroup "")
              with ⟨ma, _ | e⟩
            · refine ⟨?_, ?_, ?_, ?_⟩ <;> intro l err h <;> simp at h
            · refine ⟨?_, ?_, ?_, ?_⟩ <;> intro l err h <;> simp at h ⊢
          · refine ⟨?_, ?_, ?_, ?_⟩ <;> intro l err h <;> simp at h ⊢
        · refine ⟨?_, ?_, ?_, ?_⟩ <;> intro l err h <;> simp at h ⊢

/-- Two runs of the same kind that start the same text, each followed by a
character of the other kind or by nothing, are equal. -/
theorem align_run (v : Bool) (a b x y : List Char) (ha : ∀ c ∈ a, isSpace c = v)
    (hb : ∀ c ∈ b, isSpace c = v) (hx : ∀ c ∈ x.head?, isSpace c = !v)
    (hy : ∀ c ∈ y.head?, isSpace c = !v) (h : a ++ x = b ++ y) : a = b ∧ x = y := by
  induction a generalizing b with
  | nil =>
    cases b with
    | nil => exact ⟨rfl, by simpa using h⟩
    | cons d b' =>
      exfalso
      simp only [List.nil_append, List.cons_append] at h
      have h1 := hx d (by rw [h]; simp)
      have h2 := hb d (List.mem_cons_self _ _)
      rw [h2] at h1
      cases v <;> simp at h1
  | cons c a' ih =>
    cases b with
    | nil =>
      exfalso
      simp only [List.nil_append, List.cons_append] at h
      have h1 := hy c (by rw [← h]; simp)
      have h2 := ha c (List.mem_cons_self _ _)
      rw [h2] at h1
      cases v <;> simp at h1
    | cons d b' =>
      simp only [List.cons_append, List.cons.injEq] at h
      obtain ⟨e1, e2⟩ := ih b' (fun c hc => ha c (List.mem_cons_of_mem _ hc))
        (fun c hc => hb c (List.mem_cons_of_mem _ hc)) h.2
      exact ⟨by rw [h.1, e1], e2⟩

/-- The first character of alternating runs is of the kind of the first run. -/
theorem runs_head (xs : List (List Char)) (b e : Bool) (rest : List Char) (hx : Runs b e xs)
    (hr : ∀ c ∈ rest.head?, isSpace c = e) : ∀ c ∈ (xs.flatten ++ rest).head?, isSpace c = b := by
  cases xs with
  | nil =>
    simp only [Runs] at hx
    subst hx
    simpa using hr
  | cons x xs =>
    obtain ⟨h0, h1, -⟩ := hx
    cases x with
    | nil => exact absurd rfl h0
    | cons c0 x' =>
      intro c hc
      simp only [List.flatten_cons, List.cons_append, List.head?_cons, Option.mem_def,
        Option.some.injEq] at hc
      exact hc ▸ h1 c0 (List.mem_cons_self _ _)

/-- Alternating runs that start a text of alternating runs are its first runs. -/
theorem runs_prefix (ys : List (List Char)) : ∀ (xs : List (List Char)) (b e bx e2 : Bool)
    (rest : List Char), Runs b e ys → Runs bx e2 xs → (∀ c ∈ rest.head?, isSpace c = e) →
    xs.flatten = ys.flatten ++ rest → ∃ zs, xs = ys ++ zs ∧ zs.flatten = rest := by
  induction ys with
  | nil =>
    intro xs b e bx e2 rest _ _ _ h
    exact ⟨xs, rfl, by simpa using h⟩
  | cons y ys ih =>
    intro xs b e bx e2 rest hy hx hr h
    obtain ⟨y0, y1, y2⟩ := hy
    cases xs with
    | nil =>
      exfalso
      cases y with
      | nil => exact y0 rfl
      | cons c y' => simp at h
    | cons x xs =>
      obtain ⟨x0, x1, x2⟩ := hx
      have hb : bx = b := by
        cases x with
        | nil => exact absurd rfl x0
        | cons c x' =>
          cases y with
          | nil => exact absurd rfl y0
          | cons d y' =>
            simp only [List.flatten_cons, List.cons_append, List.cons.injEq] at h
            rw [← x1 c (List.mem_cons_self _ _), ← y1 d (List.mem_cons_self _ _), h.1]
      subst hb
      simp only [List.flatten_cons, List.append_assoc] at h
      obtain ⟨e1, e2'⟩ := align_run bx x y xs.flatten (ys.flatten ++ rest) x1 y1
        (by simpa using runs_head xs (!bx) e2 [] x2 (by simp))
        (runs_head ys (!bx) e rest y2 hr) h
      obtain ⟨zs, hz1, hz2⟩ := ih xs (!bx) e (!bx) e2 rest y2 x2 hr e2'
      exact ⟨zs, by rw [e1, hz1]; rfl, hz2⟩

/-- A text of alternating runs that is cut between a character of one kind and
a character of the other kind is cut between two runs. -/
theorem runs_split (xs : List (List Char)) : ∀ (b e : Bool) (Q0 T0 : List Char) (q t : Char),
    Runs b e xs → isSpace q ≠ isSpace t → xs.flatten = (Q0 ++ [q]) ++ t :: T0 →
    ∃ xs1 xs2 b2, xs = xs1 ++ xs2 ∧ xs1 ≠ [] ∧ Q0 ++ [q] = xs1.flatten ∧ t :: T0 = xs2.flatten ∧
      Runs b2 e xs2 := by
  induction xs with
  | nil =>
    intro b e Q0 T0 q t _ _ h
    simp at h
  | cons x xs ih =>
    intro b e Q0 T0 q t hx hq h
    obtain ⟨x0, x1, x2⟩ := hx
    simp only [List.flatten_cons] at h
    rcases List.append_eq_append_iff.1 h with ⟨a, ha1, ha2⟩ | ⟨c, hc1, hc2⟩
    · rcases List.eq_nil_or_concat a with ha | ⟨a0, z, ha⟩
      · subst ha
        refine ⟨[x], xs, !b, rfl, by simp, ?_, ?_, x2⟩
        · simpa using ha1
        · simpa using ha2.symm
      · subst ha
        rw [List.concat_eq_append] at ha1 ha2
        rw [← List.append_assoc] at ha1
        have hz : Q0 = x ++ a0 ∧ q = z := by
          have := List.append_inj' ha1 rfl
          exact ⟨this.1, by simpa using this.2⟩
        obtain ⟨hQ, hqz⟩ := hz
        subst hqz
        obtain ⟨xs1, xs2, b2, e1, e2, e3, e4, e5⟩ := ih (!b) e a0 T0 q t x2 hq ha2
        refine ⟨x :: xs1, xs2, b2, by rw [e1]; rfl, by simp, ?_, e4, e5⟩
        rw [hQ, List.append_assoc, e3]
        rfl
    · cases c with
      | nil =>
        refine ⟨[x], xs, !b, rfl, by simp, ?_, ?_, x2⟩
        · simpa using hc1.symm
        · simpa using hc2
      | cons d c' =>
        exfalso
        simp only [List.cons_append, List.cons.injEq] at hc2
        have h1 := x1 q (by rw [hc1]; simp)
        have h2 := x1 t (by rw [hc1, hc2.1]; simp)
        exact hq (h1.trans h2.symm)

theorem runs_nil (b : Bool) : Runs b b [] := rfl

theorem runs_word {w : List Char} {xs : List (List Char)} {e : Bool}
    (hw : Token (fun c => !isSpace c) w) (hx : Runs true e xs) : Runs false e (w :: xs) :=
  ⟨hw.1, fun c hc => by simpa using hw.2 c hc, hx⟩

theorem runs_gap {g : List Char} {xs : List (List Char)} {e : Bool}
    (hg : Token isSpace g) (hx : Runs false e xs) : Runs true e (g :: xs) :=
  ⟨hg.1, hg.2, hx⟩

theorem token_snoc {p : Char → Bool} {l : List Char} {c : Char} (h : Token p l)
    (hc : p c = true) : Token p (l ++ [c]) :=
  ⟨by simp, fun d hd => by
    rcases List.mem_append.1 hd with h1 | h1
    · exact h.2 d h1
    · rw [List.mem_singleton.1 h1]; exact hc⟩

theorem token_digits {l : List Char} (h : Token isDigit l) : Token (fun c => !isSpace c) l :=
  ⟨h.1, fun c hc => isDigit_not_space c (h.2 c hc)⟩

theorem token_dot {dot : Char} (h : isSpace dot = true) : Token isSpace [dot, ' '] :=
  ⟨by simp, fun d hd => by
    simp only [List.mem_cons, List.mem_singleton, List.not_mem_nil, or_false] at hd
    rcases hd with rfl | rfl
    · exact h
    · decide⟩

theorem match_gaps_word (N A S D Mi Ma g0 g1 g2 g3 g4 g5 g6 g7 g8 g9 g10 g11 g12 g13 : List Char)
    (hN : Token (fun c => !isSpace c) N) (hA : Token (fun c => !isSpace c) A)
    (hS : Token (fun c => !isSpace c) S) (hD : Token (fun c => !isSpace c) D)
    (hMi : Token (fun c => !isSpace c) Mi) (hMa : Token (fun c => !isSpace c) Ma)
    (hg : ∀ g ∈ [g0, g1, g2, g3, g4, g5, g6, g7, g8, g9, g10, g11, g12, g13], Token isSpace g)
    (p pre N' w1 A' S' w2 D' Mi' Ma' tail : List Char) (dot : Char)
    (hN' : Token (fun c => !isSpace c) N') (hw1 : Token isSpace w1)
    (hA' : Token (fun c => !isSpace c) A') (hS' : Token isDigit S') (hw2 : Token isSpace w2)
    (hD' : Token (fun c => !isSpace c) D') (hMi' : Token (fun c => !isSpace c) Mi')
    (hMa' : Token (fun c => !isSpace c) Ma') (hds : (!isSpace dot) = true)
    (ht : List.flatten [N, g0, "->".data, g1, "avg".data, g2, A, g3, "out".data, g4, "of".data, g5, S, g6,
        "samples.".data, g7, "(std".data, g8, "dev".data, g9, D ++ [','], g10, "min".data,
        g11, Mi ++ [','], g12, "max".data, g13, Ma ++ [')']] =
      p ++ lineText pre N' w1 A' S' dot w2 D' Mi' Ma' tail) :
    g1 = [' '] ∧ g2 = [' '] ∧ g3 = [' '] ∧ g4 = [' '] ∧ g5 = [' '] ∧ g6 = [' '] ∧
      g7 = [' '] ∧ g8 = [' '] ∧ g10 = [' '] ∧ g11 = [' '] ∧ g12 = [' '] ∧ g13 = [' '] := by
  have hx : Runs false true [N, g0, "->".data, g1, "avg".data, g2, A, g3, "out".data, g4, "of".data, g5, S, g6,
        "samples.".data, g7, "(std".data, g8, "dev".data, g9, D ++ [','], g10, "min".data,
        g11, Mi ++ [','], g12, "max".data, g13, Ma ++ [')']] :=
    (runs_word hN
      (runs_gap (hg g0 (by simp))
      (runs_word (by decide)
      (runs_gap (hg g1 (by simp))
      (runs_word (by decide)
      (runs_gap (hg g2 (by simp))
      (runs_word hA
      (runs_gap (hg g3 (by simp))
      (runs_word (by decide)
      (runs_gap (hg g4 (by simp))
      (runs_word (by decide)
      (runs_gap (hg g5 (by simp))
      (runs_word hS
      (runs_gap (hg g6 (by simp))
      (runs_word (by decide)
      (runs_gap (hg g7 (by simp))
      (runs_word (by decide)
      (runs_gap (hg g8 (by simp))
      (runs_word (by decide)
      (runs_gap (hg g9 (by simp))
      (runs_word (token_snoc hD (by decide))
      (runs_gap (hg g10 (by simp))
      (runs_word (by decide)
      (runs_gap (hg g11 (by simp))
      (runs_word (token_snoc hMi (by decide))
      (runs_gap (hg g12 (by simp))
      (runs_word (by decide)
      (runs_gap (hg g13 (by simp))
      (runs_word (token_snoc hMa (by decide))
      (runs_nil _))))))))))))))))))))))))))))))
  have hy : Runs true false [w1, "->".data, [' '], "avg".data, [' '], A', [' '], "out".data, [' '], "of".data,
        [' '], S', [' '], "samples".data ++ [dot], [' '], "(std".data, [' '], "dev".data,
        w2, D' ++ [','], [' '], "min".data, [' '], Mi' ++ [','], [' '], "max".data, [' ']] :=
    (runs_gap hw1
      (runs_word (by decide)
      (runs_gap (by decide)
      (runs_word (by decide)
      (runs_gap (by decide)
      (runs_word hA'
      (runs_gap (by decide)
      (runs_word (by decide)
      (runs_gap (by decide)
      (runs_word (by decide)
      (runs_gap (by decide)
      (runs_word (token_digits hS')
      (runs_gap (by decide)
      (runs_word (token_snoc (by decide) hds)
      (runs_gap (by decide)
      (runs_word (by decide)
      (runs_gap (by decide)
      (runs_word (by decide)
      (runs_gap hw2
      (runs_word (token_snoc hD' (by decide))
      (runs_gap (by decide)
      (runs_word (by decide)
      (runs_gap (by decide)
      (runs_word (token_snoc hMi' (by decide))
      (runs_gap (by decide)
      (runs_word (by decide)
      (runs_gap (by decide)
      (runs_nil _))))))))))))))))))))))))))))
  rcases List.eq_nil_or_concat N' with hn | ⟨N0, q, hn⟩
  · exact absurd hn hN'.1
  rw [List.concat_eq_append] at hn
  obtain ⟨t, w1', hw⟩ := List.exists_cons_of_ne_nil hw1.1
  have hq : isSpace q ≠ isSpace t := by
    have h1 := hN'.2 q (by rw [hn]; simp)
    have h2 := hw1.2 t (by rw [hw]; simp)
    simp only [Bool.not_eq_true'] at h1
    rw [h1, h2]
    decide
  have hsplit : List.flatten [N, g0, "->".data, g1, "avg".data, g2, A, g3, "out".data, g4, "of".data, g5, S, g6,
        "samples.".data, g7, "(std".data, g8, "dev".data, g9, D ++ [','], g10, "min".data,
        g11, Mi ++ [','], g12, "max".data, g13, Ma ++ [')']] =
      ((p ++ (pre ++ N0)) ++ [q]) ++ t :: (w1' ++ (List.flatten (List.tail
        [w1, "->".data, [' '], "avg".data, [' '], A', [' '], "out".data, [' '], "of".data,
        [' '], S', [' '], "samples".data ++ [dot], [' '], "(std".data, [' '], "dev".data,
        w2, D' ++ [','], [' '], "min".data, [' '], Mi' ++ [','], [' '], "max".data, [' ']]) ++
        (Ma' ++ ')' :: tail))) := by
    rw [ht, hn, hw]
    simp [lineText]
  obtain ⟨xs1, xs2, b2, e1, e2, e3, e4, e5⟩ := runs_split _ false true _ _ q t hx hq hsplit
  have hT : xs2.flatten = List.flatten [w1, "->".data, [' '], "avg".data, [' '], A', [' '], "out".data, [' '], "of".data,
        [' '], S', [' '], "samples".data ++ [dot], [' '], "(std".data, [' '], "dev".data,
        w2, D' ++ [','], [' '], "min".data, [' '], Mi' ++ [','], [' '], "max".data, [' ']] ++
      (Ma' ++ ')' :: tail) := by
    rw [← e4, hw]
    simp
  obtain ⟨zs, hz1, hz2⟩ := runs_prefix _ xs2 true false b2 true (Ma' ++ ')' :: tail) hy e5
    (by
      obtain ⟨m, Ma0, hm⟩ := List.exists_cons_of_ne_nil hMa'.1
      have := hMa'.2 m (by rw [hm]; simp)
      rw [hm]
      simpa using this) hT
  have hzs : zs ≠ [] := by
    intro h0
    rw [h0] at hz2
    obtain ⟨m, Ma0, hm⟩ := List.exists_cons_of_ne_nil hMa'.1
    rw [hm] at hz2
    simp at hz2
  rw [hz1] at e1
  have hlen := congrArg List.length e1
  simp only [List.length_append, List.length_cons, List.length_nil] at hlen
  have l1 : 1 ≤ xs1.length := List.length_pos.2 e2
  have l2 : 1 ≤ zs.length := List.length_pos.2 hzs
  obtain ⟨a, ha⟩ := List.length_eq_one.1 (show xs1.length = 1 by omega)
  obtain ⟨z, hz⟩ := List.length_eq_one.1 (show zs.length = 1 by omega)
  rw [ha, hz] at e1
  simp only [List.cons_append, List.nil_append, List.cons.injEq] at e1
  obtain ⟨-, -, -, h1, -, h2, -, h3, -, h4, -, h5, -, h6, -, h7, -, h8, -, -, -, h10, -, h11, -,
    h12, -, h13, -⟩ := e1
  exact ⟨h1, h2, h3, h4, h5, h6, h7, h8, h10, h11, h12, h13⟩

theorem match_gaps_space (N A S D Mi Ma g0 g1 g2 g3 g4 g5 g6 g7 g8 g9 g10 g11 g12 g13 : List Char)
    (hN : Token (fun c => !isSpace c) N) (hA : Token (fun c => !isSpace c) A)
    (hS : Token (fun c => !isSpace c) S) (hD : Token (fun c => !isSpace c) D)
    (hMi : Token (fun c => !isSpace c) Mi) (hMa : Token (fun c => !isSpace c) Ma)
    (hg : ∀ g ∈ [g0, g1, g2, g3, g4, g5, g6, g7, g8, g9, g10, g11, g12, g13], Token isSpace g)
    (p pre N' w1 A' S' w2 D' Mi' Ma' tail : List Char) (dot : Char)
    (hN' : Token (fun c => !isSpace c) N') (hw1 : Token isSpace w1)
    (hA' : Token (fun c => !isSpace c) A') (hS' : Token isDigit S') (hw2 : Token isSpace w2)
    (hD' : Token (fun c => !isSpace c) D') (hMi' : Token (fun c => !isSpace c) Mi')
    (hMa' : Token (fun c => !isSpace c) Ma') (hds : isSpace dot = true)
    (ht : List.flatten [N, g0, "->".data, g1, "avg".data, g2, A, g3, "out".data, g4, "of".data, g5, S, g6,
        "samples.".data, g7, "(std".data, g8, "dev".data, g9, D ++ [','], g10, "min".data,
        g11, Mi ++ [','], g12, "max".data, g13, Ma ++ [')']] =
      p ++ lineText pre N' w1 A' S' dot w2 D' Mi' Ma' tail) :
    False := by
  have hx : Runs false true [N, g0, "->".data, g1, "avg".data, g2, A, g3, "out".data, g4, "of".data, g5, S, g6,
        "samples.".data, g7, "(std".data, g8, "dev".data, g9, D ++ [','], g10, "min".data,
        g11, Mi ++ [','], g12, "max".data, g13, Ma ++ [')']] :=
    (runs_word hN
      (runs_gap (hg g0 (by simp))
      (runs_word (by decide)
      (runs_gap (hg g1 (by simp))
      (runs_word (by decide)
      (runs_gap (hg g2 (by simp))
      (runs_word hA
      (runs_gap (hg g3 (by simp))
      (runs_word (by decide)
      (runs_gap (hg g4 (by simp))
      (runs_word (by decide)
      (runs_gap (hg g5 (by simp))
      (runs_word hS
      (runs_gap (hg g6 (by simp))
      (runs_word (by decide)
      (runs_gap (hg g7 (by simp))
      (runs_word (by decide)
      (runs_gap (hg g8 (by simp))
      (runs_word (by decide)
      (runs_gap (hg g9 (by simp))
      (runs_word (token_snoc hD (by decide))
      (runs_gap (hg g10 (by simp))
      (runs_word (by decide)
      (runs_gap (hg g11 (by simp))
      (runs_word (token_snoc hMi (by decide))
      (runs_gap (hg g12 (by simp))
      (runs_word (by decide)
      (runs_gap (hg g13 (by simp))
      (runs_word (token_snoc hMa (by decide))
      (runs_nil _))))))))))))))))))))))))))))))
  have hy : Runs true false [w1, "->".data, [' '], "avg".data, [' '], A', [' '], "out".data, [' '], "of".data,
        [' '], S', [' '], "samples".data, [dot, ' '], "(std".data, [' '], "dev".data, w2,
        D' ++ [','], [' '], "min".data, [' '], Mi' ++ [','], [' '], "max".data, [' ']] :=
    (runs_gap hw1
      (runs_word (by decide)
      (runs_gap (by decide)
      (runs_word (by decide)
      (runs_gap (by decide)
      (runs_word hA'
      (runs_gap (by decide)
      (runs_word (by decide)
      (runs_gap (by decide)
      (runs_word (by decide)
      (runs_gap (by decide)
      (runs_word (token_digits hS')
      (runs_gap (by decide)
      (runs_word (by decide)
      (runs_gap (token_dot hds)
      (runs_word (by decide)
      (runs_gap (by decide)
      (runs_word (by decide)
      (runs_gap hw2
      (runs_word (token_snoc hD' (by decide))
      (runs_gap (by decide)
      (runs_word (by decide)
      (runs_gap (by decide)
      (runs_word (token_snoc hMi' (by decide))
      (runs_gap (by decide)
      (runs_word (by decide)
      (runs_gap (by decide)
      (runs_nil _))))))))))))))))))))))))))))
  rcases List.eq_nil_or_concat N' with hn | ⟨N0, q, hn⟩
  · exact absurd hn hN'.1
  rw [List.concat_eq_append] at hn
  obtain ⟨t, w1', hw⟩ := List.exists_cons_of_ne_nil hw1.1
  have hq : isSpace q ≠ isSpace t := by
    have h1 := hN'.2 q (by rw [hn]; simp)
    have h2 := hw1.2 t (by rw [hw]; simp)
    simp only [Bool.not_eq_true'] at h1
    rw [h1, h2]
    decide
  have hsplit : List.flatten [N, g0, "->".data, g1, "avg".data, g2, A, g3, "out".data, g4, "of".data, g5, S, g6,
        "samples.".data, g7, "(std".data, g8, "dev".data, g9, D ++ [','], g10, "min".data,
        g11, Mi ++ [','], g12, "max".data, g13, Ma ++ [')']] =
      ((p ++ (pre ++ N0)) ++ [q]) ++ t :: (w1' ++ (List.flatten (List.tail
        [w1, "->".data, [' '], "avg".data, [' '], A', [' '], "out".data, [' '], "of".data,
        [' '], S', [' '], "samples".data, [dot, ' '], "(std".data, [' '], "dev".data, w2,
        D' ++ [','], [' '], "min".data, [' '], Mi' ++ [','], [' '], "max".data, [' ']]) ++
        (Ma' ++ ')' :: tail))) := by
    rw [ht, hn, hw]
    simp [lineText]
  obtain ⟨xs1, xs2, b2, e1, e2, e3, e4, e5⟩ := runs_split _ false true _ _ q t hx hq hsplit
  have hT : xs2.flatten = List.flatten [w1, "->".data, [' '], "avg".data, [' '], A', [' '], "out".data, [' '], "of".data,
        [' '], S', [' '], "samples".data, [dot, ' '], "(std".data, [' '], "dev".data, w2,
        D' ++ [','], [' '], "min".data, [' '], Mi' ++ [','], [' '], "max".data, [' ']] ++
      (Ma' ++ ')' :: tail) := by
    rw [← e4, hw]
    simp
  obtain ⟨zs, hz1, hz2⟩ := runs_prefix _ xs2 true false b2 true (Ma' ++ ')' :: tail) hy e5
    (by
      obtain ⟨m, Ma0, hm⟩ := List.exists_cons_of_ne_nil hMa'.1
      have := hMa'.2 m (by rw [hm]; simp)
      rw [hm]
      simpa using this) hT
  have hzs : zs ≠ [] := by
    intro h0
    rw [h0] at hz2
    obtain ⟨m, Ma0, hm⟩ := List.exists_cons_of_ne_nil hMa'.1
    rw [hm] at hz2
    simp at hz2
  rw [hz1] at e1
  have hlen := congrArg List.length e1
  simp only [List.length_append, List.length_cons, List.length_nil] at hlen
  have l1 : 1 ≤ xs1.length := List.length_pos.2 e2
  have l2 : 1 ≤ zs.length := List.length_pos.2 hzs
  obtain ⟨a, ha⟩ := List.length_eq_one.1 (show xs1.length = 1 by omega)
  obtain ⟨z, hz⟩ := List.length_eq_one.1 (show zs.length = 1 by omega)
  rw [ha, hz] at e1
  simp only [List.cons_append, List.nil_append, List.cons.injEq] at e1
  simp at e1

/-- A line of the pattern's words with whitespace between them matches only if
every gap other than the one after the name and the one after `dev` is a single
space. -/
theorem match_gaps (N A S D Mi Ma g0 g1 g2 g3 g4 g5 g6 g7 g8 g9 g10 g11 g12 g13 : List Char)
    (hN : Token (fun c => !isSpace c) N) (hA : Token (fun c => !isSpace c) A)
    (hS : Token (fun c => !isSpace c) S) (hD : Token (fun c => !isSpace c) D)
    (hMi : Token (fun c => !isSpace c) Mi) (hMa : Token (fun c => !isSpace c) Ma)
    (hg : ∀ g ∈ [g0, g1, g2, g3, g4, g5, g6, g7, g8, g9, g10, g11, g12, g13], Token isSpace g)
    (hm : FindStringSubmatch msgLine (String.mk (weave [N, "->".data, "avg".data, A, "out".data, "of".data, S,
        "samples.".data, "(std".data, "dev".data, D ++ [','], "min".data, Mi ++ [','], "max".data,
        Ma ++ [')']]
        [g0, g1, g2, g3, g4, g5, g6, g7, g8, g9, g10, g11, g12, g13])) ≠ []) :
    g1 = [' '] ∧ g2 = [' '] ∧ g3 = [' '] ∧ g4 = [' '] ∧ g5 = [' '] ∧ g6 = [' '] ∧
      g7 = [' '] ∧ g8 = [' '] ∧ g10 = [' '] ∧ g11 = [' '] ∧ g12 = [' '] ∧ g13 = [' '] := by
  rcases FindStringSubmatch_inv (String.mk (weave [N, "->".data, "avg".data, A, "out".data, "of".data, S,
        "samples.".data, "(std".data, "dev".data, D ++ [','], "min".data, Mi ++ [','], "max".data,
        Ma ++ [')']]
        [g0, g1, g2, g3, g4, g5, g6, g7, g8, g9, g10, g11, g12, g13])) with h0 | ⟨p, pre, N', w1, A', S', dot, w2, D', Mi', Ma', tail, whole, ht, -, -,
    hN', hw1, hA', hS', -, hw2, hD', hMi', hMa'⟩
  · exact absurd h0 hm
  · have ht' : List.flatten [N, g0, "->".data, g1, "avg".data, g2, A, g3, "out".data, g4,
        "of".data, g5, S, g6, "samples.".data, g7, "(std".data, g8, "dev".data, g9, D ++ [','],
        g10, "min".data, g11, Mi ++ [','], g12, "max".data, g13, Ma ++ [')']] =
        p ++ lineText pre N' w1 A' S' dot w2 D' Mi' Ma' tail := by
      rw [← ht]
      simp [weave]
    by_cases hds : isSpace dot = true
    · exact (match_gaps_space N A S D Mi Ma g0 g1 g2 g3 g4 g5 g6 g7 g8 g9 g10 g11 g12 g13 hN hA hS
        hD hMi hMa hg p pre N' w1 A' S' w2 D' Mi' Ma' tail dot hN' hw1 hA' hS' hw2 hD' hMi' hMa'
        hds ht').elim
    · exact match_gaps_word N A S D Mi Ma g0 g1 g2 g3 g4 g5 g6 g7 g8 g9 g10 g11 g12 g13 hN hA hS
        hD hMi hMa hg p pre N' w1 A' S' w2 D' Mi' Ma' tail dot hN' hw1 hA' hS' hw2 hD' hMi' hMa'
        (by simpa using hds) ht'

theorem length_fourteen {α : Type} (l : List α) (h : l.length = 14) :
    ∃ g0 g1 g2 g3 g4 g5 g6 g7 g8 g9 g10 g11 g12 g13,
      l = [g0, g1, g2, g3, g4, g5, g6, g7, g8, g9, g10, g11, g12, g13] :=
  match l, h with
  | [g0, g1, g2, g3, g4, g5, g6, g7, g8, g9, g10, g11, g12, g13], _ =>
    ⟨g0, g1, g2, g3, g4, g5, g6, g7, g8, g9, g10, g11, g12, g13, rfl⟩

/-- When `GetResult` succeeds on a line of the pattern's words with whitespace
between them, the gaps are single spaces except after the name and after
`dev`. -/
theorem getResult_gaps (N A S D Mi Ma : List Char) (gs : List (List Char))
    (hN : Token (fun c => !isSpace c) N) (hA : Token (fun c => !isSpace c) A)
    (hS : Token (fun c => !isSpace c) S) (hD : Token (fun c => !isSpace c) D)
    (hMi : Token (fun c => !isSpace c) Mi) (hMa : Token (fun c => !isSpace c) Ma)
    (hlen : gs.length = 14) (hg : ∀ g ∈ gs, Token isSpace g)
    (h : (GetResult (String.mk (weave [N, "->".data, "avg".data, A, "out".data, "of".data, S,
        "samples.".data, "(std".data, "dev".data, D ++ [','], "min".data, Mi ++ [','], "max".data,
        Ma ++ [')']] gs))).2 = none) :
    ∃ a b, gs = [a, [' '], [' '], [' '], [' '], [' '], [' '], [' '], [' '],
        b, [' '], [' '], [' '], [' ']] := by
  obtain ⟨g0, g1, g2, g3, g4, g5, g6, g7, g8, g9, g10, g11, g12, g13, rfl⟩ :=
    length_fourteen gs hlen
  obtain ⟨av, sv, dv, miv, mav, hl, -⟩ := getResult_ok_inv _ h
  have hne : FindStringSubmatch msgLine (String.mk (weave [N, "->".data, "avg".data, A, "out".data, "of".data, S,
        "samples.".data, "(std".data, "dev".data, D ++ [','], "min".data, Mi ++ [','], "max".data,
        Ma ++ [')']]
        [g0, g1, g2, g3, g4, g5, g6, g7, g8, g9, g10, g11, g12, g13])) ≠ [] := by
    intro h0
    rw [h0] at hl
    simp [MaxGroup] at hl
  obtain ⟨h1, h2, h3, h4, h5, h6, h7, h8, h10, h11, h12, h13⟩ :=
    match_gaps N A S D Mi Ma g0 g1 g2 g3 g4 g5 g6 g7 g8 g9 g10 g11 g12 g13 hN hA hS hD hMi hMa
      hg hne
  exact ⟨g0, g9, by rw [h1, h2, h3, h4, h5, h6, h7, h8, h10, h11, h12, h13]⟩

theorem weave_lineText (N w1 A S w2 D Mi Ma : List Char) :
    weave [N, "->".data, "avg".data, A, "out".data, "of".data, S,
        "samples.".data, "(std".data, "dev".data, D ++ [','], "min".data, Mi ++ [','], "max".data,
        Ma ++ [')']]
        [w1, [' '], [' '], [' '], [' '], [' '], [' '], [' '], [' '],
          w2, [' '], [' '], [' '], [' ']] =
      lineText [] N w1 A S '.' w2 D Mi Ma [] := by
  simp [weave, lineText]

theorem joinWords_weave (N A S D Mi Ma : List Char) :
    (lineOf N A S D Mi Ma).data = weave [N, "->".data, "avg".data, A, "out".data, "of".data, S,
        "samples.".data, "(std".data, "dev".data, D ++ [','], "min".data, Mi ++ [','], "max".data,
        Ma ++ [')']]
        (List.replicate 14 [' ']) := by
  simp [weave, lineOf, lineText, List.replicate]

/-! ## The claims -/

/-- C1: rendering a Result with the template `outLine` on a writer that accepts
every write appends exactly `Benchmark`, the name verbatim, a tab, the sample
count in decimal, a tab, the average in whole nanoseconds in decimal and
` ns/op`, with no trailing newline; `StdDev`, `Min` and `Max` play no part. -/
theorem outLine_renders (r : Result) (out : String) :
    template.Execute outLine ⟨out, none⟩ r =
      (⟨out ++ "Benchmark" ++ r.Name ++ "\t" ++ strconv.FormatInt r.NumSamples ++ "\t" ++
          strconv.FormatInt r.Average ++ " ns/op", none⟩, true) :=
  execute_outLine r out

/-- C2: on the single example line `Process` writes
`Benchmarkbasic/increment\t2534\t9277 ns/op\n`: the name is preceded by the
literal `Benchmark`, so the output differs from the string
`basic/increment\t2534\t9277 ns/op\n` that `TestProcess` expects. -/
theorem process_exampleLine :
    Process ⟨exampleLine, none⟩ ⟨"", none⟩ =
        (⟨"Benchmarkbasic/increment\t2534\t9277 ns/op\n", none⟩, none) ∧
      (Process ⟨exampleLine, none⟩ ⟨"", none⟩).1.out ≠ "basic/increment\t2534\t9277 ns/op\n" := by
  decide!

/-- C3, counterexample: the line
`x -> avg 9223372036855ms out of 1 samples. (std dev 1, min 1, max 1)` has the
exact form of the claim, with a non-negative decimal average, and `GetResult`
returns an error for it: the average does not fit a `time.Duration`. -/
theorem getResult_average_overflow :
    lineOf "x".data "9223372036855ms".data "1".data "1".data "1".data "1".data =
        "x -> avg 9223372036855ms out of 1 samples. (std dev 1, min 1, max 1)" ∧
      GetResult "x -> avg 9223372036855ms out of 1 samples. (std dev 1, min 1, max 1)" =
        (⟨"x", 0, 0, 0, 0, 0⟩,
          some (.average "x -> avg 9223372036855ms out of 1 samples. (std dev 1, min 1, max 1)"
            .invalid)) := by
  decide!

/-- C3: for a line `N -> avg Ams out of S samples. (std dev D, min Mi, max Ma)`
where `N` is a non-empty token without whitespace, `A` is a decimal literal
whose integer part is below `9 * 10^12`, `S` is a decimal integer below `2^31`
and `D`, `Mi`, `Ma` are decimal literals with integer parts below `10^300`,
`GetResult` returns no error and a Result whose Name is `N`, whose NumSamples is
the value of `S`, whose Average is the integer part of `A` in nanoseconds plus
the nanoseconds `ParseDuration` computes for the fraction, and whose StdDev, Min
and Max are the nanoseconds `parseFloat` computes; for the test line the Result
is `basic/increment`, 9277ns, 2534, 1611ns, 8000ns, 82000ns. -/
theorem getResult_wellFormed (N ipA fpA S ipD fpD ipMi fpMi ipMa fpMa : List Char)
    (hN : Token (fun c => !isSpace c) N) (hA : IsDecimal ipA fpA (9 * 10 ^ 12))
    (hS : S ≠ [] ∧ Digits S ∧ strconv.decVal S < 2 ^ 31)
    (hD : IsDecimal ipD fpD (10 ^ 300)) (hMi : IsDecimal ipMi fpMi (10 ^ 300))
    (hMa : IsDecimal ipMa fpMa (10 ^ 300)) :
    GetResult (lineOf N (decimal ipA fpA ++ ['m', 's']) S (decimal ipD fpD)
        (decimal ipMi fpMi) (decimal ipMa fpMa)) =
        (⟨String.mk N, ((strconv.decVal ipA * 1000000 + time.msFraction fpA : Nat) : Int),
          (strconv.decVal S : Int), msValue ipD fpD, msValue ipMi fpMi, msValue ipMa fpMa⟩,
          none) ∧
      GetResult exampleLine = (⟨"basic/increment", 9277, 2534, 1611, 8000, 82000⟩, none) :=
  ⟨GetResult_lineText [] N [' '] ipA fpA S '.' [' '] ipD fpD ipMi fpMi ipMa fpMa []
      (fun _ hc => nomatch hc) hN (by decide) hA hS (by decide) (by decide) hD hMi hMa
      (stops_nil _),
    by decide!⟩

/-- C3, witness: the theorem at the line
`a/b -> avg 12.5ms out of 7 samples. (std dev 0.5, min 3, max 40)`. -/
theorem getResult_wellFormed_witness :
    GetResult (lineOf "a/b".data (decimal "12".data "5".data ++ ['m', 's']) "7".data
        (decimal "0".data "5".data) (decimal "3".data []) (decimal "40".data [])) =
      (⟨String.mk "a/b".data,
        ((strconv.decVal "12".data * 1000000 + time.msFraction "5".data : Nat) : Int),
        (strconv.decVal "7".data : Int), msValue "0".data "5".data, msValue "3".data [],
        msValue "40".data []⟩, none) :=
  (getResult_wellFormed "a/b".data "12".data "5".data "7".data "0".data "5".data "3".data []
    "40".data [] (by decide) (by decide!) (by decide!) (by decide!) (by decide!)
    (by decide!)).1

/-- C4, counterexample: for the average `0.00000100000000000ms`, whose value
times 1,000,000 is exactly 1, the emitted nanosecond figure is 0: the fraction
is converted in `float64`, where `1e11 * (1e6 / 1e17)` is below 1. -/
theorem average_below_floor :
    GetResult "x -> avg 0.00000100000000000ms out of 1 samples. (std dev 1, min 1, max 1)" =
        (⟨"x", 0, 1, 1000000, 1000000, 1000000⟩, none) ∧
      render ⟨"x", 0, 1, 1000000, 1000000, 1000000⟩ = "Benchmarkx\t1\t0 ns/op" ∧
      strconv.decVal "000000100000000000".data * 1000000 / 10 ^ 17 = 1 := by
  decide!

/-- C4: for a well-formed line with average `ip.fp` followed by `ms`, `GetResult`
succeeds and the emitted nanosecond figure is the integer part times 1,000,000
plus `uint64(float64(f) * (1e6 / scale))`, the fraction as `ParseDuration`
converts it in `float64`. With at most eighteen fraction digits the figure is
within one of the value times 1,000,000 truncated; with at most six fraction
digits it is exactly the value times 1,000,000; and for the example line, with
average `0.00927782162588819`, the figure is 9277. -/
theorem average_nanoseconds (N ipA fpA S ipD fpD ipMi fpMi ipMa fpMa : List Char)
    (hN : Token (fun c => !isSpace c) N) (hA : IsDecimal ipA fpA (9 * 10 ^ 12))
    (hS : S ≠ [] ∧ Digits S ∧ strconv.decVal S < 2 ^ 31)
    (hD : IsDecimal ipD fpD (10 ^ 300)) (hMi : IsDecimal ipMi fpMi (10 ^ 300))
    (hMa : IsDecimal ipMa fpMa (10 ^ 300)) :
    (GetResult (lineOf N (decimal ipA fpA ++ ['m', 's']) S (decimal ipD fpD)
        (decimal ipMi fpMi) (decimal ipMa fpMa))).2 = none ∧
      render (GetResult (lineOf N (decimal ipA fpA ++ ['m', 's']) S (decimal ipD fpD)
        (decimal ipMi fpMi) (decimal ipMa fpMa))).1 =
        "Benchmark" ++ String.mk N ++ "\t" ++ strconv.FormatInt (strconv.decVal S) ++ "\t" ++
          strconv.FormatInt
            ((strconv.decVal ipA * 1000000 + time.msFraction fpA : Nat) : Int) ++ " ns/op" ∧
      (fpA.length ≤ 18 →
        strconv.decVal (ipA ++ fpA) * 1000000 / 10 ^ fpA.length ≤
            strconv.decVal ipA * 1000000 + time.msFraction fpA + 1 ∧
          strconv.decVal ipA * 1000000 + time.msFraction fpA ≤
            strconv.decVal (ipA ++ fpA) * 1000000 / 10 ^ fpA.length + 1) ∧
      (fpA.length ≤ 6 →
        strconv.decVal ipA * 1000000 + time.msFraction fpA =
          strconv.decVal (ipA ++ fpA) * 10 ^ (6 - fpA.length)) ∧
      render (GetResult exampleLine).1 = "Benchmarkbasic/increment\t2534\t9277 ns/op" := by
  have h := GetResult_lineText [] N [' '] ipA fpA S '.' [' '] ipD fpD ipMi fpMi ipMa fpMa []
    (fun _ hc => nomatch hc) hN (by decide) hA hS (by decide) (by decide) hD hMi hMa
    (stops_nil _)
  have e : String.mk (lineText [] N [' '] (decimal ipA fpA ++ ['m', 's']) S '.' [' ']
      (decimal ipD fpD) (decimal ipMi fpMi) (decimal ipMa fpMa) []) =
      lineOf N (decimal ipA fpA ++ ['m', 's']) S (decimal ipD fpD)
        (decimal ipMi fpMi) (decimal ipMa fpMa) := rfl
  rw [e] at h
  exact ⟨by rw [h], by rw [h, render_eq], average_near ipA fpA hA.2.2.1,
    average_exact ipA fpA hA.2.2.1, by decide!⟩

/-- C4, witness: the theorem at the example line, whose average
`0.00927782162588819` has seventeen fraction digits: the value times 1,000,000,
truncated, is 9277 and the figure is within one of it. -/
theorem average_nanoseconds_witness :
    strconv.decVal ("0".data ++ "00927782162588819".data) * 1000000 /
        10 ^ "00927782162588819".data.length = 9277 ∧
      (strconv.decVal ("0".data ++ "00927782162588819".data) * 1000000 /
          10 ^ "00927782162588819".data.length ≤
          strconv.decVal "0".data * 1000000 + time.msFraction "00927782162588819".data + 1 ∧
        strconv.decVal "0".data * 1000000 + time.msFraction "00927782162588819".data ≤
          strconv.decVal ("0".data ++ "00927782162588819".data) * 1000000 /
            10 ^ "00927782162588819".data.length + 1) :=
  ⟨by decide!,
    (average_nanoseconds "basic/increment".data "0".data "00927782162588819".data "2534".data
      "0".data "00161196365508829".data "0".data "008".data "0".data "082".data (by decide!)
      (by decide!) (by decide!) (by decide!) (by decide!) (by decide!)).2.2.1 (by decide)⟩

/-- C5, counterexample: `parseFloat "0.0157"` is 15699 nanoseconds, while the
value times 1,000,000 is exactly 15700: the product is taken in `float64` with
the double nearest to 0.0157, which is below it. -/
theorem parseFloat_below_trunc :
    parseFloat "0.0157" = (15699, none) ∧
      strconv.decVal "00157".data * 1000000 / 10 ^ 4 = 15700 := by
  decide!

/-- C5: for a unit-less decimal literal `ip.fp` with integer part below `10^300`,
`parseFloat` succeeds and returns `int(1e6 * x)` nanoseconds, where `x` is the
double nearest to the literal and the product is the `float64` product; with at
most 300 fraction digits and an integer part below `2 * 10^9` this is within
one of the value times 1,000,000 truncated; for an integer literal below
`9 * 10^9` it is exactly the value times 1,000,000; `"0.008"` gives 8000 ns,
`"0.082"` gives 82000 ns and `"0.00161196365508829"` gives 1611 ns; and whenever
`GetResult` succeeds on a line, its StdDev, Min and Max are what `parseFloat`
returns for the groups 4, 5 and 6 of the match. -/
theorem parseFloat_milliseconds (ip fp : List Char) (h : IsDecimal ip fp (10 ^ 300)) :
    parseFloat (String.mk (decimal ip fp)) =
        (float64.toInt64 (float64.mul (float64.ofNat time.Millisecond)
          (float64.round false (strconv.decVal (ip ++ fp)) (10 ^ fp.length))), none) ∧
      (fp.length ≤ 300 → strconv.decVal ip < 2 * 10 ^ 9 →
        ((strconv.decVal (ip ++ fp) * 1000000 / 10 ^ fp.length : Nat) : Int) ≤
            (parseFloat (String.mk (decimal ip fp))).1 + 1 ∧
          (parseFloat (String.mk (decimal ip fp))).1 ≤
            ((strconv.decVal (ip ++ fp) * 1000000 / 10 ^ fp.length : Nat) : Int) + 1) ∧
      (fp = [] → strconv.decVal ip < 9 * 10 ^ 9 →
        parseFloat (String.mk (decimal ip fp)) =
          (((strconv.decVal ip * 1000000 : Nat) : Int), none)) ∧
      (parseFloat "0.008" = (8000, none) ∧ parseFloat "0.082" = (82000, none) ∧
        parseFloat "0.00161196365508829" = (1611, none)) ∧
      ∀ t, (GetResult t).2 = none →
        (GetResult t).1.StdDev =
            (parseFloat ((regexp.FindStringSubmatch msgLine t).getD StdDevGroup "")).1 ∧
          (GetResult t).1.Min =
            (parseFloat ((regexp.FindStringSubmatch msgLine t).getD MinGroup "")).1 ∧
          (GetResult t).1.Max =
            (parseFloat ((regexp.FindStringSubmatch msgLine t).getD MaxGroup "")).1 := by
  have hp := parseFloat_decimal ip fp h.1 h.2.1 h.2.2.1 h.2.2.2
  refine ⟨hp, fun hlen hb => ?_, fun hfp hb => ?_, by decide!,
    fun t ht => (getResult_ok_fields t ht).2.2⟩
  · rw [hp]
    exact msValue_near ip fp h.2.2.1 hlen hb
  · subst hfp
    rw [hp, msValue_int ip hb]

/-- C5, witness: the theorem at the literal `0.0157`, where the result is within
one of 15700, and at the integer literal `40`, which gives 40000000 ns. -/
theorem parseFloat_milliseconds_witness :
    (((strconv.decVal ("0".data ++ "0157".data) * 1000000 / 10 ^ "0157".data.length : Nat) :
          Int) ≤ (parseFloat (String.mk (decimal "0".data "0157".data))).1 + 1 ∧
        (parseFloat (String.mk (decimal "0".data "0157".data))).1 ≤
          ((strconv.decVal ("0".data ++ "0157".data) * 1000000 / 10 ^ "0157".data.length : Nat) :
            Int) + 1) ∧
      parseFloat (String.mk (decimal "40".data [])) =
        (((strconv.decVal "40".data * 1000000 : Nat) : Int), none) :=
  ⟨(parseFloat_milliseconds "0".data "0157".data (by decide!)).2.1 (by decide) (by decide),
    (parseFloat_milliseconds "40".data [] (by decide!)).2.2.1 rfl (by decide)⟩

/-- C6, counterexample: the input of two lines, `longLine` (a valid line of more
than 64 KiB) and the example line, has two lines on which `GetResult` succeeds,
the second of which renders as `Benchmarkbasic/increment\t2534\t9277 ns/op`, but
`Process` writes nothing: the scanner stops at the line that does not fit its
buffer. -/
theorem process_longLine_silent :
    (GetResult longLine).2 = none ∧
      GetResult exampleLine = (⟨"basic/increment", 9277, 2534, 1611, 8000, 82000⟩, none) ∧
      render ⟨"basic/increment", 9277, 2534, 1611, 8000, 82000⟩ =
        "Benchmarkbasic/increment\t2534\t9277 ns/op" ∧
      Process ⟨joinLines [longLine, exampleLine], none⟩ ⟨"", none⟩ = (⟨"", none⟩, none) :=
  ⟨longLine_ok, by decide!, by decide!, process_longLine [] none ""⟩

/-- C6: for an input made of lines that are shorter than the 64 KiB buffer of
the scanner (and hold no newline) and a writer that does not fail, `Process`
returns no error and appends exactly the concatenation, in input order, of the
rendered Result followed by one newline for each line on which `GetResult`
succeeds; the other lines contribute nothing, removing them leaves the output
unchanged, and the empty input yields no output. -/
theorem process_output (ls : List String) (h : ∀ t ∈ ls, Scannable t) (out : String) :
    Process ⟨joinLines ls, none⟩ ⟨out, none⟩ =
        (⟨out ++ concat ((ls.filter fun t => (GetResult t).2.isNone).map
          fun t => render (GetResult t).1 ++ "\n"), none⟩, none) ∧
      Process ⟨joinLines (ls.filter fun t => (GetResult t).2.isNone), none⟩ ⟨out, none⟩ =
        Process ⟨joinLines ls, none⟩ ⟨out, none⟩ ∧
      Process ⟨joinLines [], none⟩ ⟨"", none⟩ = (⟨"", none⟩, none) := by
  refine ⟨?_, ?_, by decide⟩
  · rw [process_joinLines ls h, concat_emit_success]
  · rw [process_joinLines ls h, process_joinLines _ (scannable_filter ls _ h),
      concat_emit_filter]

/-- C6, witness: the theorem at the input of three lines, the example line
followed by a carriage return, a line that does not parse and the example line
again. -/
theorem process_output_witness :
    Process ⟨joinLines [exampleLine ++ "\r", "not a result", exampleLine], none⟩ ⟨"", none⟩ =
        (⟨"" ++ concat (([exampleLine ++ "\r", "not a result", exampleLine].filter
            fun t => (GetResult t).2.isNone).map fun t => render (GetResult t).1 ++ "\n"),
          none⟩, none) ∧
      concat (([exampleLine ++ "\r", "not a result", exampleLine].filter
          fun t => (GetResult t).2.isNone).map fun t => render (GetResult t).1 ++ "\n") =
        "Benchmarkbasic/increment\t2534\t9277 ns/op\nBenchmarkbasic/increment\t2534\t9277 ns/op\n" :=
  ⟨(process_output [exampleLine ++ "\r", "not a result", exampleLine] (by decide!) "").1,
    by decide!⟩

/-- C7: when the input stream ends with a read error, `Process` behaves as at
the end of the stream: it returns the same writer and result as without the
error, and with a writer that does not fail it returns no error. The error of
the scanner is never consulted. -/
theorem process_read_error (data e : String) (w : Writer) (out : String) :
    Process ⟨data, some e⟩ w = Process ⟨data, none⟩ w ∧
      (Process ⟨data, some e⟩ ⟨out, none⟩).2 = none :=
  ⟨rfl, by unfold Process; rw [processLines_unlimited]⟩

/-- C8, counterexample: `GetResult` succeeds on the example line followed by
` garbage` and on the example line preceded by `extra `, with the Result of the
example line. -/
theorem getResult_unanchored :
    GetResult exampleLine = (⟨"basic/increment", 9277, 2534, 1611, 8000, 82000⟩, none) ∧
      GetResult (exampleLine ++ " garbage") =
        (⟨"basic/increment", 9277, 2534, 1611, 8000, 82000⟩, none) ∧
      GetResult ("extra " ++ exampleLine) =
        (⟨"basic/increment", 9277, 2534, 1611, 8000, 82000⟩, none) := by
  decide!

/-- C8: the pattern is not anchored. For a well-formed line `L`, any text `tok`
without whitespace, any whitespace `ws` (not empty when `tok` is not) and any
trailing text `tail` that is empty or starts with whitespace, `GetResult`
succeeds on `tok ++ ws ++ L ++ tail` and returns the Result of `L`. -/
theorem getResult_surrounded (tok ws tail N ipA fpA S ipD fpD ipMi fpMi ipMa fpMa : List Char)
    (htok : ∀ c ∈ tok, (!isSpace c) = true) (hws : ∀ c ∈ ws, isSpace c = true)
    (hne : tok ≠ [] → ws ≠ []) (htail : Stops (fun c => !isSpace c) tail)
    (hN : Token (fun c => !isSpace c) N) (hA : IsDecimal ipA fpA (9 * 10 ^ 12))
    (hS : S ≠ [] ∧ Digits S ∧ strconv.decVal S < 2 ^ 31)
    (hD : IsDecimal ipD fpD (10 ^ 300)) (hMi : IsDecimal ipMi fpMi (10 ^ 300))
    (hMa : IsDecimal ipMa fpMa (10 ^ 300)) :
    (GetResult (String.mk (tok ++ (ws ++ ((lineOf N (decimal ipA fpA ++ ['m', 's']) S
        (decimal ipD fpD) (decimal ipMi fpMi) (decimal ipMa fpMa)).data ++ tail))))).2 = none ∧
      GetResult (String.mk (tok ++ (ws ++ ((lineOf N (decimal ipA fpA ++ ['m', 's']) S
        (decimal ipD fpD) (decimal ipMi fpMi) (decimal ipMa fpMa)).data ++ tail)))) =
      GetResult (lineOf N (decimal ipA fpA ++ ['m', 's']) S (decimal ipD fpD)
        (decimal ipMi fpMi) (decimal ipMa fpMa)) := by
  have h0 := GetResult_lineText [] N [' '] ipA fpA S '.' [' '] ipD fpD ipMi fpMi ipMa fpMa []
    (fun _ hc => nomatch hc) hN (by decide) hA hS (by decide) (by decide) hD hMi hMa
    (stops_nil _)
  unfold lineOf
  rw [h0, lineText_split]
  by_cases ht : tok = []
  · subst ht
    rw [List.nil_append, GetResult_lineText ws N [' '] ipA fpA S '.' [' '] ipD fpD ipMi fpMi
      ipMa fpMa tail hws hN (by decide) hA hS (by decide) (by decide) hD hMi hMa htail]
    exact ⟨rfl, rfl⟩
  · rw [GetResult_prefixed tok ws N [' '] ipA fpA S '.' [' '] ipD fpD ipMi fpMi ipMa fpMa tail
      htok ⟨hne ht, hws⟩ hN (by decide) hA hS (by decide) (by decide) hD hMi hMa htail]
    exact ⟨rfl, rfl⟩

/-- C8, witness: the theorem at the line
`a/b -> avg 12.5ms out of 7 samples. (std dev 0.5, min 3, max 40)` preceded by
`extra ` and followed by ` garbage`. -/
theorem getResult_surrounded_witness :
    GetResult (String.mk ("extra".data ++ (" ".data ++ ((lineOf "a/b".data
        (decimal "12".data "5".data ++ ['m', 's']) "7".data (decimal "0".data "5".data)
        (decimal "3".data []) (decimal "40".data [])).data ++ " garbage".data)))) =
      GetResult (lineOf "a/b".data (decimal "12".data "5".data ++ ['m', 's']) "7".data
        (decimal "0".data "5".data) (decimal "3".data []) (decimal "40".data [])) :=
  (getResult_surrounded "extra".data " ".data " garbage".data "a/b".data "12".data "5".data
    "7".data "0".data "5".data "3".data [] "40".data [] (by decide) (by decide) (by decide)
    (by intro c cs h; cases h; decide) (by decide) (by decide!) (by decide!) (by decide!)
    (by decide!) (by decide!)).2

/-- C9, counterexample: on the line
`x -> avg 1ms out of 2 samples. (std dev y, min 1, max 1)` `GetResult` returns an
error together with a Result that has Name, Average and NumSamples set. -/
theorem getResult_partial_result :
    GetResult "x -> avg 1ms out of 2 samples. (std dev y, min 1, max 1)" =
        (⟨"x", 1000000, 2, 0, 0, 0⟩,
          some (.stdDev "x -> avg 1ms out of 2 samples. (std dev y, min 1, max 1)"
            (.float "y" .invalid))) ∧
      (⟨"x", 1000000, 2, 0, 0, 0⟩ : Result) ≠ Result.zero := by
  decide!

/-- C9: if `GetResult` returns an error then the Result returned alongside is
the zero Result when the line does not match the pattern; when the line matches
and a field fails to parse, Name is the name token (the Result is partially
populated), the field that failed and the fields after it, in the order
Average, NumSamples, StdDev, Min, Max, are zero, and the fields before it keep
the values parsed from their submatches: Average when the sample count failed,
Average and NumSamples when the std dev failed, also StdDev when the min failed,
also Min when the max failed; `Process` never uses the Result of such a line. -/
theorem getResult_error_result (t : String) (h : (GetResult t).2 ≠ none) :
    ((regexp.FindStringSubmatch msgLine t).length ≠ MaxGroup + 1 →
        (GetResult t).1 = Result.zero) ∧
      ((regexp.FindStringSubmatch msgLine t).length = MaxGroup + 1 →
        (GetResult t).1.Name = (regexp.FindStringSubmatch msgLine t).getD NameGroup "") ∧
      (match (GetResult t).2 with
        | none => True
        | some (.noMatch _ _) => (GetResult t).1 = Result.zero
        | some (.average _ _) =>
          (GetResult t).1.Average = 0 ∧ (GetResult t).1.NumSamples = 0 ∧
            (GetResult t).1.StdDev = 0 ∧ (GetResult t).1.Min = 0 ∧ (GetResult t).1.Max = 0
        | some (.samples _ _) =>
          (GetResult t).1.NumSamples = 0 ∧ (GetResult t).1.StdDev = 0 ∧
            (GetResult t).1.Min = 0 ∧ (GetResult t).1.Max = 0
        | some (.stdDev _ _) =>
          (GetResult t).1.StdDev = 0 ∧ (GetResult t).1.Min = 0 ∧ (GetResult t).1.Max = 0
        | some (.min _ _) => (GetResult t).1.Min = 0 ∧ (GetResult t).1.Max = 0
        | some (.max _ _) => (GetResult t).1.Max = 0) ∧
      (∀ ts w, processLines (t :: ts) w = processLines ts w) ∧
      (∀ l err, (GetResult t).2 = some (.samples l err) →
        time.ParseDuration ((regexp.FindStringSubmatch msgLine t).getD AvgGroup "") =
          .ok (GetResult t).1.Average) ∧
      (∀ l err, (GetResult t).2 = some (.stdDev l err) →
        time.ParseDuration ((regexp.FindStringSubmatch msgLine t).getD AvgGroup "") =
          .ok (GetResult t).1.Average ∧
        strconv.ParseInt ((regexp.FindStringSubmatch msgLine t).getD NumSamplesGroup "") 32 =
          .ok (GetResult t).1.NumSamples) ∧
      (∀ l err, (GetResult t).2 = some (.min l err) →
        time.ParseDuration ((regexp.FindStringSubmatch msgLine t).getD AvgGroup "") =
          .ok (GetResult t).1.Average ∧
        strconv.ParseInt ((regexp.FindStringSubmatch msgLine t).getD NumSamplesGroup "") 32 =
          .ok (GetResult t).1.NumSamples ∧
        parseFloat ((regexp.FindStringSubmatch msgLine t).getD StdDevGroup "") =
          ((GetResult t).1.StdDev, none)) ∧
      (∀ l err, (GetResult t).2 = some (.max l err) →
        time.ParseDuration ((regexp.FindStringSubmatch msgLine t).getD AvgGroup "") =
          .ok (GetResult t).1.Average ∧
        strconv.ParseInt ((regexp.FindStringSubmatch msgLine t).getD NumSamplesGroup "") 32 =
          .ok (GetResult t).1.NumSamples ∧
        parseFloat ((regexp.FindStringSubmatch msgLine t).getD StdDevGroup "") =
          ((GetResult t).1.StdDev, none) ∧
        parseFloat ((regexp.FindStringSubmatch msgLine t).getD MinGroup "") =
          ((GetResult t).1.Min, none)) :=
  have hs := getResult_error_shape t h
  have hk := getResult_error_kept t
  ⟨hs.2.1, hs.2.2, getResult_error_fields t, fun ts w => processLines_skip t h ts w,
    hk.1, hk.2.1, hk.2.2.1, hk.2.2.2⟩

/-- C9, witness: the theorem at the line `not a result`, which does not match,
so that the Result is the zero Result, and at the line
`x -> avg 1ms out of 2 samples. (std dev y, min 1, max 1)`, whose std dev does
not parse: the Result has the name `x`, the parsed average of 1000000 ns and the
parsed count 2, and zero for the other fields. -/
theorem getResult_error_result_witness :
    ((GetResult "not a result").2 ≠ none ∧ (GetResult "not a result").1 = Result.zero) ∧
      (time.ParseDuration ((regexp.FindStringSubmatch msgLine
            "x -> avg 1ms out of 2 samples. (std dev y, min 1, max 1)").getD AvgGroup "") =
          .ok (GetResult "x -> avg 1ms out of 2 samples. (std dev y, min 1, max 1)").1.Average ∧
        strconv.ParseInt ((regexp.FindStringSubmatch msgLine
            "x -> avg 1ms out of 2 samples. (std dev y, min 1, max 1)").getD NumSamplesGroup "")
            32 =
          .ok (GetResult
            "x -> avg 1ms out of 2 samples. (std dev y, min 1, max 1)").1.NumSamples) ∧
      (GetResult "x -> avg 1ms out of 2 samples. (std dev y, min 1, max 1)").1 =
        ⟨"x", 1000000, 2, 0, 0, 0⟩ :=
  ⟨⟨by decide!, (getResult_error_result "not a result" (by decide!)).1 (by decide!)⟩,
    (getResult_error_result "x -> avg 1ms out of 2 samples. (std dev y, min 1, max 1)"
      (by decide!)).2.2.2.2.2.1
      "x -> avg 1ms out of 2 samples. (std dev y, min 1, max 1)" (.float "y" .invalid)
      (by decide!),
    by decide!⟩

/-- C10, counterexample: the example line parses, but with the space after
`avg`, the space between `out` and `of`, or the space after `min` doubled,
`GetResult` returns the error of a line that does not match. -/
theorem getResult_double_space :
    (GetResult exampleLine).2 = none ∧
      GetResult "basic/increment -> avg  0.00927782162588819ms out of 2534 samples. (std dev 0.00161196365508829, min 0.008, max 0.082)" =
        (Result.zero, some (.noMatch "basic/increment -> avg  0.00927782162588819ms out of 2534 samples. (std dev 0.00161196365508829, min 0.008, max 0.082)" [])) ∧
      GetResult "basic/increment -> avg 0.00927782162588819ms out  of 2534 samples. (std dev 0.00161196365508829, min 0.008, max 0.082)" =
        (Result.zero, some (.noMatch "basic/increment -> avg 0.00927782162588819ms out  of 2534 samples. (std dev 0.00161196365508829, min 0.008, max 0.082)" [])) ∧
      GetResult "basic/increment -> avg 0.00927782162588819ms out of 2534 samples. (std dev 0.00161196365508829, min  0.008, max 0.082)" =
        (Result.zero, some (.noMatch "basic/increment -> avg 0.00927782162588819ms out of 2534 samples. (std dev 0.00161196365508829, min  0.008, max 0.082)" [])) := by
  decide!

/-- C10: the pattern has `\s+` in two places only. For a well-formed line `L`
and the line obtained from it by replacing the space between the name and `->`
by a non-empty run `w1` of whitespace, the space between `std dev` and its
value by a non-empty run `w2` of whitespace, and by putting whitespace `pre`
before the name, `GetResult` succeeds and returns the Result of `L`. The other
spaces are literal: for the words of `L` with any non-empty runs `gs` of
whitespace between them, `GetResult` succeeds exactly when every run other than
the one after the name and the one after `dev` is a single space. -/
theorem getResult_whitespace_runs (pre w1 w2 N ipA fpA S ipD fpD ipMi fpMi ipMa fpMa : List Char)
    (hpre : ∀ c ∈ pre, isSpace c = true) (hw1 : Token isSpace w1) (hw2 : Token isSpace w2)
    (hN : Token (fun c => !isSpace c) N) (hA : IsDecimal ipA fpA (9 * 10 ^ 12))
    (hS : S ≠ [] ∧ Digits S ∧ strconv.decVal S < 2 ^ 31)
    (hD : IsDecimal ipD fpD (10 ^ 300)) (hMi : IsDecimal ipMi fpMi (10 ^ 300))
    (hMa : IsDecimal ipMa fpMa (10 ^ 300)) :
    (GetResult (String.mk (lineText pre N w1 (decimal ipA fpA ++ ['m', 's']) S '.' w2
        (decimal ipD fpD) (decimal ipMi fpMi) (decimal ipMa fpMa) []))).2 = none ∧
      GetResult (String.mk (lineText pre N w1 (decimal ipA fpA ++ ['m', 's']) S '.' w2
        (decimal ipD fpD) (decimal ipMi fpMi) (decimal ipMa fpMa) [])) =
      GetResult (lineOf N (decimal ipA fpA ++ ['m', 's']) S (decimal ipD fpD)
        (decimal ipMi fpMi) (decimal ipMa fpMa)) ∧
      ∀ gs : List (List Char), gs.length = 14 → (∀ g ∈ gs, Token isSpace g) →
        ((GetResult (String.mk (weave [N, "->".data, "avg".data,
            decimal ipA fpA ++ ['m', 's'], "out".data, "of".data, S, "samples.".data,
            "(std".data, "dev".data, decimal ipD fpD ++ [','], "min".data,
            decimal ipMi fpMi ++ [','], "max".data, decimal ipMa fpMa ++ [')']] gs))).2 = none ↔
          ∃ a b, gs = [a, [' '], [' '], [' '], [' '], [' '], [' '], [' '], [' '], b, [' '],
            [' '], [' '], [' ']]) := by
  have h0 := GetResult_lineText [] N [' '] ipA fpA S '.' [' '] ipD fpD ipMi fpMi ipMa fpMa []
    (fun _ hc => nomatch hc) hN (by decide) hA hS (by decide) (by decide) hD hMi hMa
    (stops_nil _)
  refine ⟨?_, ?_, ?_⟩
  · rw [GetResult_lineText pre N w1 ipA fpA S '.' w2 ipD fpD ipMi fpMi ipMa fpMa [] hpre hN
      hw1 hA hS (by decide) hw2 hD hMi hMa (stops_nil _)]
  · unfold lineOf
    rw [h0, GetResult_lineText pre N w1 ipA fpA S '.' w2 ipD fpD ipMi fpMi ipMa fpMa [] hpre hN
      hw1 hA hS (by decide) hw2 hD hMi hMa (stops_nil _)]
  · intro gs hlen hg
    constructor
    · exact getResult_gaps N (decimal ipA fpA ++ ['m', 's']) S (decimal ipD fpD)
        (decimal ipMi fpMi) (decimal ipMa fpMa) gs hN
        (token_decimal ipA fpA _ hA ['m', 's'] (by decide)) (token_digits ⟨hS.1, hS.2.1⟩)
        (token_of_decimal ipD fpD _ hD) (token_of_decimal ipMi fpMi _ hMi)
        (token_of_decimal ipMa fpMa _ hMa) hlen hg
    · rintro ⟨a, b, rfl⟩
      rw [weave_lineText, GetResult_lineText [] N a ipA fpA S '.' b ipD fpD ipMi fpMi ipMa fpMa
        [] (fun _ hc => nomatch hc) hN (hg a (by simp)) hA hS (by decide) (hg b (by simp)) hD
        hMi hMa (stops_nil _)]

/-- C10, witness: the theorem at the line
`a/b -> avg 12.5ms out of 7 samples. (std dev 0.5, min 3, max 40)` with a tab
before the name, two spaces after it and a space and a tab after `std dev`,
which parses like the line itself; with a tab instead of the space after `avg`
the line does not parse. -/
theorem getResult_whitespace_runs_witness :
    GetResult (String.mk (lineText "\t".data "a/b".data "  ".data
        (decimal "12".data "5".data ++ ['m', 's']) "7".data '.' " \t".data
        (decimal "0".data "5".data) (decimal "3".data []) (decimal "40".data []) [])) =
      GetResult (lineOf "a/b".data (decimal "12".data "5".data ++ ['m', 's']) "7".data
        (decimal "0".data "5".data) (decimal "3".data []) (decimal "40".data [])) ∧
      (GetResult (String.mk (weave ["a/b".data, "->".data, "avg".data,
        decimal "12".data "5".data ++ ['m', 's'], "out".data, "of".data, "7".data,
        "samples.".data, "(std".data, "dev".data, decimal "0".data "5".data ++ [','],
        "min".data, decimal "3".data [] ++ [','], "max".data, decimal "40".data [] ++ [')']]
        [[' '], [' '], ['\t'], [' '], [' '], [' '], [' '], [' '], [' '], [' '], [' '], [' '],
          [' '], [' ']]))).2 ≠ none :=
  ⟨(getResult_whitespace_runs "\t".data "  ".data " \t".data "a/b".data "12".data
    "5".data "7".data "0".data "5".data "3".data [] "40".data [] (by decide) (by decide)
    (by decide) (by decide) (by decide!) (by decide!) (by decide!) (by decide!)
    (by decide!)).2.1,
   fun h => by
    obtain ⟨a, b, e⟩ := ((getResult_whitespace_runs [] [' '] [' '] "a/b".data "12".data
      "5".data "7".data "0".data "5".data "3".data [] "40".data [] (by decide) (by decide)
      (by decide) (by decide) (by decide!) (by decide!) (by decide!) (by decide!)
      (by decide!)).2.2
      [[' '], [' '], ['\t'], [' '], [' '], [' '], [' '], [' '], [' '], [' '], [' '], [' '],
        [' '], [' ']] rfl (by decide)).1 h
    simp at e⟩

/-- C11: for every line `L` and all strings `W1`, `W2` of spaces and tabs,
`GetResult` succeeds on `W1 ++ L ++ W2` exactly when it succeeds on `L`, and
both calls return the same Result. -/
theorem getResult_trim (W1 L W2 : String) (h1 : ∀ c ∈ W1.data, c = ' ' ∨ c = '\t')
    (h2 : ∀ c ∈ W2.data, c = ' ' ∨ c = '\t') :
    ((GetResult (W1 ++ L ++ W2)).2 = none ↔ (GetResult L).2 = none) ∧
      (GetResult (W1 ++ L ++ W2)).1 = (GetResult L).1 := by
  have e : W1 ++ L ++ W2 = String.mk (W1.data ++ (L.data ++ W2.data)) :=
    String.ext (by simp)
  rw [e]
  exact ⟨(getResult_blanks W1.data L.data W2.data h1 h2).2,
    (getResult_blanks W1.data L.data W2.data h1 h2).1⟩

/-- C11, witness: the theorem at the line
`x -> avg 1ms out of 5 samples. (std dev 1, min 1, max 1)` with a space and a
tab before it and a tab and a space after it. -/
theorem getResult_trim_witness :
    (GetResult (" \t" ++ "x -> avg 1ms out of 5 samples. (std dev 1, min 1, max 1)" ++
        "\t ")).2 = none ∧
      (GetResult (" \t" ++ "x -> avg 1ms out of 5 samples. (std dev 1, min 1, max 1)" ++
        "\t ")).1 = ⟨"x", 1000000, 5, 1000000, 1000000, 1000000⟩ :=
  ⟨(getResult_trim " \t" "x -> avg 1ms out of 5 samples. (std dev 1, min 1, max 1)" "\t "
      (by decide) (by decide)).1.2 (by decide!),
    (getResult_trim " \t" "x -> avg 1ms out of 5 samples. (std dev 1, min 1, max 1)" "\t "
      (by decide) (by decide)).2.trans (by decide!)⟩

/-- C12: for a line of the pattern's shape with single spaces whose fields hold
no whitespace and whose sample count `X` is not a non-empty string of the digits
`0` to `9` (a negative number, a number with a fraction, a word), `GetResult`
returns the error of a line that does not match, with the zero Result. -/
theorem getResult_count_rejected (N A X D Mi Ma : List Char)
    (hN : ∀ c ∈ N, isSpace c = false) (hA : ∀ c ∈ A, isSpace c = false)
    (hX : ∀ c ∈ X, isSpace c = false) (hD : ∀ c ∈ D, isSpace c = false)
    (hMi : ∀ c ∈ Mi, isSpace c = false) (hMa : ∀ c ∈ Ma, isSpace c = false)
    (hbad : ¬ (X ≠ [] ∧ ∀ c ∈ X, isDigit c = true)) :
    (GetResult (lineOf N A X D Mi Ma)).2 = some (.noMatch (lineOf N A X D Mi Ma) []) ∧
      (GetResult (lineOf N A X D Mi Ma)).1 = Result.zero := by
  rw [getResult_bad_count N A X D Mi Ma hN hA hX hD hMi hMa hbad]
  exact ⟨rfl, rfl⟩

/-- C12, witness: the theorem at the line
`x -> avg 1ms out of -5 samples. (std dev 1, min 1, max 1)`. -/
theorem getResult_count_rejected_witness :
    (GetResult (lineOf "x".data "1ms".data "-5".data "1".data "1".data "1".data)).2 =
        some (.noMatch "x -> avg 1ms out of -5 samples. (std dev 1, min 1, max 1)" []) ∧
      lineOf "x".data "1ms".data "-5".data "1".data "1".data "1".data =
        "x -> avg 1ms out of -5 samples. (std dev 1, min 1, max 1)" :=
  ⟨(getResult_count_rejected "x".data "1ms".data "-5".data "1".data "1".data "1".data
      (by decide) (by decide) (by decide) (by decide) (by decide) (by decide) (by decide)).1,
    by decide⟩

/-- C13, counterexample: `GetResult` succeeds on lines of the pattern's shape
whose average is `1.5s`, `3us` or `1h2m`, with the averages 1500000000, 3000 and
3720000000000 nanoseconds. -/
theorem getResult_other_units :
    GetResult "x -> avg 1.5s out of 1 samples. (std dev 1, min 1, max 1)" =
        (⟨"x", 1500000000, 1, 1000000, 1000000, 1000000⟩, none) ∧
      GetResult "x -> avg 3us out of 1 samples. (std dev 1, min 1, max 1)" =
        (⟨"x", 3000, 1, 1000000, 1000000, 1000000⟩, none) ∧
      GetResult "x -> avg 1h2m out of 1 samples. (std dev 1, min 1, max 1)" =
        (⟨"x", 3720000000000, 1, 1000000, 1000000, 1000000⟩, none) := by
  decide!

/-- C13: the average is what `time.ParseDuration` makes of the token after
`avg`. For a line that is otherwise well-formed, if `ParseDuration` accepts the
token with the value `v` then `GetResult` succeeds with `Average = v`, whatever
the unit, and if `ParseDuration` rejects the token then `GetResult` returns the
error of a bad average, with only the name set in the Result. A decimal literal
`ip.fp` followed by `ms` is accepted with `ip * 1000000` nanoseconds plus the
nanoseconds of the fraction. -/
theorem getResult_average_duration (N A S ipD fpD ipMi fpMi ipMa fpMa : List Char)
    (hN : Token (fun c => !isSpace c) N) (hA : Token (fun c => !isSpace c) A)
    (hS : S ≠ [] ∧ Digits S ∧ strconv.decVal S < 2 ^ 31)
    (hD : IsDecimal ipD fpD (10 ^ 300)) (hMi : IsDecimal ipMi fpMi (10 ^ 300))
    (hMa : IsDecimal ipMa fpMa (10 ^ 300)) :
    (∀ v, time.ParseDuration (String.mk A) = .ok v →
        GetResult (lineOf N A S (decimal ipD fpD) (decimal ipMi fpMi) (decimal ipMa fpMa)) =
          (⟨String.mk N, v, (strconv.decVal S : Int), msValue ipD fpD, msValue ipMi fpMi,
            msValue ipMa fpMa⟩, none)) ∧
      (∀ e, time.ParseDuration (String.mk A) = .error e →
        GetResult (lineOf N A S (decimal ipD fpD) (decimal ipMi fpMi) (decimal ipMa fpMa)) =
          (⟨String.mk N, 0, 0, 0, 0, 0⟩,
            some (.average (lineOf N A S (decimal ipD fpD) (decimal ipMi fpMi)
              (decimal ipMa fpMa)) e))) ∧
      (∀ ip fp, IsDecimal ip fp (9 * 10 ^ 12) → A = decimal ip fp ++ ['m', 's'] →
        GetResult (lineOf N A S (decimal ipD fpD) (decimal ipMi fpMi) (decimal ipMa fpMa)) =
          (⟨String.mk N, ((strconv.decVal ip * 1000000 + time.msFraction fp : Nat) : Int),
            (strconv.decVal S : Int), msValue ipD fpD, msValue ipMi fpMi,
            msValue ipMa fpMa⟩, none)) :=
  have h := getResult_average N A S ipD fpD ipMi fpMi ipMa fpMa hN hA hS hD hMi hMa
  ⟨h.1, h.2, fun ip fp hd e =>
    h.1 _ (e ▸ time.parseDurationChars_ms ip fp hd.1 hd.2.1 hd.2.2.1 hd.2.2.2)⟩

/-- C13, witness: the theorem at the lines
`a/b -> avg 1h2m out of 7 samples. (std dev 0.5, min 3, max 40)`, which is
accepted, and `a/b -> avg 1.5 out of 7 samples. (std dev 0.5, min 3, max 40)`,
which is rejected for its missing unit. -/
theorem getResult_average_duration_witness :
    (GetResult (lineOf "a/b".data "1h2m".data "7".data (decimal "0".data "5".data)
        (decimal "3".data []) (decimal "40".data []))).1.Average = 3720000000000 ∧
      (GetResult (lineOf "a/b".data "1.5".data "7".data (decimal "0".data "5".data)
        (decimal "3".data []) (decimal "40".data []))).2 =
        some (.average "a/b -> avg 1.5 out of 7 samples. (std dev 0.5, min 3, max 40)"
          .missingUnit) :=
  ⟨by
    rw [(getResult_average_duration "a/b".data "1h2m".data "7".data "0".data "5".data
      "3".data [] "40".data [] (by decide) (by decide) (by decide!) (by decide!) (by decide!)
      (by decide!)).1 3720000000000 (except_ok_of _ _ (by decide!))],
   by
    rw [(getResult_average_duration "a/b".data "1.5".data "7".data "0".data "5".data
      "3".data [] "40".data [] (by decide) (by decide) (by decide!) (by decide!) (by decide!)
      (by decide!)).2.1 .missingUnit (except_error_of _ _ (by decide!))]
    decide⟩

/-- C14: whenever `GetResult` returns an error for the line `t`, the message of
the error contains the quoted form of `t`, whatever the branch that failed (no
match, bad average, bad sample count, bad std dev, bad min, bad max) and
however the formatting verbs render their arguments. -/
theorem getResult_error_quotes_line (f : Verbs) (t : String) (e : GetResultError)
    (h : (GetResult t).2 = some e) :
    ∃ pre post, e.Error f = pre ++ f.quote t ++ post :=
  getResult_error_message f t e h

/-- C14, witness: the theorem at the line `not a result`, which does not match,
and at the line `x -> avg 1ms out of 2 samples. (std dev y, min 1, max 1)`,
whose std dev does not parse, with a quoting verb that puts the text between
double quotes. -/
theorem getResult_error_quotes_line_witness :
    (∃ pre post,
        (GetResultError.noMatch "not a result" []).Error
            ⟨fun s => "\"" ++ s ++ "\"", fun _ => "[]", fun _ => "", fun _ => "", fun _ => ""⟩ =
          pre ++ ("\"" ++ "not a result" ++ "\"") ++ post) ∧
      (GetResultError.noMatch "not a result" []).Error
          ⟨fun s => "\"" ++ s ++ "\"", fun _ => "[]", fun _ => "", fun _ => "", fun _ => ""⟩ =
        "could not parse: \"not a result\": []" ∧
      ∃ pre post,
        (GetResultError.stdDev "x -> avg 1ms out of 2 samples. (std dev y, min 1, max 1)"
            (.float "y" .invalid)).Error
            ⟨fun s => "\"" ++ s ++ "\"", fun _ => "[]", fun _ => "", fun _ => "", fun _ => ""⟩ =
          pre ++ ("\"" ++ "x -> avg 1ms out of 2 samples. (std dev y, min 1, max 1)" ++ "\"") ++
            post :=
  ⟨getResult_error_quotes_line
      ⟨fun s => "\"" ++ s ++ "\"", fun _ => "[]", fun _ => "", fun _ => "", fun _ => ""⟩
      "not a result" (.noMatch "not a result" []) (by decide!),
    by decide,
    getResult_error_quotes_line
      ⟨fun s => "\"" ++ s ++ "\"", fun _ => "[]", fun _ => "", fun _ => "", fun _ => ""⟩
      "x -> avg 1ms out of 2 samples. (std dev y, min 1, max 1)"
      (.stdDev "x -> avg 1ms out of 2 samples. (std dev y, min 1, max 1)" (.float "y" .invalid))
      (by decide!)⟩

/-- C15: whenever `GetResult` succeeds, the Name of the Result is not empty and
holds no space, tab, newline, form feed or carriage return, and NumSamples lies
between 0 and 2^31 - 1. -/
theorem getResult_name_samples (t : String) (h : (GetResult t).2 = none) :
    (GetResult t).1.Name.data ≠ [] ∧
      (∀ c ∈ (GetResult t).1.Name.data,
        c ≠ ' ' ∧ c ≠ '\t' ∧ c ≠ '\n' ∧ c ≠ Char.ofNat 12 ∧ c ≠ '\r') ∧
      0 ≤ (GetResult t).1.NumSamples ∧ (GetResult t).1.NumSamples ≤ 2 ^ 31 - 1 := by
  obtain ⟨hN, h0, h1⟩ := getResult_ok_name t h
  refine ⟨hN.1, fun c hc => ?_, h0, h1⟩
  have := hN.2 c hc
  simp only [isSpace, Bool.not_eq_true', Bool.or_eq_false_iff, beq_eq_false_iff_ne] at this
  exact ⟨this.2, this.1.1.1.1, this.1.1.1.2, this.1.1.2, this.1.2⟩

/-- C15, witness: the theorem at the example line, whose name is
`basic/increment` and whose sample count is 2534, and at a line with the largest
sample count, 2147483647. -/
theorem getResult_name_samples_witness :
    ((GetResult exampleLine).1.Name.data ≠ [] ∧
      (∀ c ∈ (GetResult exampleLine).1.Name.data,
        c ≠ ' ' ∧ c ≠ '\t' ∧ c ≠ '\n' ∧ c ≠ Char.ofNat 12 ∧ c ≠ '\r') ∧
      0 ≤ (GetResult exampleLine).1.NumSamples ∧
      (GetResult exampleLine).1.NumSamples ≤ 2 ^ 31 - 1) ∧
      (GetResult exampleLine).1.Name = "basic/increment" ∧
      (GetResult exampleLine).1.NumSamples = 2534 ∧
      GetResult "x -> avg 1ms out of 2147483647 samples. (std dev 1, min 1, max 1)" =
        (⟨"x", 1000000, 2147483647, 1000000, 1000000, 1000000⟩, none) :=
  ⟨getResult_name_samples exampleLine (by decide!), by decide!, by decide!, by decide!⟩

/-- C16: on the empty string and on every line that holds only whitespace
(space, tab, newline, form feed, carriage return) `GetResult` returns the error
of a line that does not match, with the zero Result, and the loop of `Process`
skips the line: it writes nothing for it. -/
theorem getResult_blank_line (t : String) (h : ∀ c ∈ t.data, isSpace c = true) :
    GetResult t = (Result.zero, some (.noMatch t [])) ∧ emit t = "" ∧
      ∀ ts w, processLines (t :: ts) w = processLines ts w := by
  have hg := getResult_whitespace t h
  have hne : (GetResult t).2 ≠ none := by rw [hg]; simp
  exact ⟨hg, emit_of_error t hne, fun ts w => processLines_skip t hne ts w⟩

/-- C16, witness: the theorem at the empty string and at the line of two spaces,
a tab and a space; `Process` writes nothing for an input of such lines. -/
theorem getResult_blank_line_witness :
    GetResult "" = (Result.zero, some (.noMatch "" [])) ∧
      GetResult "  \t " = (Result.zero, some (.noMatch "  \t " [])) ∧
      Process ⟨"\n  \t \n", none⟩ ⟨"", none⟩ = (⟨"", none⟩, none) :=
  ⟨(getResult_blank_line "" (by decide)).1, (getResult_blank_line "  \t " (by decide)).1,
    by decide!⟩

/-- C17: `GetResult` accepts the example line with the `.` after `samples`
replaced by `!`, and returns the Result of the example line. The pattern spells
the other literals of the example line and escapes its parentheses, but its `.`
after `samples` is not escaped and stands for any character other than a
newline, so a line with other text in the place of that literal is not
rejected. -/
theorem getResult_samples_bang :
    GetResult "basic/increment -> avg 0.00927782162588819ms out of 2534 samples! (std dev 0.00161196365508829, min 0.008, max 0.082)" =
        (⟨"basic/increment", 9277, 2534, 1611, 8000, 82000⟩, none) ∧
      GetResult exampleLine = (⟨"basic/increment", 9277, 2534, 1611, 8000, 82000⟩, none) := by
  decide!

/-- The literal words of the pattern are checked. For a line of fifteen words
without whitespace, separated by single spaces, `GetResult` succeeds only if
`->`, `avg`, `out`, `of`, `samples` followed by one character, `(std`, `dev`,
`min`, `max` stand in their places, with a `,` closing the tenth and the twelfth
field and a `)` in the last word. The character after `samples` is not checked:
a line with the literal words in place has the Result of the line with `.`
there, and is accepted exactly when that line is. -/
theorem getResult_literals (ts : List (List Char))
    (hts : ∀ t ∈ ts, ∀ c ∈ t, isSpace c = false) (hlen : ts.length = 15) :
    ((GetResult (String.mk (joinWords ts))).2 = none →
        ∃ p N A S dot D Mi Ma tail,
          ts = [p ++ N, "->".data, "avg".data, A, "out".data, "of".data, S,
            "samples".data ++ [dot], "(std".data, "dev".data, D ++ [','], "min".data,
            Mi ++ [','], "max".data, Ma ++ ')' :: tail]) ∧
      ∀ N A S dot D Mi Ma,
        ts = [N, "->".data, "avg".data, A, "out".data, "of".data, S,
          "samples".data ++ [dot], "(std".data, "dev".data, D ++ [','], "min".data,
          Mi ++ [','], "max".data, Ma ++ [')']] →
        N ≠ [] → A ≠ [] → (S ≠ [] ∧ ∀ c ∈ S, isDigit c = true) → D ≠ [] → Mi ≠ [] → Ma ≠ [] →
        (GetResult (String.mk (joinWords ts))).1 = (GetResult (lineOf N A S D Mi Ma)).1 ∧
          ((GetResult (String.mk (joinWords ts))).2 = none ↔
            (GetResult (lineOf N A S D Mi Ma)).2 = none) := by
  refine ⟨getResult_literal_words ts hts hlen, ?_⟩
  intro N A S dot D Mi Ma e hN hA hS hD hMi hMa
  subst e
  rw [joinWords_dot]
  have hdot : dot ≠ '\n' := by
    intro h0
    have := hts ("samples".data ++ [dot]) (by simp) dot (by simp)
    rw [h0] at this
    revert this
    decide
  exact getResult_any_dot N A S D Mi Ma dot
    (token_of_nospace hN (hts N (by simp)))
    (token_of_nospace hA (hts A (by simp))) hS hdot
    (token_of_nospace hD fun c hc => hts (D ++ [',']) (by simp) c (by simp [hc]))
    (token_of_nospace hMi fun c hc => hts (Mi ++ [',']) (by simp) c (by simp [hc]))
    (token_of_nospace hMa fun c hc => hts (Ma ++ [')']) (by simp) c (by simp [hc]))

/-- The words of the line
`a/b -> avg 12.5ms out of 7 samples! (std dev 0.5, min 3, max 40)` give the
Result of the line that has `samples.`. -/
theorem getResult_literals_bang :
    (GetResult (String.mk (joinWords ["a/b".data, "->".data, "avg".data, "12.5ms".data,
        "out".data, "of".data, "7".data, "samples".data ++ ['!'], "(std".data, "dev".data,
        "0.5".data ++ [','], "min".data, "3".data ++ [','], "max".data,
        "40".data ++ [')']]))).1 =
      (GetResult (lineOf "a/b".data "12.5ms".data "7".data "0.5".data "3".data "40".data)).1 ∧
      (GetResult (lineOf "a/b".data "12.5ms".data "7".data "0.5".data "3".data "40".data)).1 =
        ⟨"a/b", 12500000, 7, 500000, 3000000, 40000000⟩ :=
  ⟨((getResult_literals ["a/b".data, "->".data, "avg".data, "12.5ms".data,
        "out".data, "of".data, "7".data, "samples".data ++ ['!'], "(std".data, "dev".data,
        "0.5".data ++ [','], "min".data, "3".data ++ [','], "max".data,
        "40".data ++ [')']] (by decide) (by decide)).2 "a/b".data "12.5ms".data "7".data '!'
        "0.5".data "3".data "40".data rfl (by decide) (by decide) (by decide) (by decide)
        (by decide) (by decide)).1,
    by decide!⟩

/-- C18, counterexample: `GetResult` succeeds on a line whose std dev is the
hexadecimal float `0x1p-2`, whose min is `1e3` and whose max is `1_0`, with 250000,
1000000000 and 10000000 nanoseconds, and on a line whose std dev, min and max
are `NaN`, `Inf` and `Infinity`. -/
theorem getResult_hex_float :
    GetResult "x -> avg 1ms out of 1 samples. (std dev 0x1p-2, min 1e3, max 1_0)" =
        (⟨"x", 1000000, 1, 250000, 1000000000, 10000000⟩, none) ∧
      (GetResult "x -> avg 1ms out of 1 samples. (std dev NaN, min Inf, max Infinity)").2 =
        none := by
  decide!

/-- C18: the std dev, min and max are what `strconv.ParseFloat` makes of their
tokens. For a line that is otherwise well-formed, if `ParseFloat` accepts the
three tokens with the values `x`, `y`, `z` then `GetResult` succeeds, and the
three fields are the conversions to an integer of `x`, `y`, `z` times 1000000;
and if `GetResult` succeeds then `ParseFloat` accepts the three tokens: an error
is returned exactly when `ParseFloat` rejects one of them. -/
theorem getResult_float_fields (N ipA fpA S D Mi Ma : List Char)
    (hN : Token (fun c => !isSpace c) N) (hA : IsDecimal ipA fpA (9 * 10 ^ 12))
    (hS : S ≠ [] ∧ Digits S ∧ strconv.decVal S < 2 ^ 31)
    (hD : Token (fun c => !isSpace c) D) (hMi : Token (fun c => !isSpace c) Mi)
    (hMa : Token (fun c => !isSpace c) Ma) :
    (∀ x y z, strconv.ParseFloat (String.mk D) = .ok x →
        strconv.ParseFloat (String.mk Mi) = .ok y →
        strconv.ParseFloat (String.mk Ma) = .ok z →
        GetResult (lineOf N (decimal ipA fpA ++ ['m', 's']) S D Mi Ma) =
          (⟨String.mk N, ((strconv.decVal ipA * 1000000 + time.msFraction fpA : Nat) : Int),
            (strconv.decVal S : Int),
            float64.toInt64 (float64.mul (float64.ofNat time.Millisecond) x),
            float64.toInt64 (float64.mul (float64.ofNat time.Millisecond) y),
            float64.toInt64 (float64.mul (float64.ofNat time.Millisecond) z)⟩, none)) ∧
      ((GetResult (lineOf N (decimal ipA fpA ++ ['m', 's']) S D Mi Ma)).2 = none →
        (∃ x, strconv.ParseFloat (String.mk D) = .ok x) ∧
        (∃ y, strconv.ParseFloat (String.mk Mi) = .ok y) ∧
        (∃ z, strconv.ParseFloat (String.mk Ma) = .ok z)) :=
  getResult_floats N ipA fpA S D Mi Ma hN hA hS hD hMi hMa

/-- C18, witness: the theorem at the line
`a/b -> avg 12.5ms out of 7 samples. (std dev 0x1p-2, min 1e3, max 0.5)`, whose
three fields `ParseFloat` reads as 1/4, 1000 and 1/2; a line with the std dev
`abc` and a line with the max `1e999` are rejected. -/
theorem getResult_float_fields_witness :
    GetResult (lineOf "a/b".data (decimal "12".data "5".data ++ ['m', 's']) "7".data
        "0x1p-2".data "1e3".data "0.5".data) =
      (⟨"a/b", 12500000, 7, 250000, 1000000000, 500000⟩, none) ∧
      (GetResult "x -> avg 1ms out of 1 samples. (std dev abc, min 1, max 1)").2 =
        some (.stdDev "x -> avg 1ms out of 1 samples. (std dev abc, min 1, max 1)"
          (.float "abc" .invalid)) ∧
      (GetResult "x -> avg 1ms out of 1 samples. (std dev 1, min 1, max 1e999)").2 =
        some (.max "x -> avg 1ms out of 1 samples. (std dev 1, min 1, max 1e999)"
          (.float "1e999" .range)) :=
  ⟨((getResult_float_fields "a/b".data "12".data "5".data "7".data "0x1p-2".data "1e3".data
      "0.5".data (by decide) (by decide!) (by decide!) (by decide) (by decide) (by decide)).1
      (.fin false (2 ^ 1072)) (.fin false (1000 * 2 ^ 1074)) (.fin false (2 ^ 1073))
      (except_ok_of _ _ (by decide!)) (except_ok_of _ _ (by decide!))
      (except_ok_of _ _ (by decide!))).trans (by decide!),
    by decide!, by decide!⟩

/-- C19: for a line that is otherwise well-formed and whose sample count is a
string of digits with a value of 2^31 or more, `GetResult` returns the error of
a bad sample count (the range error of `strconv.ParseInt` with 32 bits), with
only Name and Average set in the Result, and the loop of `Process` skips the
line: it writes nothing for it. -/
theorem getResult_count_range (N ipA fpA S D Mi Ma : List Char)
    (hN : Token (fun c => !isSpace c) N) (hA : IsDecimal ipA fpA (9 * 10 ^ 12))
    (hS : S ≠ [] ∧ ∀ c ∈ S, isDigit c = true) (hb : 2 ^ 31 ≤ strconv.decVal S)
    (hD : Token (fun c => !isSpace c) D) (hMi : Token (fun c => !isSpace c) Mi)
    (hMa : Token (fun c => !isSpace c) Ma) :
    GetResult (lineOf N (decimal ipA fpA ++ ['m', 's']) S D Mi Ma) =
        (⟨String.mk N, ((strconv.decVal ipA * 1000000 + time.msFraction fpA : Nat) : Int),
          0, 0, 0, 0⟩,
          some (.samples (lineOf N (decimal ipA fpA ++ ['m', 's']) S D Mi Ma) .range)) ∧
      emit (lineOf N (decimal ipA fpA ++ ['m', 's']) S D Mi Ma) = "" ∧
      ∀ ts w, processLines (lineOf N (decimal ipA fpA ++ ['m', 's']) S D Mi Ma :: ts) w =
        processLines ts w := by
  have hg := getResult_large_count N ipA fpA S D Mi Ma hN hA hS hb hD hMi hMa
  have hne : (GetResult (lineOf N (decimal ipA fpA ++ ['m', 's']) S D Mi Ma)).2 ≠ none := by
    rw [hg]; simp
  exact ⟨hg, emit_of_error _ hne, fun ts w => processLines_skip _ hne ts w⟩

/-- C19, witness: the theorem at the line
`a/b -> avg 12.5ms out of 2147483648 samples. (std dev 0.5, min 3, max 40)`;
with 2147483647 samples the line is accepted. -/
theorem getResult_count_range_witness :
    GetResult (lineOf "a/b".data (decimal "12".data "5".data ++ ['m', 's']) "2147483648".data
        "0.5".data "3".data "40".data) =
      (⟨"a/b", 12500000, 0, 0, 0, 0⟩,
        some (.samples "a/b -> avg 12.5ms out of 2147483648 samples. (std dev 0.5, min 3, max 40)"
          .range)) ∧
      GetResult "a/b -> avg 12.5ms out of 2147483647 samples. (std dev 0.5, min 3, max 40)" =
        (⟨"a/b", 12500000, 2147483647, 500000, 3000000, 40000000⟩, none) :=
  ⟨(getResult_count_range "a/b".data "12".data "5".data "2147483648".data "0.5".data "3".data
      "40".data (by decide) (by decide!) (by decide) (by decide!) (by decide) (by decide)
      (by decide)).1.trans (by decide!),
    by decide!⟩

/-- C20: for lines `t1`, `t2` on which `GetResult` succeeds, the rendered output
line of the Result of `t1` holds exactly two tabs, and if the Results of `t1`
and `t2` render to the same output line then they have the same Name, the same
NumSamples and the same Average. -/
theorem render_unambiguous (t1 t2 : String) (h1 : (GetResult t1).2 = none)
    (h2 : (GetResult t2).2 = none) :
    (render (GetResult t1).1).data.count '\t' = 2 ∧
      (render (GetResult t1).1 = render (GetResult t2).1 →
        (GetResult t1).1.Name = (GetResult t2).1.Name ∧
        (GetResult t1).1.NumSamples = (GetResult t2).1.NumSamples ∧
        (GetResult t1).1.Average = (GetResult t2).1.Average) :=
  have n1 := tab_not_mem_token (getResult_ok_name t1 h1).1
  have n2 := tab_not_mem_token (getResult_ok_name t2 h2).1
  ⟨render_tabs _ n1, render_inj _ _ n1 n2⟩

/-- C20, witness: the theorem at the example line and the example line with
other values for std dev, min and max, which render to the same output line
`Benchmarkbasic/increment\t2534\t9277 ns/op`. -/
theorem render_unambiguous_witness :
    (render (GetResult exampleLine).1).data.count '\t' = 2 ∧
      render (GetResult exampleLine).1 = "Benchmarkbasic/increment\t2534\t9277 ns/op" ∧
      (GetResult exampleLine).1.Name =
        (GetResult "basic/increment -> avg 0.00927782162588819ms out of 2534 samples. (std dev 1, min 2, max 3)").1.Name :=
  ⟨(render_unambiguous exampleLine
      "basic/increment -> avg 0.00927782162588819ms out of 2534 samples. (std dev 1, min 2, max 3)"
      (by decide!) (by decide!)).1,
    by decide!,
    ((render_unambiguous exampleLine
      "basic/increment -> avg 0.00927782162588819ms out of 2534 samples. (std dev 1, min 2, max 3)"
      (by decide!) (by decide!)).2 (by decide!)).1⟩

end Dbench
